import Mathlib

/-! # Game of life board (`src/main.cpp`)

A shallow embedding of `class board`: the two cell buffers, the per-cell vertex
indices and the vertex array are total maps indexed by `int`, the loops of the
source are `forLoop`s over explicit state, and the worker threads of
`board::iterate` are run one band after the other (the order is a parameter of
`iterateIn`, the source order `0, 1, ..., CPU_COUNT-1` is `iterate`).

The band bounds `i * (x_size / CPU_COUNT)` are computed in `unsigned`; they never
exceed `x_size`, an `int`, so no reduction modulo `2^32` takes place (see
`band_xmin_le`, `band_xmax_le`).

The other `int` expressions of the source (`3*x_size*y_size`, `x*square_size`,
the vertex indices) are taken over the integers: where they would leave the
range of `int` the source has undefined behaviour. A vertex position is the
pair of integers the source hands to `sf::Vector2f`.

`iterate_log` is `iterate` with a log of the array accesses it performs, in
program order; it computes the same board (`iterate_log_fst`).
-/

namespace GameOfLife

/-! ## Data model -/

/-- Colours of `sf::Color` that the program uses (`White` is the colour of a
default-constructed `sf::Vertex`). -/
inductive Color where
  | White
  | Black
  | Blue
  | Red
  deriving DecidableEq, Repr

/-- An `sf::Vertex`: a position and a colour. The position holds the integer
products the source passes to `sf::Vector2f`. -/
structure Vertex where
  px : Int
  py : Int
  color : Color
  deriving DecidableEq, Repr

/-- The fields of `class board`; `vertex_count` is the number of vertices the
`sf::VertexArray` behind `vertex_array` was created with. -/
structure board where
  grid : Int → Int → Bool
  new_grid : Int → Int → Bool
  point_indicies : Int → Int → Int
  x_size : Nat
  y_size : Nat
  square_size : Int
  vertex_array : Int → Vertex
  vertex_count : Nat

/-- The loop `for (int k = lo; k < hi; ++k) s = body(k, s);`. -/
def forLoop {σ : Type} (lo hi : Int) (body : Int → σ → σ) (s : σ) : σ :=
  (List.range (hi - lo).toNat).foldl (fun acc (k : Nat) => body (lo + (k : Int)) acc) s

/-- The assignment `g[x][y] = v`. -/
def set2 {α : Type} (g : Int → Int → α) (x y : Int) (v : α) : Int → Int → α :=
  fun x' y' => if x' = x ∧ y' = y then v else g x' y'

/-- The assignment `va[j].color = c`. -/
def setColor (va : Int → Vertex) (j : Int) (c : Color) : Int → Vertex :=
  fun j' => if j' = j then { va j' with color := c } else va j'

/-- The assignment `va[j].position = (px, py)`. -/
def setPosition (va : Int → Vertex) (j : Int) (px py : Int) : Int → Vertex :=
  fun j' => if j' = j then { va j' with px := px, py := py } else va j'

/-! ## `board::neighbours` -/

/-- `board::neighbours(x, y)`: starts from `-grid[x][y]` and adds one for every
live cell of the 3x3 block around `(x, y)`. -/
def board.neighbours (b : board) (x y : Int) : Int :=
  let ret : Int := -(if b.grid x y then 1 else 0)
  forLoop (-1) 2 (fun dx ret =>
    forLoop (-1) 2 (fun dy ret =>
      if b.grid (x + dx) (y + dy) then ret + 1 else ret) ret) ret

/-- The number of live cells among the eight cells around `(x, y)`, as the
specification words it: the Moore neighbourhood, the cell itself left out. -/
def mooreCount (g : Int → Int → Bool) (x y : Int) : Nat :=
  ([(-1, -1), (-1, 0), (-1, 1), (0, -1), (0, 1), (1, -1), (1, 0), (1, 1)] :
    List (Int × Int)).countP (fun d => g (x + d.1) (y + d.2))

/-! ## `board::update_new_grid` -/

/-- The body of the cell loop of `board::update_new_grid`: the rule written to
`new_grid[x][y]`, then the colour of the three vertices of the cell. -/
def board.update_cell (b : board) (x y : Int) : board :=
  let ns := b.neighbours x y
  let b1 : board :=
    if ns < 2 then { b with new_grid := set2 b.new_grid x y false }
    else if ns = 2 then { b with new_grid := set2 b.new_grid x y (b.grid x y) }
    else if ns = 3 then { b with new_grid := set2 b.new_grid x y true }
    else { b with new_grid := set2 b.new_grid x y false }
  let i := b1.point_indicies x y
  forLoop i (i + 3) (fun j s =>
    if !(s.new_grid x y) then { s with vertex_array := setColor s.vertex_array j Color.Black }
    else if ns = 3 then { s with vertex_array := setColor s.vertex_array j Color.Blue }
    else { s with vertex_array := setColor s.vertex_array j Color.Red }) b1

/-- The state that the rule of `board::update_new_grid` gives cell `(x, y)`. -/
def board.nextState (b : board) (x y : Int) : Bool :=
  let ns := b.neighbours x y
  if ns < 2 then false else if ns = 2 then b.grid x y else if ns = 3 then true else false

/-- The colour that `board::update_new_grid` gives the vertices of cell `(x, y)`. -/
def board.nextColor (b : board) (x y : Int) : Color :=
  if !(b.nextState x y) then Color.Black
  else if b.neighbours x y = 3 then Color.Blue else Color.Red

/-- The guard `if (xmin < 1) xmin = 1;` of `board::update_new_grid`. -/
def clamp_xmin (xmin : Int) : Int := if xmin < 1 then 1 else xmin

/-- The guard `if (xmax > x_size - 1) xmax = x_size - 1;` of
`board::update_new_grid`. -/
def clamp_xmax (x_size : Nat) (xmax : Int) : Int :=
  if xmax > (x_size : Int) - 1 then (x_size : Int) - 1 else xmax

/-- `board::update_new_grid(xmin, xmax)`. -/
def board.update_new_grid (xmin xmax : Int) (b : board) : board :=
  let xmin := clamp_xmin xmin
  let xmax := clamp_xmax b.x_size xmax
  forLoop xmin xmax (fun x s =>
    forLoop 1 ((b.y_size : Int) - 1) (fun y s => s.update_cell x y) s) b

/-! ## `board::copy_grid` -/

/-- `board::copy_grid(xmin, xmax)`. -/
def board.copy_grid (xmin xmax : Int) (b : board) : board :=
  forLoop xmin xmax (fun x s =>
    forLoop 0 (b.y_size : Int) (fun y s =>
      { s with grid := set2 s.grid x y (s.new_grid x y) }) s) b

/-! ## `board::iterate` -/

/-- The global `CPU_COUNT`: whatever `std::thread::hardware_concurrency()`
reported. -/
def CPU_COUNT (hardware_concurrency : Nat) : Nat := hardware_concurrency

/-- The lower bound `xmin = i * (x_size / CPU_COUNT)` of band `i`. -/
def band_xmin (x_size cpu_count i : Nat) : Int :=
  ((i * (x_size / cpu_count) : Nat) : Int)

/-- The upper bound of band `i`: `(i+1) * (x_size / CPU_COUNT)`, replaced by
`x_size` for `i == CPU_COUNT - 1`. -/
def band_xmax (x_size cpu_count i : Nat) : Int :=
  if i = cpu_count - 1 then (x_size : Int)
  else (((i + 1) * (x_size / cpu_count) : Nat) : Int)

/-- The first round of threads of `board::iterate`: worker `i` runs
`update_new_grid` on band `i`; the workers are taken in the order `order`. -/
def board.compute_phase (cpu_count : Nat) (order : List Nat) (b : board) : board :=
  order.foldl (fun s i =>
    s.update_new_grid (band_xmin s.x_size cpu_count i) (band_xmax s.x_size cpu_count i)) b

/-- The second round of threads of `board::iterate`: worker `i` runs `copy_grid`
on band `i`; the workers are taken in the order `order`. -/
def board.commit_phase (cpu_count : Nat) (order : List Nat) (b : board) : board :=
  order.foldl (fun s i =>
    s.copy_grid (band_xmin s.x_size cpu_count i) (band_xmax s.x_size cpu_count i)) b

/-- One tick with the compute workers run in the order `compute` and the commit
workers in the order `commit` (lists of worker numbers). -/
def board.iterateIn (cpu_count : Nat) (compute commit : List Nat) (b : board) : board :=
  (b.compute_phase cpu_count compute).commit_phase cpu_count commit

/-- `board::iterate()` with `CPU_COUNT = cpu_count`: a compute worker per band,
joined, then a commit worker per band. -/
def board.iterate (cpu_count : Nat) (b : board) : board :=
  b.iterateIn cpu_count (List.range cpu_count) (List.range cpu_count)

/-! ## The constructor `board::board` -/

/-- The freshly allocated board, before the loops of the constructor run; the
vertex array is `sf::VertexArray(sf::PrimitiveType::Triangles, 3*x_size*y_size)`. -/
def board.alloc (x_size y_size : Nat) (square_size : Int) : board :=
  { grid := fun _ _ => false
    new_grid := fun _ _ => false
    point_indicies := fun _ _ => 0
    x_size := x_size
    y_size := y_size
    square_size := square_size
    vertex_array := fun _ => { px := 0, py := 0, color := Color.White }
    vertex_count := 3 * x_size * y_size }

/-- The body of the loop "Initalize the squares": the state carries the number of
calls of `rand()` made so far, `rand n` is what the `n`-th call returns. -/
def board.init_cell (rand : Nat → Nat) (x y : Int) (s : board × Nat) : board × Nat :=
  let b := s.1
  let b1 : board := { b with grid := set2 b.grid x y (rand s.2 % 2 == 0) }
  let b2 : board :=
    if x = 0 ∨ y = 0 ∨ x = (b.x_size : Int) - 1 ∨ y = (b.y_size : Int) - 1
    then { b1 with grid := set2 b1.grid x y false } else b1
  ({ b2 with new_grid := set2 b2.new_grid x y (b2.grid x y) }, s.2 + 1)

/-- The body of the loop "Set vertex array positions": the state carries the
local `i`. -/
def board.init_vertex (x y : Int) (s : board × Int) : board × Int :=
  let b := s.1
  let i := s.2
  let sq := b.square_size
  let va := b.vertex_array
  let va := setPosition va (i + 0) (x * sq) (y * sq)
  let va := setPosition va (i + 1) ((x + 1) * sq) (y * sq)
  let va := setPosition va (i + 2) ((x + 1) * sq) ((y + 1) * sq)
  let va := setColor va (i + 0) Color.Black
  let va := setColor va (i + 1) Color.Black
  let va := setColor va (i + 2) Color.Black
  ({ b with point_indicies := set2 b.point_indicies x y i, vertex_array := va }, i + 3)

/-- The loop "Initalize the squares" of the constructor, from no call of `rand()`
made. -/
def board.init_squares (rand : Nat → Nat) (b : board) : board × Nat :=
  forLoop 0 (b.x_size : Int) (fun x s =>
    forLoop 0 (b.y_size : Int) (fun y s => board.init_cell rand x y s) s) (b, 0)

/-- The loop "Set vertex array positions" of the constructor, from `i = 0`. -/
def board.init_vertices (b : board) : board × Int :=
  forLoop 0 (b.x_size : Int) (fun x s =>
    forLoop 0 (b.y_size : Int) (fun y s => board.init_vertex x y s) s) (b, 0)

/-- The constructor `board::board(x_size, y_size, square_size)`; `rand n` is the
value of the `n`-th call of `rand()`. -/
def board.board (x_size y_size : Nat) (square_size : Int) (rand : Nat → Nat) : board :=
  let b0 := board.alloc x_size y_size square_size
  let b1 := (b0.init_squares rand).1
  (b1.init_vertices).1

/-- The state the constructor gives cell `(x, y)`: dead on the border, else alive
when the `rand()` call made for the cell returned an even number. -/
def initial_cell (x_size y_size : Nat) (rand : Nat → Nat) (x y : Int) : Bool :=
  if x = 0 ∨ y = 0 ∨ x = (x_size : Int) - 1 ∨ y = (y_size : Int) - 1 then false
  else rand (x * (y_size : Int) + y).toNat % 2 == 0

/-- The board states the program can be in between two ticks: the constructed
board, and whatever `iterate` makes of such a state (with any worker count). -/
inductive Reachable : board → Prop where
  | init (x_size y_size : Nat) (square_size : Int) (rand : Nat → Nat) :
      Reachable (board.board x_size y_size square_size rand)
  | tick (cpu_count : Nat) (b : board) : Reachable b → Reachable (b.iterate cpu_count)

/-- The board after `k` rounds of the main loop: `k` calls of `iterate()`. -/
def ticks (cpu_count : Nat) : Nat → board → board
  | 0, b => b
  | k + 1, b => ticks cpu_count k (b.iterate cpu_count)

/-- A board with every interior cell alive, used for concrete evaluations. -/
def fullBoard (w h : Nat) : board := board.board w h 1 (fun _ => 0)

/-! ## Predicates used in the statements -/

/-- `s` differs from `b` at most in `new_grid` and in vertex colours. -/
def SameFrame (b s : board) : Prop :=
  s.grid = b.grid ∧ s.point_indicies = b.point_indicies ∧ s.x_size = b.x_size ∧
  s.y_size = b.y_size ∧ s.square_size = b.square_size ∧
  ∀ j, (s.vertex_array j).px = (b.vertex_array j).px ∧
    (s.vertex_array j).py = (b.vertex_array j).py

/-- The vertex indices recorded for the cells are the ones the constructor
hands out: three consecutive entries per cell, cells in row-major order. -/
def Layout (b : board) : Prop :=
  ∀ x y : Int, 0 ≤ x → x < (b.x_size : Int) → 0 ≤ y → y < (b.y_size : Int) →
    b.point_indicies x y = 3 * (x * (b.y_size : Int) + y)

/-- Column `x` lies in the band that compute worker `i` processes. -/
def inComputeBand (x_size cpu_count i : Nat) (x : Int) : Prop :=
  clamp_xmin (band_xmin x_size cpu_count i) ≤ x ∧
  x < clamp_xmax x_size (band_xmax x_size cpu_count i)

/-- Column `x` lies in the band that commit worker `i` copies. -/
def inCommitBand (x_size cpu_count i : Nat) (x : Int) : Prop :=
  band_xmin x_size cpu_count i ≤ x ∧ x < band_xmax x_size cpu_count i

/-- The number of columns compute worker `i` processes: the number of rounds of
the `x` loop of `update_new_grid` on the clamped bounds of band `i`. -/
def computeBandSize (x_size cpu_count i : Nat) : Nat :=
  (clamp_xmax x_size (band_xmax x_size cpu_count i)
    - clamp_xmin (band_xmin x_size cpu_count i)).toNat

/-- Cell `(x, y)` lies on the border of the board. -/
def onBorder (b : board) (x y : Int) : Prop :=
  x = 0 ∨ x = (b.x_size : Int) - 1 ∨ y = 0 ∨ y = (b.y_size : Int) - 1

/-- Cell `(x, y)` is a cell of the board. -/
def inBoard (b : board) (x y : Int) : Prop :=
  0 ≤ x ∧ x < (b.x_size : Int) ∧ 0 ≤ y ∧ y < (b.y_size : Int)

/-- Every border cell is dead in both buffers. -/
def BorderDead (b : board) : Prop :=
  ∀ x y : Int, inBoard b x y → onBorder b x y → b.grid x y = false ∧ b.new_grid x y = false

/-- The vertices of every border cell are black. -/
def BorderBlack (b : board) : Prop :=
  ∀ x y k : Int, inBoard b x y → onBorder b x y → 0 ≤ k → k < 3 →
    (b.vertex_array (3 * (x * (b.y_size : Int) + y) + k)).color = Color.Black

/-- The Moore count of the centre of a 3x3 block whose cell in column `i`, row `j`
is alive when both `a i` and `b j` hold (a pattern that is a product of a set of
columns and a set of rows). -/
def count8 (a0 a1 a2 b0 b1 b2 : Bool) : Nat :=
  ([(a0, b0), (a0, b1), (a0, b2), (a1, b0), (a1, b2), (a2, b0), (a2, b1), (a2, b2)] :
    List (Bool × Bool)).countP (fun p => p.1 && p.2)

/-- The rule of the game at the centre of such a 3x3 block. -/
def lifeStep (a0 a1 a2 b0 b1 b2 : Bool) : Bool :=
  decide (count8 a0 a1 a2 b0 b1 b2 = 3 ∨ (count8 a0 a1 a2 b0 b1 b2 = 2 ∧ (a1 && b1) = true))

/-- The 5x5 board the constructor builds when `rand()` returns an even number
exactly at its calls 11, 12 and 13, those for the cells `(2,1)`, `(2,2)`, `(2,3)`:
a vertical blinker. -/
def blinkerBoard : board :=
  board.board 5 5 1 (fun n => if n = 11 ∨ n = 12 ∨ n = 13 then 0 else 1)

/-! ## The array accesses of a tick -/

/-- What `iterate()` does to memory, and the calls of `neighbours` it makes. -/
inductive Event where
  | call_neighbours (x y : Int)
  | read_grid (x y : Int)
  | write_grid (x y : Int)
  | read_new_grid (x y : Int)
  | write_new_grid (x y : Int)
  | read_point_indicies (x y : Int)
  | write_vertex (j : Int)

/-- The event stays inside the arrays of board `b`: a cell index inside
`x_size` by `y_size`, a vertex index below the vertex count, and `neighbours`
called at an interior cell. -/
def Event.ok (b : board) : Event → Prop
  | Event.call_neighbours x y =>
      1 ≤ x ∧ x ≤ (b.x_size : Int) - 2 ∧ 1 ≤ y ∧ y ≤ (b.y_size : Int) - 2
  | Event.read_grid x y => 0 ≤ x ∧ x < (b.x_size : Int) ∧ 0 ≤ y ∧ y < (b.y_size : Int)
  | Event.write_grid x y => 0 ≤ x ∧ x < (b.x_size : Int) ∧ 0 ≤ y ∧ y < (b.y_size : Int)
  | Event.read_new_grid x y => 0 ≤ x ∧ x < (b.x_size : Int) ∧ 0 ≤ y ∧ y < (b.y_size : Int)
  | Event.write_new_grid x y => 0 ≤ x ∧ x < (b.x_size : Int) ∧ 0 ≤ y ∧ y < (b.y_size : Int)
  | Event.read_point_indicies x y =>
      0 ≤ x ∧ x < (b.x_size : Int) ∧ 0 ≤ y ∧ y < (b.y_size : Int)
  | Event.write_vertex j => 0 ≤ j ∧ j < (b.vertex_count : Int)

/-- The events of one call `neighbours(x, y)`: the read of `grid[x][y]` for the
initial value, then the nine reads of the scan. -/
def neighbours_events (x y : Int) : List Event :=
  forLoop (-1) 2 (fun dx l =>
    forLoop (-1) 2 (fun dy l => l ++ [Event.read_grid (x + dx) (y + dy)]) l)
    [Event.call_neighbours x y, Event.read_grid x y]

/-- The events of one round of the cell loop of `update_new_grid`, in program
order. -/
def update_cell_events (b : board) (x y : Int) : List Event :=
  let ns := b.neighbours x y
  let i := b.point_indicies x y
  neighbours_events x y
  ++ (if ns < 2 then [Event.write_new_grid x y]
      else if ns = 2 then [Event.read_grid x y, Event.write_new_grid x y]
      else if ns = 3 then [Event.write_new_grid x y]
      else [Event.write_new_grid x y])
  ++ [Event.read_point_indicies x y]
  ++ forLoop i (i + 3) (fun j l => l ++ [Event.read_new_grid x y, Event.write_vertex j]) []

/-- `update_new_grid(xmin, xmax)` with the events it produces appended to a log. -/
def update_new_grid_log (xmin xmax : Int) (s : board × List Event) : board × List Event :=
  let xmin := clamp_xmin xmin
  let xmax := clamp_xmax s.1.x_size xmax
  forLoop xmin xmax (fun x t =>
    forLoop 1 ((s.1.y_size : Int) - 1) (fun y u =>
      (u.1.update_cell x y, u.2 ++ update_cell_events u.1 x y)) t) s

/-- `copy_grid(xmin, xmax)` with the events it produces appended to a log. -/
def copy_grid_log (xmin xmax : Int) (s : board × List Event) : board × List Event :=
  forLoop xmin xmax (fun x t =>
    forLoop 0 (s.1.y_size : Int) (fun y u =>
      ({ u.1 with grid := set2 u.1.grid x y (u.1.new_grid x y) },
        u.2 ++ [Event.read_new_grid x y, Event.write_grid x y])) t) s

/-- `iterate()` with `CPU_COUNT = cpu_count`, returning the board and the log of
all events of the tick. -/
def iterate_log (cpu_count : Nat) (b : board) : board × List Event :=
  let s1 := (List.range cpu_count).foldl (fun s i =>
    update_new_grid_log (band_xmin s.1.x_size cpu_count i) (band_xmax s.1.x_size cpu_count i) s)
    (b, [])
  (List.range cpu_count).foldl (fun s i =>
    copy_grid_log (band_xmin s.1.x_size cpu_count i) (band_xmax s.1.x_size cpu_count i) s) s1

/-! ## Loops -/

theorem foldl_range_inv {σ : Type} (P : Nat → σ → Prop) (f : σ → Nat → σ) (s : σ) (n : Nat)
    (h0 : P 0 s) (hstep : ∀ i t, i < n → P i t → P (i + 1) (f t i)) :
    P n ((List.range n).foldl f s) := by
  induction n with
  | zero => simpa using h0
  | succ n ih =>
    rw [List.range_succ, List.foldl_append]
    simp only [List.foldl_cons, List.foldl_nil]
    exact hstep n _ (Nat.lt_succ_self n)
      (ih (fun i t hi ht => hstep i t (Nat.lt_succ_of_lt hi) ht))

theorem forLoop_empty {σ : Type} (lo hi : Int) (body : Int → σ → σ) (s : σ) (h : hi ≤ lo) :
    forLoop lo hi body s = s := by
  have h0 : (hi - lo).toNat = 0 := by omega
  simp [forLoop, h0]

/-- Loop invariant indexed by the loop counter. -/
theorem forLoop_inv_idx {σ : Type} (P : Int → σ → Prop) (lo hi : Int) (body : Int → σ → σ)
    (s : σ) (hle : lo ≤ hi) (h0 : P lo s)
    (hstep : ∀ k t, lo ≤ k → k < hi → P k t → P (k + 1) (body k t)) :
    P hi (forLoop lo hi body s) := by
  have key := foldl_range_inv (fun i t => P (lo + (i : Int)) t)
    (fun acc (k : Nat) => body (lo + (k : Int)) acc) s (hi - lo).toNat (by simpa using h0)
    (by
      intro i t hi' ht
      have := hstep (lo + (i : Int)) t (by omega) (by omega) ht
      simpa [add_assoc] using this)
  have e : lo + (((hi - lo).toNat : Nat) : Int) = hi := by omega
  have key2 : P (lo + (((hi - lo).toNat : Nat) : Int)) (forLoop lo hi body s) := by
    unfold forLoop
    exact key
  rw [e] at key2
  exact key2

/-- Loop invariant that does not mention the counter. -/
theorem forLoop_inv {σ : Type} (P : σ → Prop) (lo hi : Int) (body : Int → σ → σ) (s : σ)
    (h0 : P s) (hstep : ∀ k t, lo ≤ k → k < hi → P t → P (body k t)) :
    P (forLoop lo hi body s) := by
  by_cases hle : lo ≤ hi
  · exact forLoop_inv_idx (fun _ t => P t) lo hi body s hle h0 hstep
  · rw [forLoop_empty lo hi body s (by omega)]; exact h0

/-- What a loop leaves in an observed location `f` when only iteration `k0`
writes it, always with the value `v`. -/
theorem forLoop_get {σ α : Type} (I : σ → Prop) (f : σ → α) (k0 : Int) (v : α)
    (lo hi : Int) (body : Int → σ → σ) (s : σ) (hs : I s)
    (hI : ∀ k t, lo ≤ k → k < hi → I t → I (body k t))
    (hne : ∀ k t, lo ≤ k → k < hi → I t → k ≠ k0 → f (body k t) = f t)
    (heq : ∀ t, lo ≤ k0 → k0 < hi → I t → f (body k0 t) = v) :
    f (forLoop lo hi body s) = if lo ≤ k0 ∧ k0 < hi then v else f s := by
  by_cases hle : lo ≤ hi
  · have key := forLoop_inv_idx
      (fun k t => I t ∧ f t = if lo ≤ k0 ∧ k0 < k then v else f s) lo hi body s hle
      ⟨hs, by rw [if_neg (by omega)]⟩
      (by
        intro k t hk1 hk2 ⟨hIt, hft⟩
        refine ⟨hI k t hk1 hk2 hIt, ?_⟩
        by_cases hk : k = k0
        · subst hk
          rw [heq t hk1 hk2 hIt, if_pos ⟨hk1, by omega⟩]
        · rw [hne k t hk1 hk2 hIt hk, hft]
          by_cases c : lo ≤ k0 ∧ k0 < k
          · rw [if_pos c, if_pos ⟨c.1, by omega⟩]
          · rw [if_neg c, if_neg (by omega)])
    exact key.2
  · rw [forLoop_empty lo hi body s (by omega), if_neg (by omega)]

theorem forLoop_three {σ : Type} (i : Int) (body : Int → σ → σ) (s : σ) :
    forLoop i (i + 3) body s = body (i + 2) (body (i + 1) (body i s)) := by
  have h : (i + 3 - i).toNat = 3 := by omega
  simp [forLoop, h, List.range_succ]

theorem forLoop_neg3 {σ : Type} (body : Int → σ → σ) (s : σ) :
    forLoop (-1) 2 body s = body 1 (body 0 (body (-1) s)) := by
  have h : ((2 : Int) - (-1)).toNat = 3 := by decide
  simp [forLoop, h, List.range_succ]

/-- Invariant of a doubly nested loop. -/
theorem forLoop2_inv {σ : Type} (P : σ → Prop) (xlo xhi ylo yhi : Int)
    (body : Int → Int → σ → σ) (s : σ) (h0 : P s)
    (hstep : ∀ x y t, xlo ≤ x → x < xhi → ylo ≤ y → y < yhi → P t → P (body x y t)) :
    P (forLoop xlo xhi (fun x t => forLoop ylo yhi (fun y u => body x y u) t) s) := by
  apply forLoop_inv P xlo xhi _ s h0
  intro x t hx1 hx2 ht
  exact forLoop_inv P ylo yhi _ t ht (fun y u hy1 hy2 hu => hstep x y u hx1 hx2 hy1 hy2 hu)

/-- What a doubly nested loop leaves in an observed location `f` that only the
iteration `(x0, y0)` writes, always with the value `v`. -/
theorem forLoop2_get {σ α : Type} (I : σ → Prop) (f : σ → α) (x0 y0 : Int) (v : α)
    (xlo xhi ylo yhi : Int) (body : Int → Int → σ → σ) (s : σ) (hs : I s)
    (hI : ∀ x y t, xlo ≤ x → x < xhi → ylo ≤ y → y < yhi → I t → I (body x y t))
    (hne : ∀ x y t, xlo ≤ x → x < xhi → ylo ≤ y → y < yhi → I t → ¬ (x = x0 ∧ y = y0) →
      f (body x y t) = f t)
    (heq : ∀ t, xlo ≤ x0 → x0 < xhi → ylo ≤ y0 → y0 < yhi → I t → f (body x0 y0 t) = v) :
    f (forLoop xlo xhi (fun x t => forLoop ylo yhi (fun y u => body x y u) t) s)
      = if xlo ≤ x0 ∧ x0 < xhi ∧ ylo ≤ y0 ∧ y0 < yhi then v else f s := by
  by_cases hy : ylo ≤ y0 ∧ y0 < yhi
  · have key := forLoop_get I f x0 v xlo xhi
      (fun x t => forLoop ylo yhi (fun y u => body x y u) t) s hs
      (fun x t hx1 hx2 ht => forLoop_inv I ylo yhi _ t ht
        (fun y u hy1 hy2 hu => hI x y u hx1 hx2 hy1 hy2 hu))
      (fun x t hx1 hx2 ht hx => by
        have := forLoop_inv (fun u => I u ∧ f u = f t) ylo yhi (fun y u => body x y u) t
          ⟨ht, rfl⟩ (fun y u hy1 hy2 hu =>
            ⟨hI x y u hx1 hx2 hy1 hy2 hu.1, by
              rw [hne x y u hx1 hx2 hy1 hy2 hu.1 (fun h => hx h.1)]; exact hu.2⟩)
        exact this.2)
      (fun t hx1 hx2 ht => by
        have := forLoop_get I f y0 v ylo yhi (fun y u => body x0 y u) t ht
          (fun y u hy1 hy2 hu => hI x0 y u hx1 hx2 hy1 hy2 hu)
          (fun y u hy1 hy2 hu hy' => hne x0 y u hx1 hx2 hy1 hy2 hu (fun h => hy' h.2))
          (fun u hy1 hy2 hu => heq u hx1 hx2 hy1 hy2 hu)
        rw [this, if_pos hy])
    rw [key]
    by_cases hx : xlo ≤ x0 ∧ x0 < xhi
    · rw [if_pos hx, if_pos ⟨hx.1, hx.2, hy.1, hy.2⟩]
    · rw [if_neg hx, if_neg (fun h => hx ⟨h.1, h.2.1⟩)]
  · rw [if_neg (fun h => hy ⟨h.2.2.1, h.2.2.2⟩)]
    have := forLoop2_inv (fun u => I u ∧ f u = f s) xlo xhi ylo yhi body s ⟨hs, rfl⟩
      (fun x y t hx1 hx2 hy1 hy2 ht =>
        ⟨hI x y t hx1 hx2 hy1 hy2 ht.1, by
          rw [hne x y t hx1 hx2 hy1 hy2 ht.1 (fun h => hy (h.2 ▸ ⟨hy1, hy2⟩))]; exact ht.2⟩)
    exact this.2


/-- As `forLoop_get`, with an invariant that follows the loop counter. -/
theorem forLoop_get_idx {σ α : Type} (I : Int → σ → Prop) (f : σ → α) (k0 : Int) (v : α)
    (lo hi : Int) (body : Int → σ → σ) (s : σ) (hle : lo ≤ hi) (hs : I lo s)
    (hI : ∀ k t, lo ≤ k → k < hi → I k t → I (k + 1) (body k t))
    (hne : ∀ k t, lo ≤ k → k < hi → I k t → k ≠ k0 → f (body k t) = f t)
    (heq : ∀ t, lo ≤ k0 → k0 < hi → I k0 t → f (body k0 t) = v) :
    f (forLoop lo hi body s) = if lo ≤ k0 ∧ k0 < hi then v else f s := by
  have key := forLoop_inv_idx
    (fun k t => I k t ∧ f t = if lo ≤ k0 ∧ k0 < k then v else f s) lo hi body s hle
    ⟨hs, by rw [if_neg (by omega)]⟩
    (by
      intro k t hk1 hk2 ⟨hIt, hft⟩
      refine ⟨hI k t hk1 hk2 hIt, ?_⟩
      by_cases hk : k = k0
      · subst hk
        rw [heq t hk1 hk2 hIt, if_pos ⟨hk1, by omega⟩]
      · rw [hne k t hk1 hk2 hIt hk, hft]
        by_cases c : lo ≤ k0 ∧ k0 < k
        · rw [if_pos c, if_pos ⟨c.1, by omega⟩]
        · rw [if_neg c, if_neg (by omega)])
  exact key.2

/-- As `forLoop2_get`, with an invariant that follows both loop counters;
`hrow` carries it from the end of one row to the start of the next. -/
theorem forLoop2_get_idx {σ α : Type} (I : Int → Int → σ → Prop) (f : σ → α) (x0 y0 : Int)
    (v : α) (xlo xhi ylo yhi : Int) (body : Int → Int → σ → σ) (s : σ)
    (hxle : xlo ≤ xhi) (hyle : ylo ≤ yhi) (hs : I xlo ylo s)
    (hrow : ∀ x t, I x yhi t → I (x + 1) ylo t)
    (hI : ∀ x y t, xlo ≤ x → x < xhi → ylo ≤ y → y < yhi → I x y t → I x (y + 1) (body x y t))
    (hne : ∀ x y t, xlo ≤ x → x < xhi → ylo ≤ y → y < yhi → I x y t → ¬ (x = x0 ∧ y = y0) →
      f (body x y t) = f t)
    (heq : ∀ t, xlo ≤ x0 → x0 < xhi → ylo ≤ y0 → y0 < yhi → I x0 y0 t →
      f (body x0 y0 t) = v) :
    f (forLoop xlo xhi (fun x t => forLoop ylo yhi (fun y u => body x y u) t) s)
      = if xlo ≤ x0 ∧ x0 < xhi ∧ ylo ≤ y0 ∧ y0 < yhi then v else f s := by
  have hrowI : ∀ x t, xlo ≤ x → x < xhi → I x ylo t →
      I (x + 1) ylo (forLoop ylo yhi (fun y u => body x y u) t) := by
    intro x t hx1 hx2 ht
    exact hrow x _ (forLoop_inv_idx (fun y u => I x y u) ylo yhi _ t hyle ht
      (fun y u hy1 hy2 hu => hI x y u hx1 hx2 hy1 hy2 hu))
  by_cases hy : ylo ≤ y0 ∧ y0 < yhi
  · have key := forLoop_get_idx (fun x t => I x ylo t) f x0 v xlo xhi
      (fun x t => forLoop ylo yhi (fun y u => body x y u) t) s hxle hs hrowI
      (fun x t hx1 hx2 ht hx => by
        have := forLoop_inv_idx (fun y u => I x y u ∧ f u = f t) ylo yhi
          (fun y u => body x y u) t hyle ⟨ht, rfl⟩ (fun y u hy1 hy2 hu =>
            ⟨hI x y u hx1 hx2 hy1 hy2 hu.1, by
              rw [hne x y u hx1 hx2 hy1 hy2 hu.1 (fun h => hx h.1)]; exact hu.2⟩)
        exact this.2)
      (fun t hx1 hx2 ht => by
        have := forLoop_get_idx (fun y u => I x0 y u) f y0 v ylo yhi (fun y u => body x0 y u)
          t hyle ht
          (fun y u hy1 hy2 hu => hI x0 y u hx1 hx2 hy1 hy2 hu)
          (fun y u hy1 hy2 hu hy' => hne x0 y u hx1 hx2 hy1 hy2 hu (fun h => hy' h.2))
          (fun u hy1 hy2 hu => heq u hx1 hx2 hy1 hy2 hu)
        rw [this, if_pos hy])
    rw [key]
    by_cases hx : xlo ≤ x0 ∧ x0 < xhi
    · rw [if_pos hx, if_pos ⟨hx.1, hx.2, hy.1, hy.2⟩]
    · rw [if_neg hx, if_neg (fun h => hx ⟨h.1, h.2.1⟩)]
  · rw [if_neg (fun h => hy ⟨h.2.2.1, h.2.2.2⟩)]
    have := forLoop_inv_idx (fun x t => I x ylo t ∧ f t = f s) xlo xhi
      (fun x t => forLoop ylo yhi (fun y u => body x y u) t) s hxle ⟨hs, rfl⟩
      (fun x t hx1 hx2 ht => by
        have h2 := forLoop_inv_idx (fun y u => I x y u ∧ f u = f s) ylo yhi
          (fun y u => body x y u) t hyle ht (fun y u hy1 hy2 hu =>
            ⟨hI x y u hx1 hx2 hy1 hy2 hu.1, by
              rw [hne x y u hx1 hx2 hy1 hy2 hu.1 (fun h => hy (h.2 ▸ ⟨hy1, hy2⟩))]
              exact hu.2⟩)
        exact ⟨hrow x _ h2.1, h2.2⟩)
    exact this.2
/-! ## `neighbours` -/

theorem ite_succ_eq (c : Bool) (r : Int) :
    (if c = true then r + 1 else r) = r + (if c = true then 1 else 0) := by
  cases c <;> simp

theorem neighbours_eq_mooreCount (b : board) (x y : Int) :
    b.neighbours x y = (mooreCount b.grid x y : Int) := by
  simp only [board.neighbours, forLoop_neg3, mooreCount, List.countP_cons, List.countP_nil,
    ite_succ_eq, add_zero, Nat.cast_add, Nat.cast_ite, Nat.cast_zero, Nat.cast_one, zero_add]
  ring

theorem mooreCount_le (g : Int → Int → Bool) (x y : Int) : mooreCount g x y ≤ 8 := by
  unfold mooreCount
  exact List.countP_le_length _

theorem mooreCount_set2_self (g : Int → Int → Bool) (x y : Int) (v : Bool) :
    mooreCount (set2 g x y v) x y = mooreCount g x y := by
  simp [mooreCount, set2, List.countP_cons]

/-- The Moore count looks at the eight surrounding cells only. -/
theorem mooreCount_congr (g g' : Int → Int → Bool) (x y : Int)
    (h : ∀ x' y', x - 1 ≤ x' → x' ≤ x + 1 → y - 1 ≤ y' → y' ≤ y + 1 → g x' y' = g' x' y') :
    mooreCount g x y = mooreCount g' x y := by
  unfold mooreCount
  simp only [List.countP_cons, List.countP_nil]
  rw [h (x + -1) (y + -1) (by omega) (by omega) (by omega) (by omega),
    h (x + -1) (y + 0) (by omega) (by omega) (by omega) (by omega),
    h (x + -1) (y + 1) (by omega) (by omega) (by omega) (by omega),
    h (x + 0) (y + -1) (by omega) (by omega) (by omega) (by omega),
    h (x + 0) (y + 1) (by omega) (by omega) (by omega) (by omega),
    h (x + 1) (y + -1) (by omega) (by omega) (by omega) (by omega),
    h (x + 1) (y + 0) (by omega) (by omega) (by omega) (by omega),
    h (x + 1) (y + 1) (by omega) (by omega) (by omega) (by omega)]

/-- C3: at an interior coordinate `neighbours` returns the number of live cells
among the eight Moore neighbours, the result does not depend on the state of the
cell itself, and it lies between 0 and 8. -/
theorem C3_neighbours_moore_count (b : board) (x y : Int)
    (hx : 0 < x ∧ x < (b.x_size : Int) - 1) (hy : 0 < y ∧ y < (b.y_size : Int) - 1) :
    b.neighbours x y = (mooreCount b.grid x y : Int)
    ∧ (∀ v : Bool, ({ b with grid := set2 b.grid x y v } : board).neighbours x y
        = b.neighbours x y)
    ∧ 0 ≤ b.neighbours x y ∧ b.neighbours x y ≤ 8 := by
  refine ⟨neighbours_eq_mooreCount b x y, ?_, ?_, ?_⟩
  · intro v
    rw [neighbours_eq_mooreCount, neighbours_eq_mooreCount, mooreCount_set2_self]
  · rw [neighbours_eq_mooreCount]; exact Int.natCast_nonneg _
  · rw [neighbours_eq_mooreCount]
    have := mooreCount_le b.grid x y
    omega

set_option maxRecDepth 100000 in
/-- C3 at the centre of the 5x5 board whose interior is alive. -/
theorem C3_neighbours_moore_count_witness :
    (fullBoard 5 5).neighbours 2 2 = (mooreCount (fullBoard 5 5).grid 2 2 : Int)
    ∧ (∀ v : Bool, ({ fullBoard 5 5 with grid := set2 (fullBoard 5 5).grid 2 2 v } :
        board).neighbours 2 2 = (fullBoard 5 5).neighbours 2 2)
    ∧ 0 ≤ (fullBoard 5 5).neighbours 2 2 ∧ (fullBoard 5 5).neighbours 2 2 ≤ 8 :=
  C3_neighbours_moore_count (fullBoard 5 5) 2 2 (by decide) (by decide)

/-! ## `update_new_grid` -/

theorem set2_same {α : Type} (g : Int → Int → α) (x y : Int) (v : α) : set2 g x y v x y = v := by
  simp [set2]

theorem set2_other {α : Type} (g : Int → Int → α) (x y x' y' : Int) (v : α)
    (h : ¬ (x' = x ∧ y' = y)) : set2 g x y v x' y' = g x' y' := by
  simp only [set2, if_neg h]

/-- One cell of `update_new_grid` in closed form. -/
theorem update_cell_eq (b : board) (x y : Int) :
    b.update_cell x y =
      { b with
        new_grid := set2 b.new_grid x y (b.nextState x y)
        vertex_array :=
          setColor (setColor (setColor b.vertex_array (b.point_indicies x y) (b.nextColor x y))
            (b.point_indicies x y + 1) (b.nextColor x y))
            (b.point_indicies x y + 2) (b.nextColor x y) } := by
  unfold board.update_cell board.nextColor board.nextState
  simp only [forLoop_three]
  by_cases h1 : b.neighbours x y < 2
  · simp [h1, set2_same]
  · by_cases h2 : b.neighbours x y = 2
    · cases hg : b.grid x y <;> simp [h1, h2, set2_same, hg]
    · by_cases h3 : b.neighbours x y = 3
      · simp [h3, set2_same]
      · simp [h1, h2, h3, set2_same]

theorem neighbours_congr (b s : board) (x y : Int) (h : s.grid = b.grid) :
    s.neighbours x y = b.neighbours x y := by
  unfold board.neighbours
  rw [h]

theorem nextState_congr (b s : board) (x y : Int) (h : s.grid = b.grid) :
    s.nextState x y = b.nextState x y := by
  unfold board.nextState
  rw [neighbours_congr b s x y h, h]

theorem nextColor_congr (b s : board) (x y : Int) (h : s.grid = b.grid) :
    s.nextColor x y = b.nextColor x y := by
  unfold board.nextColor
  rw [neighbours_congr b s x y h, nextState_congr b s x y h]

theorem SameFrame.refl (b : board) : SameFrame b b :=
  ⟨rfl, rfl, rfl, rfl, rfl, fun _ => ⟨rfl, rfl⟩⟩

theorem SameFrame.trans {a b c : board} (h1 : SameFrame a b) (h2 : SameFrame b c) :
    SameFrame a c :=
  ⟨h2.1.trans h1.1, h2.2.1.trans h1.2.1, h2.2.2.1.trans h1.2.2.1,
    h2.2.2.2.1.trans h1.2.2.2.1, h2.2.2.2.2.1.trans h1.2.2.2.2.1,
    fun j => ⟨((h2.2.2.2.2.2 j).1).trans (h1.2.2.2.2.2 j).1,
      ((h2.2.2.2.2.2 j).2).trans (h1.2.2.2.2.2 j).2⟩⟩

theorem setColor_px (va : Int → Vertex) (j : Int) (c : Color) (j' : Int) :
    (setColor va j c j').px = (va j').px := by
  unfold setColor; split <;> rfl

theorem setColor_py (va : Int → Vertex) (j : Int) (c : Color) (j' : Int) :
    (setColor va j c j').py = (va j').py := by
  unfold setColor; split <;> rfl

theorem setColor_color_same (va : Int → Vertex) (j : Int) (c : Color) :
    (setColor va j c j).color = c := by
  simp [setColor]

theorem setColor_color_other (va : Int → Vertex) (j j' : Int) (c : Color) (h : j' ≠ j) :
    (setColor va j c j').color = (va j').color := by
  simp [setColor, h]

theorem update_cell_frame (b : board) (x y : Int) : SameFrame b (b.update_cell x y) := by
  rw [update_cell_eq]
  refine ⟨rfl, rfl, rfl, rfl, rfl, fun j => ?_⟩
  simp only [setColor_px, setColor_py, and_self]

/-- `update_new_grid` leaves `grid`, the sizes, the indices and the vertex
positions alone. -/
theorem update_new_grid_frame (b : board) (xmin xmax : Int) :
    SameFrame b (b.update_new_grid xmin xmax) := by
  unfold board.update_new_grid
  exact forLoop2_inv (fun s => SameFrame b s) _ _ _ _ (fun x y s => s.update_cell x y) b
    (SameFrame.refl b) (fun x y t _ _ _ _ ht => ht.trans (update_cell_frame t x y))

/-- The cells of `new_grid` after `update_new_grid`. -/
theorem update_new_grid_new_grid (b : board) (xmin xmax x y : Int) :
    (b.update_new_grid xmin xmax).new_grid x y =
      if clamp_xmin xmin ≤ x ∧ x < clamp_xmax b.x_size xmax ∧ 1 ≤ y ∧ y < (b.y_size : Int) - 1
      then b.nextState x y else b.new_grid x y := by
  unfold board.update_new_grid
  exact forLoop2_get (fun s => SameFrame b s) (fun s => s.new_grid x y) x y (b.nextState x y)
    _ _ _ _ (fun x y s => s.update_cell x y) b (SameFrame.refl b)
    (fun x' y' t _ _ _ _ ht => ht.trans (update_cell_frame t x' y'))
    (fun x' y' t _ _ _ _ _ hne => by
      show (t.update_cell x' y').new_grid x y = t.new_grid x y
      rw [update_cell_eq]
      exact set2_other _ _ _ _ _ _ (fun h => hne ⟨h.1.symm, h.2.symm⟩))
    (fun t _ _ _ _ ht => by
      show (t.update_cell x y).new_grid x y = b.nextState x y
      rw [update_cell_eq]
      show set2 t.new_grid x y (t.nextState x y) x y = _
      rw [set2_same, nextState_congr b t x y ht.1])

/-- The vertex index of a cell and an offset determines both. -/
theorem cell_index_inj (h x y x' y' k k' : Int) (hy : 0 ≤ y ∧ y < h) (hy' : 0 ≤ y' ∧ y' < h)
    (hk : 0 ≤ k ∧ k < 3) (hk' : 0 ≤ k' ∧ k' < 3)
    (e : 3 * (x * h + y) + k = 3 * (x' * h + y') + k') : x = x' ∧ y = y' ∧ k = k' := by
  have e1 : x * h + y = x' * h + y' := by omega
  have e2 : k = k' := by omega
  have hx : x = x' := by
    rcases lt_trichotomy x x' with hlt | heq | hgt
    · exfalso
      have : (x + 1) * h ≤ x' * h := Int.mul_le_mul_of_nonneg_right (by omega) (by omega)
      have e3 : (x + 1) * h = x * h + h := by ring
      omega
    · exact heq
    · exfalso
      have : (x' + 1) * h ≤ x * h := Int.mul_le_mul_of_nonneg_right (by omega) (by omega)
      have e3 : (x' + 1) * h = x' * h + h := by ring
      omega
  subst hx
  exact ⟨rfl, by omega, e2⟩

/-- The colours of the vertices of cell `(x, y)` after `update_new_grid`, on a
board whose cells own the vertex indices the constructor gave them. -/
theorem update_new_grid_color (b : board) (hL : Layout b) (xmin xmax x y k : Int)
    (hx : 0 ≤ x ∧ x < (b.x_size : Int)) (hy : 0 ≤ y ∧ y < (b.y_size : Int))
    (hk : 0 ≤ k ∧ k < 3) :
    ((b.update_new_grid xmin xmax).vertex_array (3 * (x * (b.y_size : Int) + y) + k)).color =
      if clamp_xmin xmin ≤ x ∧ x < clamp_xmax b.x_size xmax ∧ 1 ≤ y ∧ y < (b.y_size : Int) - 1
      then b.nextColor x y
      else (b.vertex_array (3 * (x * (b.y_size : Int) + y) + k)).color := by
  have hcl : ∀ x' : Int, clamp_xmin xmin ≤ x' → x' < clamp_xmax b.x_size xmax →
      0 ≤ x' ∧ x' < (b.x_size : Int) := by
    intro x' h1 h2
    unfold clamp_xmin at h1
    unfold clamp_xmax at h2
    split at h1 <;> split at h2 <;> omega
  unfold board.update_new_grid
  exact forLoop2_get (fun s => SameFrame b s)
    (fun s => (s.vertex_array (3 * (x * (b.y_size : Int) + y) + k)).color) x y (b.nextColor x y)
    _ _ _ _ (fun x y s => s.update_cell x y) b (SameFrame.refl b)
    (fun x' y' t _ _ _ _ ht => ht.trans (update_cell_frame t x' y'))
    (fun x' y' t hx1 hx2 hy1 hy2 ht hne => by
      show ((t.update_cell x' y').vertex_array _).color = (t.vertex_array _).color
      have hx' := hcl x' hx1 hx2
      have hp : t.point_indicies x' y' = 3 * (x' * (b.y_size : Int) + y') := by
        rw [ht.2.1]; exact hL x' y' hx'.1 hx'.2 (by omega) (by omega)
      rw [update_cell_eq]
      show (setColor _ _ _ _).color = _
      rw [hp]
      have hyr : 0 ≤ y' ∧ y' < (b.y_size : Int) := ⟨by omega, by omega⟩
      have h0 : 3 * (x * (b.y_size : Int) + y) + k ≠ 3 * (x' * (b.y_size : Int) + y') := by
        intro e
        have := cell_index_inj _ x' y' x y 0 k hyr hy (by omega) hk (by omega)
        exact hne ⟨this.1, this.2.1⟩
      have h1 : 3 * (x * (b.y_size : Int) + y) + k ≠ 3 * (x' * (b.y_size : Int) + y') + 1 := by
        intro e
        have := cell_index_inj _ x' y' x y 1 k hyr hy (by omega) hk (by omega)
        exact hne ⟨this.1, this.2.1⟩
      have h2 : 3 * (x * (b.y_size : Int) + y) + k ≠ 3 * (x' * (b.y_size : Int) + y') + 2 := by
        intro e
        have := cell_index_inj _ x' y' x y 2 k hyr hy (by omega) hk (by omega)
        exact hne ⟨this.1, this.2.1⟩
      rw [setColor_color_other _ _ _ _ h2, setColor_color_other _ _ _ _ h1,
        setColor_color_other _ _ _ _ h0])
    (fun t hx1 hx2 hy1 hy2 ht => by
      show ((t.update_cell x y).vertex_array _).color = b.nextColor x y
      have hp : t.point_indicies x y = 3 * (x * (b.y_size : Int) + y) := by
        rw [ht.2.1]; exact hL x y hx.1 hx.2 hy.1 hy.2
      rw [update_cell_eq, nextColor_congr b t x y ht.1]
      show (setColor _ _ _ _).color = _
      rw [hp]
      have hk3 : k = 0 ∨ k = 1 ∨ k = 2 := by omega
      rcases hk3 with rfl | rfl | rfl
      · rw [setColor_color_other _ _ _ _ (by omega), setColor_color_other _ _ _ _ (by omega),
          add_zero, setColor_color_same]
      · rw [setColor_color_other _ _ _ _ (by omega), setColor_color_same]
      · rw [setColor_color_same])

/-- C2: the value `update_new_grid` writes to `new_grid[x][y]` for an interior
cell of its band is dead for fewer than two live neighbours, the unchanged
`grid[x][y]` for exactly two, alive for exactly three and dead for more than
three; a dead cell with exactly two live neighbours stays dead. -/
theorem C2_update_rule (b : board) (xmin xmax x y : Int)
    (hband : xmin ≤ x ∧ x < xmax)
    (hx : 1 ≤ x ∧ x ≤ (b.x_size : Int) - 2) (hy : 1 ≤ y ∧ y ≤ (b.y_size : Int) - 2) :
    (b.neighbours x y < 2 → (b.update_new_grid xmin xmax).new_grid x y = false)
    ∧ (b.neighbours x y = 2 → (b.update_new_grid xmin xmax).new_grid x y = b.grid x y)
    ∧ (b.neighbours x y = 3 → (b.update_new_grid xmin xmax).new_grid x y = true)
    ∧ (b.neighbours x y > 3 → (b.update_new_grid xmin xmax).new_grid x y = false)
    ∧ (b.neighbours x y = 2 → b.grid x y = false →
        (b.update_new_grid xmin xmax).new_grid x y = false) := by
  have hc : clamp_xmin xmin ≤ x ∧ x < clamp_xmax b.x_size xmax ∧ 1 ≤ y ∧
      y < (b.y_size : Int) - 1 := by
    unfold clamp_xmin clamp_xmax
    refine ⟨?_, ?_, hy.1, by omega⟩
    · split <;> omega
    · split <;> omega
  rw [update_new_grid_new_grid, if_pos hc]
  unfold board.nextState
  refine ⟨?_, ?_, ?_, ?_, ?_⟩
  · intro h; simp [h]
  · intro h; simp [h]
  · intro h; simp [h]
  · intro h
    have h1 : ¬ b.neighbours x y < 2 := by omega
    have h2 : ¬ b.neighbours x y = 2 := by omega
    have h3 : ¬ b.neighbours x y = 3 := by omega
    simp [h1, h2, h3]
  · intro h hg; simp [h, hg]

set_option maxRecDepth 100000 in
/-- C2 at the centre of the 5x5 board whose interior is alive, band `[0, 5)`. -/
theorem C2_update_rule_witness :
    ((fullBoard 5 5).neighbours 2 2 < 2 →
        ((fullBoard 5 5).update_new_grid 0 5).new_grid 2 2 = false)
    ∧ ((fullBoard 5 5).neighbours 2 2 = 2 →
        ((fullBoard 5 5).update_new_grid 0 5).new_grid 2 2 = (fullBoard 5 5).grid 2 2)
    ∧ ((fullBoard 5 5).neighbours 2 2 = 3 →
        ((fullBoard 5 5).update_new_grid 0 5).new_grid 2 2 = true)
    ∧ ((fullBoard 5 5).neighbours 2 2 > 3 →
        ((fullBoard 5 5).update_new_grid 0 5).new_grid 2 2 = false)
    ∧ ((fullBoard 5 5).neighbours 2 2 = 2 → (fullBoard 5 5).grid 2 2 = false →
        ((fullBoard 5 5).update_new_grid 0 5).new_grid 2 2 = false) :=
  C2_update_rule (fullBoard 5 5) 0 5 2 2 (by decide) (by decide) (by decide)

/-! ## `copy_grid` -/

/-- `copy_grid` writes `grid` only. -/
theorem copy_grid_frame (b : board) (xmin xmax : Int) :
    (b.copy_grid xmin xmax).new_grid = b.new_grid ∧
    (b.copy_grid xmin xmax).point_indicies = b.point_indicies ∧
    (b.copy_grid xmin xmax).x_size = b.x_size ∧
    (b.copy_grid xmin xmax).y_size = b.y_size ∧
    (b.copy_grid xmin xmax).square_size = b.square_size ∧
    (b.copy_grid xmin xmax).vertex_array = b.vertex_array := by
  unfold board.copy_grid
  exact forLoop2_inv (fun s => s.new_grid = b.new_grid ∧ s.point_indicies = b.point_indicies ∧
      s.x_size = b.x_size ∧ s.y_size = b.y_size ∧ s.square_size = b.square_size ∧
      s.vertex_array = b.vertex_array) _ _ _ _
    (fun x y s => { s with grid := set2 s.grid x y (s.new_grid x y) }) b
    ⟨rfl, rfl, rfl, rfl, rfl, rfl⟩ (fun x y t _ _ _ _ ht => ht)

/-- The cells of `grid` after `copy_grid`. -/
theorem copy_grid_grid (b : board) (xmin xmax x y : Int) :
    (b.copy_grid xmin xmax).grid x y =
      if xmin ≤ x ∧ x < xmax ∧ 0 ≤ y ∧ y < (b.y_size : Int) then b.new_grid x y
      else b.grid x y := by
  unfold board.copy_grid
  exact forLoop2_get (fun s => s.new_grid = b.new_grid) (fun s => s.grid x y) x y
    (b.new_grid x y) _ _ _ _
    (fun x y s => { s with grid := set2 s.grid x y (s.new_grid x y) }) b rfl
    (fun x' y' t _ _ _ _ ht => ht)
    (fun x' y' t _ _ _ _ _ hne =>
      set2_other _ _ _ _ _ _ (fun h => hne ⟨h.1.symm, h.2.symm⟩))
    (fun t _ _ _ _ ht => by
      show set2 t.grid x y (t.new_grid x y) x y = b.new_grid x y
      rw [set2_same, ht])
/-! ## Bands -/

/-- The lower bound of a band never exceeds `x_size`, so the `unsigned` product
does not wrap. -/
theorem band_xmin_le (w W i : Nat) (hi : i < W) : band_xmin w W i ≤ (w : Int) := by
  unfold band_xmin
  have h1 : i * (w / W) ≤ W * (w / W) := Nat.mul_le_mul_right _ (Nat.le_of_lt hi)
  have h2 : W * (w / W) ≤ w := Nat.mul_div_le w W
  exact_mod_cast h1.trans h2

/-- The product `(i+1) * (x_size / CPU_COUNT)` never exceeds `x_size`. -/
theorem band_prod_le (w W i : Nat) (hi : i < W) : (i + 1) * (w / W) ≤ w := by
  have h1 : (i + 1) * (w / W) ≤ W * (w / W) := Nat.mul_le_mul_right _ hi
  exact h1.trans (Nat.mul_div_le w W)

/-- The upper bound of a band never exceeds `x_size`. -/
theorem band_xmax_le (w W i : Nat) (hi : i < W) : band_xmax w W i ≤ (w : Int) := by
  unfold band_xmax
  split
  · exact le_refl _
  · exact_mod_cast band_prod_le w W i hi

theorem band_xmin_nonneg (w W i : Nat) : 0 ≤ band_xmin w W i := by
  unfold band_xmin
  exact Int.natCast_nonneg _

/-- A band ends where or before any later band starts. -/
theorem band_xmax_le_xmin (w W i j : Nat) (hij : i < j) (hj : j < W) :
    band_xmax w W i ≤ band_xmin w W j := by
  unfold band_xmax band_xmin
  rw [if_neg (by omega)]
  have : (i + 1) * (w / W) ≤ j * (w / W) := Nat.mul_le_mul_right _ hij
  exact_mod_cast this

/-- Two commit bands that share a column are the same band. -/
theorem commit_disjoint (w W i j : Nat) (x : Int) (hi : i < W) (hj : j < W)
    (h1 : inCommitBand w W i x) (h2 : inCommitBand w W j x) : i = j := by
  unfold inCommitBand at h1 h2
  rcases lt_trichotomy i j with h | h | h
  · have := band_xmax_le_xmin w W i j h hj
    omega
  · exact h
  · have := band_xmax_le_xmin w W j i h hi
    omega

/-- The commit bands cover exactly the columns `[0, x_size)`. -/
theorem commit_cover (w W : Nat) (x : Int) (hW : 1 ≤ W) :
    (∃ i, i < W ∧ inCommitBand w W i x) ↔ (0 ≤ x ∧ x < (w : Int)) := by
  constructor
  · rintro ⟨i, hi, h1, h2⟩
    have := band_xmin_nonneg w W i
    have := band_xmax_le w W i hi
    omega
  · rintro ⟨h0, hw⟩
    obtain ⟨n, rfl⟩ := Int.eq_ofNat_of_zero_le h0
    have hn : n < w := by exact_mod_cast hw
    by_cases hq : w / W = 0
    · refine ⟨W - 1, by omega, ?_, ?_⟩
      · unfold band_xmin; rw [hq]; simp
      · unfold band_xmax; rw [if_pos rfl]; exact hw
    · have hqpos : 0 < w / W := Nat.pos_of_ne_zero hq
      by_cases hlast : W - 1 ≤ n / (w / W)
      · refine ⟨W - 1, by omega, ?_, ?_⟩
        · unfold band_xmin
          have : (W - 1) * (w / W) ≤ n := (Nat.le_div_iff_mul_le hqpos).mp hlast
          exact_mod_cast this
        · unfold band_xmax; rw [if_pos rfl]; exact hw
      · refine ⟨n / (w / W), by omega, ?_, ?_⟩
        · unfold band_xmin
          have : n / (w / W) * (w / W) ≤ n := Nat.div_mul_le_self n (w / W)
          exact_mod_cast this
        · unfold band_xmax
          rw [if_neg (by omega)]
          have : n < (n / (w / W) + 1) * (w / W) :=
            (Nat.div_lt_iff_lt_mul hqpos).mp (Nat.lt_succ_self _)
          exact_mod_cast this

/-- A column is in a compute band when it is in the commit band of the same
worker and is an interior column. -/
theorem inComputeBand_iff (w W i : Nat) (x : Int) :
    inComputeBand w W i x ↔ (inCommitBand w W i x ∧ 1 ≤ x ∧ x < (w : Int) - 1) := by
  unfold inComputeBand inCommitBand clamp_xmin clamp_xmax
  constructor
  · intro h
    split at h <;> split at h <;> omega
  · intro h
    split <;> split <;> omega

theorem compute_disjoint (w W i j : Nat) (x : Int) (hi : i < W) (hj : j < W)
    (h1 : inComputeBand w W i x) (h2 : inComputeBand w W j x) : i = j :=
  commit_disjoint w W i j x hi hj ((inComputeBand_iff w W i x).mp h1).1
    ((inComputeBand_iff w W j x).mp h2).1

/-- The compute bands cover exactly the interior columns `[1, x_size - 1)`. -/
theorem compute_cover (w W : Nat) (x : Int) (hW : 1 ≤ W) :
    (∃ i, i < W ∧ inComputeBand w W i x) ↔ (1 ≤ x ∧ x < (w : Int) - 1) := by
  constructor
  · rintro ⟨i, _, h⟩
    exact ((inComputeBand_iff w W i x).mp h).2
  · intro h
    obtain ⟨i, hi, hb⟩ := (commit_cover w W x hW).mpr ⟨by omega, by omega⟩
    exact ⟨i, hi, (inComputeBand_iff w W i x).mpr ⟨hb, h⟩⟩

/-- C5: for every width and every worker count `W >= 1`, the column ranges the
compute workers process (band `i` of `iterate`, clamped by `update_new_grid`) are
pairwise disjoint and their union is exactly the interior columns `[1, w-1)`. -/
theorem C5_compute_band_coverage (w W : Nat) (hW : 1 ≤ W) (x : Int) :
    ((∃ i, i < W ∧ inComputeBand w W i x) ↔ (1 ≤ x ∧ x < (w : Int) - 1))
    ∧ (∀ i j, i < W → j < W → inComputeBand w W i x → inComputeBand w W j x → i = j) :=
  ⟨compute_cover w W x hW, fun i j hi hj h1 h2 => compute_disjoint w W i j x hi hj h1 h2⟩

/-- C5 for width 10, three workers, column 4. -/
theorem C5_compute_band_coverage_witness :
    ((∃ i, i < 3 ∧ inComputeBand 10 3 i 4) ↔ (1 ≤ (4 : Int) ∧ (4 : Int) < ((10 : Nat) : Int) - 1))
    ∧ (∀ i j, i < 3 → j < 3 → inComputeBand 10 3 i 4 → inComputeBand 10 3 j 4 → i = j) :=
  C5_compute_band_coverage 10 3 (by decide) 4

/-- C6: for every width and every worker count `W >= 1` the column ranges passed
to `copy_grid` are pairwise disjoint and cover exactly `[0, w)`, and the worker of
a band copies every row `0..h-1` of its columns from `new_grid` to `grid` and
nothing else. -/
theorem C6_commit_band_coverage (w W : Nat) (hW : 1 ≤ W) (x : Int) :
    ((∃ i, i < W ∧ inCommitBand w W i x) ↔ (0 ≤ x ∧ x < (w : Int)))
    ∧ (∀ i j, i < W → j < W → inCommitBand w W i x → inCommitBand w W j x → i = j)
    ∧ (∀ (b : board) (i : Nat) (y : Int), b.x_size = w →
        (inCommitBand w W i x → 0 ≤ y → y < (b.y_size : Int) →
          (b.copy_grid (band_xmin w W i) (band_xmax w W i)).grid x y = b.new_grid x y)
        ∧ (¬ (inCommitBand w W i x ∧ 0 ≤ y ∧ y < (b.y_size : Int)) →
          (b.copy_grid (band_xmin w W i) (band_xmax w W i)).grid x y = b.grid x y)) := by
  refine ⟨commit_cover w W x hW, fun i j hi hj h1 h2 => commit_disjoint w W i j x hi hj h1 h2,
    fun b i y _ => ⟨?_, ?_⟩⟩
  · intro h1 h2 h3
    rw [copy_grid_grid, if_pos ⟨h1.1, h1.2, h2, h3⟩]
  · intro h
    rw [copy_grid_grid, if_neg (fun c => h ⟨⟨c.1, c.2.1⟩, c.2.2.1, c.2.2.2⟩)]

/-- C6 for width 3 and five workers (more workers than columns), column 0. -/
theorem C6_commit_band_coverage_witness :
    ((∃ i, i < 5 ∧ inCommitBand 3 5 i 0) ↔ (0 ≤ (0 : Int) ∧ (0 : Int) < ((3 : Nat) : Int)))
    ∧ (∀ i j, i < 5 → j < 5 → inCommitBand 3 5 i 0 → inCommitBand 3 5 j 0 → i = j)
    ∧ (∀ (b : board) (i : Nat) (y : Int), b.x_size = 3 →
        (inCommitBand 3 5 i 0 → 0 ≤ y → y < (b.y_size : Int) →
          (b.copy_grid (band_xmin 3 5 i) (band_xmax 3 5 i)).grid 0 y = b.new_grid 0 y)
        ∧ (¬ (inCommitBand 3 5 i 0 ∧ 0 ≤ y ∧ y < (b.y_size : Int)) →
          (b.copy_grid (band_xmin 3 5 i) (band_xmax 3 5 i)).grid 0 y = b.grid 0 y)) :=
  C6_commit_band_coverage 3 5 (by decide) 0

/-- C7: band `i` passed to `copy_grid` is `[i*(w/W), (i+1)*(w/W))` for `i < W-1`
and `[(W-1)*(w/W), w)` for `i = W-1`; a non-final band has `w/W` columns, the
final band `w/W + w mod W`, and no band has more columns than the final one. -/
theorem C7_commit_band_bounds (w W i : Nat) (hW : 1 ≤ W) (hi : i < W) :
    band_xmin w W i = ((i * (w / W) : Nat) : Int)
    ∧ (i < W - 1 → band_xmax w W i = (((i + 1) * (w / W) : Nat) : Int)
        ∧ band_xmax w W i - band_xmin w W i = ((w / W : Nat) : Int))
    ∧ (i = W - 1 → band_xmax w W i = (w : Int)
        ∧ band_xmax w W i - band_xmin w W i = ((w / W + w % W : Nat) : Int))
    ∧ band_xmax w W i - band_xmin w W i
        ≤ band_xmax w W (W - 1) - band_xmin w W (W - 1) := by
  have hsucc : (i + 1) * (w / W) = i * (w / W) + w / W := Nat.succ_mul _ _
  have hlastsz : band_xmax w W (W - 1) - band_xmin w W (W - 1)
      = ((w / W + w % W : Nat) : Int) := by
    unfold band_xmax band_xmin
    rw [if_pos rfl]
    have h1 : W * (w / W) + w % W = w := Nat.div_add_mod w W
    have h2 : (W - 1 + 1) * (w / W) = (W - 1) * (w / W) + w / W := Nat.succ_mul _ _
    rw [Nat.sub_add_cancel hW] at h2
    generalize (W - 1) * (w / W) = a at *
    generalize W * (w / W) = c at *
    generalize w / W = q at *
    generalize w % W = r at *
    omega
  refine ⟨rfl, ?_, ?_, ?_⟩
  · intro h
    have e : band_xmax w W i = (((i + 1) * (w / W) : Nat) : Int) := by
      unfold band_xmax; rw [if_neg (by omega)]
    refine ⟨e, ?_⟩
    rw [e]; unfold band_xmin; rw [hsucc]
    generalize i * (w / W) = a
    generalize w / W = q
    omega
  · intro h
    subst h
    refine ⟨by unfold band_xmax; rw [if_pos rfl], hlastsz⟩
  · by_cases h : i = W - 1
    · subst h; exact le_refl _
    · rw [hlastsz]
      unfold band_xmax band_xmin
      rw [if_neg h, hsucc]
      generalize i * (w / W) = a
      generalize w / W = q
      generalize w % W = r
      omega

/-- C7 for width 10, three workers, the last band. -/
theorem C7_commit_band_bounds_witness :
    band_xmin 10 3 2 = ((2 * (10 / 3) : Nat) : Int)
    ∧ (2 < 3 - 1 → band_xmax 10 3 2 = (((2 + 1) * (10 / 3) : Nat) : Int)
        ∧ band_xmax 10 3 2 - band_xmin 10 3 2 = ((10 / 3 : Nat) : Int))
    ∧ (2 = 3 - 1 → band_xmax 10 3 2 = ((10 : Nat) : Int)
        ∧ band_xmax 10 3 2 - band_xmin 10 3 2 = ((10 / 3 + 10 % 3 : Nat) : Int))
    ∧ band_xmax 10 3 2 - band_xmin 10 3 2
        ≤ band_xmax 10 3 (3 - 1) - band_xmin 10 3 (3 - 1) :=
  C7_commit_band_bounds 10 3 2 (by decide) (by decide)

/-- C8 fails as stated: with width 6 and three workers the interior `[1, 5)` has
`r = 4` columns and `r / 3 = 1`, but the compute bands are `[1,2)`, `[2,4)` and
`[4,5)`: the middle band has two columns, and the last band has one column,
fewer than the middle band and not the `r - 2*(r/3) = 2` of the claim. -/
theorem C8_compute_band_sizes_counterexample :
    computeBandSize 6 3 0 = 1 ∧ computeBandSize 6 3 1 = 2 ∧ computeBandSize 6 3 2 = 1
    ∧ ¬ ((∀ i, i < 3 - 1 → computeBandSize 6 3 i = (6 - 2) / 3)
        ∧ computeBandSize 6 3 (3 - 1) = (6 - 2) - (3 - 1) * ((6 - 2) / 3)
        ∧ ∀ i, i < 3 → computeBandSize 6 3 i ≤ computeBandSize 6 3 (3 - 1)) := by
  refine ⟨by decide, by decide, by decide, ?_⟩
  intro h
  have h1 := h.1 1 (by decide)
  revert h1
  decide

/-- C8 (amended): for width `w >= 3` and `W >= 1` workers the compute bands are the
bands of `[0, w)` clamped to the interior: with `q = w / W`, a single worker gets
all `w - 2` interior columns; with two or more workers the first band has `q - 1`
columns (none when `q = 0`), every band strictly between the first and the last
has exactly `q` columns, and the last band has the remaining `q + w mod W - 1`
columns (all `w - 2` interior columns when `q = 0`). -/
theorem C8_compute_band_sizes (w W : Nat) (hw : 3 ≤ w) (hW : 1 ≤ W) :
    (W = 1 → computeBandSize w W 0 = w - 2)
    ∧ (2 ≤ W → computeBandSize w W 0 = w / W - 1)
    ∧ (∀ i, 0 < i → i < W - 1 → computeBandSize w W i = w / W)
    ∧ (2 ≤ W → 1 ≤ w / W → computeBandSize w W (W - 1) = w / W + w % W - 1)
    ∧ (2 ≤ W → w / W = 0 → computeBandSize w W (W - 1) = w - 2) := by
  have h1 : W * (w / W) + w % W = w := Nat.div_add_mod w W
  have h2 : (W - 1 + 1) * (w / W) = (W - 1) * (w / W) + w / W := Nat.succ_mul _ _
  rw [Nat.sub_add_cancel hW] at h2
  refine ⟨?_, ?_, ?_, ?_, ?_⟩
  · intro h
    subst h
    unfold computeBandSize clamp_xmax clamp_xmin band_xmax band_xmin
    simp only [Nat.sub_self, if_true, Nat.zero_mul]
    split <;> split <;> omega
  · intro h
    have hq : w / W * 2 ≤ w := by
      have : w / W * 2 ≤ w / W * W := Nat.mul_le_mul_left _ h
      rw [Nat.mul_comm (w / W) W] at this
      omega
    have hne : ¬ (0 = W - 1) := by omega
    unfold computeBandSize clamp_xmax clamp_xmin band_xmax band_xmin
    simp only [if_neg hne, Nat.zero_mul, Nat.zero_add, Nat.one_mul]
    generalize w / W = q at *
    split <;> split <;> omega
  · intro i hi0 hiW
    have hsucc : (i + 1) * (w / W) = i * (w / W) + w / W := Nat.succ_mul _ _
    have hle : (i + 1) * (w / W) ≤ (W - 1) * (w / W) := Nat.mul_le_mul_right _ (by omega)
    have hge : 1 * (w / W) ≤ i * (w / W) := Nat.mul_le_mul_right _ hi0
    rw [Nat.one_mul] at hge
    have hne : ¬ (i = W - 1) := by omega
    unfold computeBandSize clamp_xmax clamp_xmin band_xmax band_xmin
    simp only [if_neg hne]
    generalize (i + 1) * (w / W) = c at *
    generalize i * (w / W) = a at *
    generalize (W - 1) * (w / W) = d at *
    generalize W * (w / W) = e at *
    generalize w / W = q at *
    generalize w % W = r at *
    split <;> split <;> omega
  · intro h hq
    have hge : 1 * (w / W) ≤ (W - 1) * (w / W) := Nat.mul_le_mul_right _ (by omega)
    rw [Nat.one_mul] at hge
    unfold computeBandSize clamp_xmax clamp_xmin band_xmax band_xmin
    simp only [if_true]
    generalize (W - 1) * (w / W) = d at *
    generalize W * (w / W) = e at *
    generalize w / W = q at *
    generalize w % W = r at *
    split <;> split <;> omega
  · intro h hq
    unfold computeBandSize clamp_xmax clamp_xmin band_xmax band_xmin
    simp only [if_true, hq, Nat.mul_zero]
    split <;> split <;> omega

/-- C8 (amended) for width 6 and three workers. -/
theorem C8_compute_band_sizes_witness :
    (3 = 1 → computeBandSize 6 3 0 = 6 - 2)
    ∧ (2 ≤ 3 → computeBandSize 6 3 0 = 6 / 3 - 1)
    ∧ (∀ i, 0 < i → i < 3 - 1 → computeBandSize 6 3 i = 6 / 3)
    ∧ (2 ≤ 3 → 1 ≤ 6 / 3 → computeBandSize 6 3 (3 - 1) = 6 / 3 + 6 % 3 - 1)
    ∧ (2 ≤ 3 → 6 / 3 = 0 → computeBandSize 6 3 (3 - 1) = 6 - 2) :=
  C8_compute_band_sizes 6 3 (by decide) (by decide)
/-! ## The two phases of `iterate` -/

theorem compute_phase_cons (W i : Nat) (l : List Nat) (s : board) :
    s.compute_phase W (i :: l) =
      (s.update_new_grid (band_xmin s.x_size W i) (band_xmax s.x_size W i)).compute_phase W l :=
  rfl

theorem commit_phase_cons (W i : Nat) (l : List Nat) (s : board) :
    s.commit_phase W (i :: l) =
      (s.copy_grid (band_xmin s.x_size W i) (band_xmax s.x_size W i)).commit_phase W l :=
  rfl

/-- The compute phase leaves `grid`, the sizes, the indices and the vertex
positions alone. -/
theorem compute_phase_frame (W : Nat) (l : List Nat) (s : board) :
    SameFrame s (s.compute_phase W l) := by
  induction l generalizing s with
  | nil => exact SameFrame.refl s
  | cons i l ih =>
    rw [compute_phase_cons]
    exact (update_new_grid_frame s _ _).trans (ih _)

/-- The cells of `new_grid` after the compute workers `l` have run. -/
theorem compute_phase_new_grid (W : Nat) (l : List Nat) (s : board) (x y : Int) :
    (((∃ i, i ∈ l ∧ inComputeBand s.x_size W i x) ∧ 1 ≤ y ∧ y < (s.y_size : Int) - 1) →
      (s.compute_phase W l).new_grid x y = s.nextState x y)
    ∧ (¬ ((∃ i, i ∈ l ∧ inComputeBand s.x_size W i x) ∧ 1 ≤ y ∧ y < (s.y_size : Int) - 1) →
      (s.compute_phase W l).new_grid x y = s.new_grid x y) := by
  induction l generalizing s with
  | nil =>
    refine ⟨?_, fun _ => rfl⟩
    rintro ⟨⟨i, hi, _⟩, _⟩
    cases hi
  | cons i l ih =>
    rw [compute_phase_cons]
    have hf := update_new_grid_frame s (band_xmin s.x_size W i) (band_xmax s.x_size W i)
    have ih' := ih (s.update_new_grid (band_xmin s.x_size W i) (band_xmax s.x_size W i))
    rw [hf.2.2.1, hf.2.2.2.1, nextState_congr s _ x y hf.1, update_new_grid_new_grid] at ih'
    by_cases hl : (∃ j, j ∈ l ∧ inComputeBand s.x_size W j x) ∧ 1 ≤ y ∧ y < (s.y_size : Int) - 1
    · refine ⟨fun _ => ih'.1 hl, fun hn => ?_⟩
      obtain ⟨⟨j, hj, hb⟩, hy⟩ := hl
      exact absurd ⟨⟨j, List.mem_cons_of_mem _ hj, hb⟩, hy⟩ hn
    · rw [ih'.2 hl]
      by_cases hi : inComputeBand s.x_size W i x ∧ 1 ≤ y ∧ y < (s.y_size : Int) - 1
      · have hc : clamp_xmin (band_xmin s.x_size W i) ≤ x ∧
            x < clamp_xmax s.x_size (band_xmax s.x_size W i) ∧ 1 ≤ y ∧
            y < (s.y_size : Int) - 1 := ⟨hi.1.1, hi.1.2, hi.2.1, hi.2.2⟩
        rw [if_pos hc]
        exact ⟨fun _ => rfl, fun hn => absurd ⟨⟨i, List.mem_cons_self _ _, hi.1⟩, hi.2⟩ hn⟩
      · have hc : ¬ (clamp_xmin (band_xmin s.x_size W i) ≤ x ∧
            x < clamp_xmax s.x_size (band_xmax s.x_size W i) ∧ 1 ≤ y ∧
            y < (s.y_size : Int) - 1) := fun c => hi ⟨⟨c.1, c.2.1⟩, c.2.2.1, c.2.2.2⟩
        rw [if_neg hc]
        refine ⟨?_, fun _ => rfl⟩
        rintro ⟨⟨j, hj, hb⟩, hy⟩
        rcases List.mem_cons.mp hj with rfl | hj'
        · exact absurd ⟨hb, hy⟩ hi
        · exact absurd ⟨⟨j, hj', hb⟩, hy⟩ hl

theorem Layout_of_SameFrame {b s : board} (h : SameFrame b s) (hL : Layout b) : Layout s := by
  intro x y hx1 hx2 hy1 hy2
  rw [h.2.1, h.2.2.2.1]
  rw [h.2.2.1] at hx2
  rw [h.2.2.2.1] at hy2
  exact hL x y hx1 hx2 hy1 hy2

/-- The vertex colours of cell `(x, y)` after the compute workers `l` have run. -/
theorem compute_phase_color (W : Nat) (l : List Nat) (s : board) (hL : Layout s)
    (x y k : Int) (hx : 0 ≤ x ∧ x < (s.x_size : Int)) (hy : 0 ≤ y ∧ y < (s.y_size : Int))
    (hk : 0 ≤ k ∧ k < 3) :
    (((∃ i, i ∈ l ∧ inComputeBand s.x_size W i x) ∧ 1 ≤ y ∧ y < (s.y_size : Int) - 1) →
      ((s.compute_phase W l).vertex_array (3 * (x * (s.y_size : Int) + y) + k)).color
        = s.nextColor x y)
    ∧ (¬ ((∃ i, i ∈ l ∧ inComputeBand s.x_size W i x) ∧ 1 ≤ y ∧ y < (s.y_size : Int) - 1) →
      ((s.compute_phase W l).vertex_array (3 * (x * (s.y_size : Int) + y) + k)).color
        = (s.vertex_array (3 * (x * (s.y_size : Int) + y) + k)).color) := by
  induction l generalizing s with
  | nil =>
    refine ⟨?_, fun _ => rfl⟩
    rintro ⟨⟨i, hi, _⟩, _⟩
    cases hi
  | cons i l ih =>
    rw [compute_phase_cons]
    have hf := update_new_grid_frame s (band_xmin s.x_size W i) (band_xmax s.x_size W i)
    have ih' := ih (s.update_new_grid (band_xmin s.x_size W i) (band_xmax s.x_size W i))
      (Layout_of_SameFrame hf hL) (by rw [hf.2.2.1]; exact hx) (by rw [hf.2.2.2.1]; exact hy)
    rw [hf.2.2.1, hf.2.2.2.1, nextColor_congr s _ x y hf.1,
      update_new_grid_color s hL _ _ x y k hx hy hk] at ih'
    by_cases hl : (∃ j, j ∈ l ∧ inComputeBand s.x_size W j x) ∧ 1 ≤ y ∧ y < (s.y_size : Int) - 1
    · refine ⟨fun _ => ih'.1 hl, fun hn => ?_⟩
      obtain ⟨⟨j, hj, hb⟩, hy⟩ := hl
      exact absurd ⟨⟨j, List.mem_cons_of_mem _ hj, hb⟩, hy⟩ hn
    · rw [ih'.2 hl]
      by_cases hi : inComputeBand s.x_size W i x ∧ 1 ≤ y ∧ y < (s.y_size : Int) - 1
      · have hc : clamp_xmin (band_xmin s.x_size W i) ≤ x ∧
            x < clamp_xmax s.x_size (band_xmax s.x_size W i) ∧ 1 ≤ y ∧
            y < (s.y_size : Int) - 1 := ⟨hi.1.1, hi.1.2, hi.2.1, hi.2.2⟩
        rw [if_pos hc]
        exact ⟨fun _ => rfl, fun hn => absurd ⟨⟨i, List.mem_cons_self _ _, hi.1⟩, hi.2⟩ hn⟩
      · have hc : ¬ (clamp_xmin (band_xmin s.x_size W i) ≤ x ∧
            x < clamp_xmax s.x_size (band_xmax s.x_size W i) ∧ 1 ≤ y ∧
            y < (s.y_size : Int) - 1) := fun c => hi ⟨⟨c.1, c.2.1⟩, c.2.2.1, c.2.2.2⟩
        rw [if_neg hc]
        refine ⟨?_, fun _ => rfl⟩
        rintro ⟨⟨j, hj, hb⟩, hy⟩
        rcases List.mem_cons.mp hj with rfl | hj'
        · exact absurd ⟨hb, hy⟩ hi
        · exact absurd ⟨⟨j, hj', hb⟩, hy⟩ hl

/-- The commit phase writes `grid` only. -/
theorem commit_phase_frame (W : Nat) (l : List Nat) (s : board) :
    (s.commit_phase W l).new_grid = s.new_grid ∧
    (s.commit_phase W l).point_indicies = s.point_indicies ∧
    (s.commit_phase W l).x_size = s.x_size ∧
    (s.commit_phase W l).y_size = s.y_size ∧
    (s.commit_phase W l).square_size = s.square_size ∧
    (s.commit_phase W l).vertex_array = s.vertex_array := by
  induction l generalizing s with
  | nil => exact ⟨rfl, rfl, rfl, rfl, rfl, rfl⟩
  | cons i l ih =>
    rw [commit_phase_cons]
    have hf := copy_grid_frame s (band_xmin s.x_size W i) (band_xmax s.x_size W i)
    have ih' := ih (s.copy_grid (band_xmin s.x_size W i) (band_xmax s.x_size W i))
    exact ⟨ih'.1.trans hf.1, ih'.2.1.trans hf.2.1, ih'.2.2.1.trans hf.2.2.1,
      ih'.2.2.2.1.trans hf.2.2.2.1, ih'.2.2.2.2.1.trans hf.2.2.2.2.1,
      ih'.2.2.2.2.2.trans hf.2.2.2.2.2⟩

/-- The cells of `grid` after the commit workers `l` have run. -/
theorem commit_phase_grid (W : Nat) (l : List Nat) (s : board) (x y : Int) :
    (((∃ i, i ∈ l ∧ inCommitBand s.x_size W i x) ∧ 0 ≤ y ∧ y < (s.y_size : Int)) →
      (s.commit_phase W l).grid x y = s.new_grid x y)
    ∧ (¬ ((∃ i, i ∈ l ∧ inCommitBand s.x_size W i x) ∧ 0 ≤ y ∧ y < (s.y_size : Int)) →
      (s.commit_phase W l).grid x y = s.grid x y) := by
  induction l generalizing s with
  | nil =>
    refine ⟨?_, fun _ => rfl⟩
    rintro ⟨⟨i, hi, _⟩, _⟩
    cases hi
  | cons i l ih =>
    rw [commit_phase_cons]
    have hf := copy_grid_frame s (band_xmin s.x_size W i) (band_xmax s.x_size W i)
    have ih' := ih (s.copy_grid (band_xmin s.x_size W i) (band_xmax s.x_size W i))
    rw [hf.1, hf.2.2.1, hf.2.2.2.1, copy_grid_grid] at ih'
    by_cases hl : (∃ j, j ∈ l ∧ inCommitBand s.x_size W j x) ∧ 0 ≤ y ∧ y < (s.y_size : Int)
    · refine ⟨fun _ => ih'.1 hl, fun hn => ?_⟩
      obtain ⟨⟨j, hj, hb⟩, hy⟩ := hl
      exact absurd ⟨⟨j, List.mem_cons_of_mem _ hj, hb⟩, hy⟩ hn
    · rw [ih'.2 hl]
      by_cases hi : inCommitBand s.x_size W i x ∧ 0 ≤ y ∧ y < (s.y_size : Int)
      · have hc : band_xmin s.x_size W i ≤ x ∧ x < band_xmax s.x_size W i ∧ 0 ≤ y ∧
            y < (s.y_size : Int) := ⟨hi.1.1, hi.1.2, hi.2.1, hi.2.2⟩
        rw [if_pos hc]
        exact ⟨fun _ => rfl, fun hn => absurd ⟨⟨i, List.mem_cons_self _ _, hi.1⟩, hi.2⟩ hn⟩
      · have hc : ¬ (band_xmin s.x_size W i ≤ x ∧ x < band_xmax s.x_size W i ∧ 0 ≤ y ∧
            y < (s.y_size : Int)) := fun c => hi ⟨⟨c.1, c.2.1⟩, c.2.2.1, c.2.2.2⟩
        rw [if_neg hc]
        refine ⟨?_, fun _ => rfl⟩
        rintro ⟨⟨j, hj, hb⟩, hy⟩
        rcases List.mem_cons.mp hj with rfl | hj'
        · exact absurd ⟨hb, hy⟩ hi
        · exact absurd ⟨⟨j, hj', hb⟩, hy⟩ hl

/-! ## One tick -/

theorem exists_mem_compute_iff (w W : Nat) (l : List Nat) (hW : 1 ≤ W)
    (hl : ∀ i, i ∈ l ↔ i < W) (x : Int) :
    (∃ i, i ∈ l ∧ inComputeBand w W i x) ↔ (1 ≤ x ∧ x < (w : Int) - 1) := by
  rw [← compute_cover w W x hW]
  constructor
  · rintro ⟨i, hi, hb⟩; exact ⟨i, (hl i).mp hi, hb⟩
  · rintro ⟨i, hi, hb⟩; exact ⟨i, (hl i).mpr hi, hb⟩

theorem exists_mem_commit_iff (w W : Nat) (l : List Nat) (hW : 1 ≤ W)
    (hl : ∀ i, i ∈ l ↔ i < W) (x : Int) :
    (∃ i, i ∈ l ∧ inCommitBand w W i x) ↔ (0 ≤ x ∧ x < (w : Int)) := by
  rw [← commit_cover w W x hW]
  constructor
  · rintro ⟨i, hi, hb⟩; exact ⟨i, (hl i).mp hi, hb⟩
  · rintro ⟨i, hi, hb⟩; exact ⟨i, (hl i).mpr hi, hb⟩

/-- A tick leaves the sizes, the indices and the vertex positions alone. -/
theorem iterateIn_frame (W : Nat) (l1 l2 : List Nat) (b : board) :
    (b.iterateIn W l1 l2).point_indicies = b.point_indicies ∧
    (b.iterateIn W l1 l2).x_size = b.x_size ∧
    (b.iterateIn W l1 l2).y_size = b.y_size ∧
    (b.iterateIn W l1 l2).square_size = b.square_size ∧
    ∀ j, ((b.iterateIn W l1 l2).vertex_array j).px = (b.vertex_array j).px ∧
      ((b.iterateIn W l1 l2).vertex_array j).py = (b.vertex_array j).py := by
  unfold board.iterateIn
  have h1 := compute_phase_frame W l1 b
  have h2 := commit_phase_frame W l2 (b.compute_phase W l1)
  refine ⟨h2.2.1.trans h1.2.1, h2.2.2.1.trans h1.2.2.1, h2.2.2.2.1.trans h1.2.2.2.1,
    h2.2.2.2.2.1.trans h1.2.2.2.2.1, fun j => ?_⟩
  rw [h2.2.2.2.2.2]
  exact h1.2.2.2.2.2 j

/-- The cells of `new_grid` after a tick with at least one worker. -/
theorem iterateIn_new_grid (W : Nat) (l1 l2 : List Nat) (b : board) (hW : 1 ≤ W)
    (hl1 : ∀ i, i ∈ l1 ↔ i < W) (x y : Int) :
    (b.iterateIn W l1 l2).new_grid x y =
      if 1 ≤ x ∧ x < (b.x_size : Int) - 1 ∧ 1 ≤ y ∧ y < (b.y_size : Int) - 1
      then b.nextState x y else b.new_grid x y := by
  unfold board.iterateIn
  rw [(commit_phase_frame W l2 (b.compute_phase W l1)).1]
  have h := compute_phase_new_grid W l1 b x y
  rw [exists_mem_compute_iff b.x_size W l1 hW hl1 x] at h
  by_cases c : 1 ≤ x ∧ x < (b.x_size : Int) - 1 ∧ 1 ≤ y ∧ y < (b.y_size : Int) - 1
  · rw [if_pos c]; exact h.1 ⟨⟨c.1, c.2.1⟩, c.2.2⟩
  · rw [if_neg c]; exact h.2 (fun d => c ⟨d.1.1, d.1.2, d.2⟩)

/-- The cells of `grid` after a tick with at least one worker: the new `new_grid`
inside the board. -/
theorem iterateIn_grid (W : Nat) (l1 l2 : List Nat) (b : board) (hW : 1 ≤ W)
    (hl2 : ∀ i, i ∈ l2 ↔ i < W) (x y : Int) :
    (b.iterateIn W l1 l2).grid x y =
      if 0 ≤ x ∧ x < (b.x_size : Int) ∧ 0 ≤ y ∧ y < (b.y_size : Int)
      then (b.iterateIn W l1 l2).new_grid x y else b.grid x y := by
  unfold board.iterateIn
  rw [(commit_phase_frame W l2 (b.compute_phase W l1)).1]
  have hf := compute_phase_frame W l1 b
  have h := commit_phase_grid W l2 (b.compute_phase W l1) x y
  rw [exists_mem_commit_iff _ W l2 hW hl2 x, hf.2.2.1, hf.2.2.2.1, hf.1] at h
  by_cases c : 0 ≤ x ∧ x < (b.x_size : Int) ∧ 0 ≤ y ∧ y < (b.y_size : Int)
  · rw [if_pos c]; exact h.1 ⟨⟨c.1, c.2.1⟩, c.2.2⟩
  · rw [if_neg c]; exact h.2 (fun d => c ⟨d.1.1, d.1.2, d.2⟩)

/-- The vertex colours of cell `(x, y)` after a tick with at least one worker. -/
theorem iterateIn_color (W : Nat) (l1 l2 : List Nat) (b : board) (hW : 1 ≤ W)
    (hl1 : ∀ i, i ∈ l1 ↔ i < W) (hL : Layout b) (x y k : Int)
    (hx : 0 ≤ x ∧ x < (b.x_size : Int)) (hy : 0 ≤ y ∧ y < (b.y_size : Int))
    (hk : 0 ≤ k ∧ k < 3) :
    ((b.iterateIn W l1 l2).vertex_array (3 * (x * (b.y_size : Int) + y) + k)).color =
      if 1 ≤ x ∧ x < (b.x_size : Int) - 1 ∧ 1 ≤ y ∧ y < (b.y_size : Int) - 1
      then b.nextColor x y
      else (b.vertex_array (3 * (x * (b.y_size : Int) + y) + k)).color := by
  unfold board.iterateIn
  rw [(commit_phase_frame W l2 (b.compute_phase W l1)).2.2.2.2.2]
  have h := compute_phase_color W l1 b hL x y k hx hy hk
  rw [exists_mem_compute_iff b.x_size W l1 hW hl1 x] at h
  by_cases c : 1 ≤ x ∧ x < (b.x_size : Int) - 1 ∧ 1 ≤ y ∧ y < (b.y_size : Int) - 1
  · rw [if_pos c]; exact h.1 ⟨⟨c.1, c.2.1⟩, c.2.2⟩
  · rw [if_neg c]; exact h.2 (fun d => c ⟨d.1.1, d.1.2, d.2⟩)

theorem iterate_zero (b : board) : b.iterate 0 = b := rfl

theorem mem_range_iff (W : Nat) : ∀ i, i ∈ List.range W ↔ i < W :=
  fun _ => List.mem_range
/-! ## The constructor -/

theorem init_cell_frame (rand : Nat → Nat) (x y : Int) (s : board × Nat) :
    (board.init_cell rand x y s).1.x_size = s.1.x_size ∧
    (board.init_cell rand x y s).1.y_size = s.1.y_size ∧
    (board.init_cell rand x y s).1.square_size = s.1.square_size ∧
    (board.init_cell rand x y s).1.point_indicies = s.1.point_indicies ∧
    (board.init_cell rand x y s).1.vertex_array = s.1.vertex_array ∧
    (board.init_cell rand x y s).2 = s.2 + 1 := by
  unfold board.init_cell
  refine ⟨?_, ?_, ?_, ?_, ?_, rfl⟩ <;> (simp only []; split <;> rfl)

theorem init_cell_grid (rand : Nat → Nat) (x y : Int) (s : board × Nat) (x' y' : Int) :
    (board.init_cell rand x y s).1.grid x' y' =
      (if x' = x ∧ y' = y then
        (if x = 0 ∨ y = 0 ∨ x = (s.1.x_size : Int) - 1 ∨ y = (s.1.y_size : Int) - 1
          then false else rand s.2 % 2 == 0)
      else s.1.grid x' y') ∧
    (board.init_cell rand x y s).1.new_grid x' y' =
      (if x' = x ∧ y' = y then
        (if x = 0 ∨ y = 0 ∨ x = (s.1.x_size : Int) - 1 ∨ y = (s.1.y_size : Int) - 1
          then false else rand s.2 % 2 == 0)
      else s.1.new_grid x' y') := by
  unfold board.init_cell
  by_cases hb : x = 0 ∨ y = 0 ∨ x = (s.1.x_size : Int) - 1 ∨ y = (s.1.y_size : Int) - 1
  · simp only [if_pos hb]
    by_cases hc : x' = x ∧ y' = y
    · simp [set2, hc]
    · simp [set2, hc]
  · simp only [if_neg hb]
    by_cases hc : x' = x ∧ y' = y
    · simp [set2, hc]
    · simp [set2, hc]

/-- The first constructor loop leaves the sizes, the indices and the vertex
array alone. -/
theorem init_squares_frame (rand : Nat → Nat) (b : board) :
    (b.init_squares rand).1.x_size = b.x_size ∧
    (b.init_squares rand).1.y_size = b.y_size ∧
    (b.init_squares rand).1.square_size = b.square_size ∧
    (b.init_squares rand).1.point_indicies = b.point_indicies ∧
    (b.init_squares rand).1.vertex_array = b.vertex_array := by
  unfold board.init_squares
  exact forLoop2_inv (fun s : board × Nat => s.1.x_size = b.x_size ∧ s.1.y_size = b.y_size ∧
      s.1.square_size = b.square_size ∧ s.1.point_indicies = b.point_indicies ∧
      s.1.vertex_array = b.vertex_array) _ _ _ _
    (fun x y s => board.init_cell rand x y s) (b, 0) ⟨rfl, rfl, rfl, rfl, rfl⟩
    (fun x y t _ _ _ _ ht => by
      have h := init_cell_frame rand x y t
      exact ⟨h.1.trans ht.1, h.2.1.trans ht.2.1, h.2.2.1.trans ht.2.2.1,
        h.2.2.2.1.trans ht.2.2.2.1, h.2.2.2.2.1.trans ht.2.2.2.2⟩)

theorem succ_mul_int (x h : Int) : (x + 1) * h = x * h + h := by ring

/-- The cells of `grid` after the first constructor loop. -/
theorem init_squares_grid (rand : Nat → Nat) (b : board) (x y : Int) :
    (b.init_squares rand).1.grid x y =
      if 0 ≤ x ∧ x < (b.x_size : Int) ∧ 0 ≤ y ∧ y < (b.y_size : Int)
      then initial_cell b.x_size b.y_size rand x y else b.grid x y := by
  unfold board.init_squares
  exact forLoop2_get_idx
    (fun x' y' (t : board × Nat) => (t.2 : Int) = x' * (b.y_size : Int) + y' ∧
      t.1.x_size = b.x_size ∧ t.1.y_size = b.y_size)
    (fun t : board × Nat => t.1.grid x y) x y (initial_cell b.x_size b.y_size rand x y)
    0 _ 0 _ (fun x y s => board.init_cell rand x y s) (b, 0)
    (Int.natCast_nonneg _) (Int.natCast_nonneg _) ⟨by simp, rfl, rfl⟩
    (fun x' t ht => ⟨by rw [ht.1, succ_mul_int]; omega, ht.2⟩)
    (fun x' y' t _ _ _ _ ht => by
      have h := init_cell_frame rand x' y' t
      exact ⟨by rw [h.2.2.2.2.2]; push_cast; omega, h.1.trans ht.2.1, h.2.1.trans ht.2.2⟩)
    (fun x' y' t _ _ _ _ _ hne => by
      show (board.init_cell rand x' y' t).1.grid x y = t.1.grid x y
      rw [(init_cell_grid rand x' y' t x y).1,
        if_neg (fun h => hne ⟨h.1.symm, h.2.symm⟩)])
    (fun t _ _ _ _ ht => by
      show (board.init_cell rand x y t).1.grid x y = _
      rw [(init_cell_grid rand x y t x y).1, if_pos ⟨rfl, rfl⟩, ht.2.1, ht.2.2]
      have e : t.2 = (x * (b.y_size : Int) + y).toNat := by omega
      unfold initial_cell
      rw [e])

/-- The cells of `new_grid` after the first constructor loop. -/
theorem init_squares_new_grid (rand : Nat → Nat) (b : board) (x y : Int) :
    (b.init_squares rand).1.new_grid x y =
      if 0 ≤ x ∧ x < (b.x_size : Int) ∧ 0 ≤ y ∧ y < (b.y_size : Int)
      then initial_cell b.x_size b.y_size rand x y else b.new_grid x y := by
  unfold board.init_squares
  exact forLoop2_get_idx
    (fun x' y' (t : board × Nat) => (t.2 : Int) = x' * (b.y_size : Int) + y' ∧
      t.1.x_size = b.x_size ∧ t.1.y_size = b.y_size)
    (fun t : board × Nat => t.1.new_grid x y) x y (initial_cell b.x_size b.y_size rand x y)
    0 _ 0 _ (fun x y s => board.init_cell rand x y s) (b, 0)
    (Int.natCast_nonneg _) (Int.natCast_nonneg _) ⟨by simp, rfl, rfl⟩
    (fun x' t ht => ⟨by rw [ht.1, succ_mul_int]; omega, ht.2⟩)
    (fun x' y' t _ _ _ _ ht => by
      have h := init_cell_frame rand x' y' t
      exact ⟨by rw [h.2.2.2.2.2]; push_cast; omega, h.1.trans ht.2.1, h.2.1.trans ht.2.2⟩)
    (fun x' y' t _ _ _ _ _ hne => by
      show (board.init_cell rand x' y' t).1.new_grid x y = t.1.new_grid x y
      rw [(init_cell_grid rand x' y' t x y).2,
        if_neg (fun h => hne ⟨h.1.symm, h.2.symm⟩)])
    (fun t _ _ _ _ ht => by
      show (board.init_cell rand x y t).1.new_grid x y = _
      rw [(init_cell_grid rand x y t x y).2, if_pos ⟨rfl, rfl⟩, ht.2.1, ht.2.2]
      have e : t.2 = (x * (b.y_size : Int) + y).toNat := by omega
      unfold initial_cell
      rw [e])

theorem setPosition_color (va : Int → Vertex) (j px py j' : Int) :
    (setPosition va j px py j').color = (va j').color := by
  unfold setPosition; split <;> rfl

theorem init_vertex_frame (x y : Int) (s : board × Int) :
    (board.init_vertex x y s).1.grid = s.1.grid ∧
    (board.init_vertex x y s).1.new_grid = s.1.new_grid ∧
    (board.init_vertex x y s).1.x_size = s.1.x_size ∧
    (board.init_vertex x y s).1.y_size = s.1.y_size ∧
    (board.init_vertex x y s).1.square_size = s.1.square_size ∧
    (board.init_vertex x y s).2 = s.2 + 3 :=
  ⟨rfl, rfl, rfl, rfl, rfl, rfl⟩

theorem init_vertex_color (x y : Int) (s : board × Int) (j : Int) :
    ((board.init_vertex x y s).1.vertex_array j).color =
      if s.2 ≤ j ∧ j < s.2 + 3 then Color.Black else (s.1.vertex_array j).color := by
  show (setColor (setColor (setColor _ (s.2 + 0) _) (s.2 + 1) _) (s.2 + 2) _ j).color = _
  by_cases h2 : j = s.2 + 2
  · rw [h2, setColor_color_same, if_pos (by omega)]
  · rw [setColor_color_other _ _ _ _ h2]
    by_cases h1 : j = s.2 + 1
    · rw [h1, setColor_color_same, if_pos (by omega)]
    · rw [setColor_color_other _ _ _ _ h1]
      by_cases h0 : j = s.2 + 0
      · rw [h0, setColor_color_same, if_pos (by omega)]
      · rw [setColor_color_other _ _ _ _ h0, if_neg (by omega)]
        simp only [setPosition_color]

/-- The second constructor loop leaves both cell buffers and the sizes alone. -/
theorem init_vertices_frame (b : board) :
    b.init_vertices.1.grid = b.grid ∧ b.init_vertices.1.new_grid = b.new_grid ∧
    b.init_vertices.1.x_size = b.x_size ∧ b.init_vertices.1.y_size = b.y_size ∧
    b.init_vertices.1.square_size = b.square_size := by
  unfold board.init_vertices
  exact forLoop2_inv (fun s : board × Int => s.1.grid = b.grid ∧ s.1.new_grid = b.new_grid ∧
      s.1.x_size = b.x_size ∧ s.1.y_size = b.y_size ∧ s.1.square_size = b.square_size)
    _ _ _ _ (fun x y s => board.init_vertex x y s) (b, 0) ⟨rfl, rfl, rfl, rfl, rfl⟩
    (fun x y t _ _ _ _ ht => ht)

/-- The vertex index the constructor records for a cell of the board. -/
theorem init_vertices_point_indicies (b : board) (x y : Int)
    (hx : 0 ≤ x ∧ x < (b.x_size : Int)) (hy : 0 ≤ y ∧ y < (b.y_size : Int)) :
    b.init_vertices.1.point_indicies x y = 3 * (x * (b.y_size : Int) + y) := by
  unfold board.init_vertices
  have key := forLoop2_get_idx
    (fun x' y' (t : board × Int) => t.2 = 3 * (x' * (b.y_size : Int) + y'))
    (fun t : board × Int => t.1.point_indicies x y) x y (3 * (x * (b.y_size : Int) + y))
    0 (b.x_size : Int) 0 (b.y_size : Int) (fun x y s => board.init_vertex x y s) (b, 0)
    (Int.natCast_nonneg _) (Int.natCast_nonneg _) (by simp)
    (fun x' t ht => by
      show t.2 = 3 * ((x' + 1) * (b.y_size : Int) + 0)
      have ht' : t.2 = 3 * (x' * (b.y_size : Int) + (b.y_size : Int)) := ht
      rw [ht', succ_mul_int]; omega)
    (fun x' y' t _ _ _ _ ht => by
      show t.2 + 3 = 3 * (x' * (b.y_size : Int) + (y' + 1))
      have ht' : t.2 = 3 * (x' * (b.y_size : Int) + y') := ht
      rw [ht']; omega)
    (fun x' y' t _ _ _ _ _ hne => by
      show set2 t.1.point_indicies x' y' t.2 x y = t.1.point_indicies x y
      exact set2_other _ _ _ _ _ _ (fun h => hne ⟨h.1.symm, h.2.symm⟩))
    (fun t _ _ _ _ ht => by
      show set2 t.1.point_indicies x y t.2 x y = _
      have ht' : t.2 = 3 * (x * (b.y_size : Int) + y) := ht
      rw [set2_same, ht'])
  rw [if_pos ⟨hx.1, hx.2, hy.1, hy.2⟩] at key
  exact key

/-- The constructor colours every vertex of every cell of the board black. -/
theorem init_vertices_color (b : board) (x y k : Int)
    (hx : 0 ≤ x ∧ x < (b.x_size : Int)) (hy : 0 ≤ y ∧ y < (b.y_size : Int))
    (hk : 0 ≤ k ∧ k < 3) :
    (b.init_vertices.1.vertex_array (3 * (x * (b.y_size : Int) + y) + k)).color
      = Color.Black := by
  unfold board.init_vertices
  have key := forLoop2_get_idx
    (fun x' y' (t : board × Int) => t.2 = 3 * (x' * (b.y_size : Int) + y'))
    (fun t : board × Int => (t.1.vertex_array (3 * (x * (b.y_size : Int) + y) + k)).color)
    x y Color.Black
    0 (b.x_size : Int) 0 (b.y_size : Int) (fun x y s => board.init_vertex x y s) (b, 0)
    (Int.natCast_nonneg _) (Int.natCast_nonneg _) (by simp)
    (fun x' t ht => by
      show t.2 = 3 * ((x' + 1) * (b.y_size : Int) + 0)
      have ht' : t.2 = 3 * (x' * (b.y_size : Int) + (b.y_size : Int)) := ht
      rw [ht', succ_mul_int]; omega)
    (fun x' y' t _ _ _ _ ht => by
      show t.2 + 3 = 3 * (x' * (b.y_size : Int) + (y' + 1))
      have ht' : t.2 = 3 * (x' * (b.y_size : Int) + y') := ht
      rw [ht']; omega)
    (fun x' y' t _ _ hy1 hy2 ht hne => by
      show ((board.init_vertex x' y' t).1.vertex_array _).color = _
      have ht' : t.2 = 3 * (x' * (b.y_size : Int) + y') := ht
      rw [init_vertex_color, if_neg]
      rw [ht']
      intro hc
      have hk' : 0 ≤ 3 * (x * (b.y_size : Int) + y) + k - 3 * (x' * (b.y_size : Int) + y') ∧
          3 * (x * (b.y_size : Int) + y) + k - 3 * (x' * (b.y_size : Int) + y') < 3 :=
        ⟨by omega, by omega⟩
      have := cell_index_inj (b.y_size : Int) x' y' x y
        (3 * (x * (b.y_size : Int) + y) + k - 3 * (x' * (b.y_size : Int) + y')) k
        ⟨hy1, hy2⟩ hy hk' hk (by omega)
      exact hne ⟨this.1, this.2.1⟩)
    (fun t _ _ _ _ ht => by
      show ((board.init_vertex x y t).1.vertex_array _).color = _
      have ht' : t.2 = 3 * (x * (b.y_size : Int) + y) := ht
      rw [init_vertex_color, if_pos]
      rw [ht']; omega)
  rw [if_pos ⟨hx.1, hx.2, hy.1, hy.2⟩] at key
  exact key

/-! ### The constructed board -/

theorem board_board_size (w h : Nat) (sq : Int) (rand : Nat → Nat) :
    (board.board w h sq rand).x_size = w ∧ (board.board w h sq rand).y_size = h ∧
    (board.board w h sq rand).square_size = sq := by
  unfold board.board
  have h1 := init_squares_frame rand (board.alloc w h sq)
  have h2 := init_vertices_frame ((board.alloc w h sq).init_squares rand).1
  exact ⟨h2.2.2.1.trans h1.1, h2.2.2.2.1.trans h1.2.1, h2.2.2.2.2.trans h1.2.2.1⟩

/-- Both buffers of the constructed board hold `initial_cell` at every cell. -/
theorem board_board_cells (w h : Nat) (sq : Int) (rand : Nat → Nat) (x y : Int)
    (hx : 0 ≤ x ∧ x < (w : Int)) (hy : 0 ≤ y ∧ y < (h : Int)) :
    (board.board w h sq rand).grid x y = initial_cell w h rand x y ∧
    (board.board w h sq rand).new_grid x y = initial_cell w h rand x y := by
  unfold board.board
  have h2 := init_vertices_frame ((board.alloc w h sq).init_squares rand).1
  have hc : 0 ≤ x ∧ x < (((board.alloc w h sq).x_size : Nat) : Int) ∧ 0 ≤ y ∧
      y < (((board.alloc w h sq).y_size : Nat) : Int) := ⟨hx.1, hx.2, hy.1, hy.2⟩
  constructor
  · show (board.init_vertices _).1.grid x y = _
    rw [h2.1, init_squares_grid, if_pos hc]; rfl
  · show (board.init_vertices _).1.new_grid x y = _
    rw [h2.2.1, init_squares_new_grid, if_pos hc]; rfl

theorem board_board_layout (w h : Nat) (sq : Int) (rand : Nat → Nat) :
    Layout (board.board w h sq rand) := by
  intro x y hx1 hx2 hy1 hy2
  have hs := board_board_size w h sq rand
  rw [hs.1] at hx2
  rw [hs.2.1] at hy2 ⊢
  have h1 := init_squares_frame rand (board.alloc w h sq)
  have e1 : ((board.alloc w h sq).init_squares rand).1.x_size = w := h1.1
  have e2 : ((board.alloc w h sq).init_squares rand).1.y_size = h := h1.2.1
  have := init_vertices_point_indicies ((board.alloc w h sq).init_squares rand).1 x y
    (by rw [e1]; exact ⟨hx1, hx2⟩) (by rw [e2]; exact ⟨hy1, hy2⟩)
  rw [e2] at this
  exact this

theorem board_board_color (w h : Nat) (sq : Int) (rand : Nat → Nat) (x y k : Int)
    (hx : 0 ≤ x ∧ x < (w : Int)) (hy : 0 ≤ y ∧ y < (h : Int)) (hk : 0 ≤ k ∧ k < 3) :
    ((board.board w h sq rand).vertex_array (3 * (x * (h : Int) + y) + k)).color
      = Color.Black := by
  have h1 := init_squares_frame rand (board.alloc w h sq)
  have e1 : ((board.alloc w h sq).init_squares rand).1.x_size = w := h1.1
  have e2 : ((board.alloc w h sq).init_squares rand).1.y_size = h := h1.2.1
  have := init_vertices_color ((board.alloc w h sq).init_squares rand).1 x y k
    (by rw [e1]; exact hx) (by rw [e2]; exact hy) hk
  rw [e2] at this
  exact this
/-! ## Reachable states -/

theorem initial_cell_border (w h : Nat) (rand : Nat → Nat) (x y : Int)
    (hb : x = 0 ∨ x = (w : Int) - 1 ∨ y = 0 ∨ y = (h : Int) - 1) :
    initial_cell w h rand x y = false := by
  unfold initial_cell
  rw [if_pos (by omega)]

/-- What holds of the constructed board and is kept by every tick: the vertex
layout, the dead border of both buffers and the black border vertices. -/
theorem reachable_inv (b : board) (hb : Reachable b) :
    Layout b ∧ BorderDead b ∧ BorderBlack b := by
  induction hb with
  | init w h sq rand =>
    have hs := board_board_size w h sq rand
    refine ⟨board_board_layout w h sq rand, ?_, ?_⟩
    · intro x y hin hbd
      unfold inBoard at hin
      unfold onBorder at hbd
      rw [hs.1, hs.2.1] at hin hbd
      have hc := board_board_cells w h sq rand x y ⟨hin.1, hin.2.1⟩ hin.2.2
      rw [hc.1, hc.2]
      exact ⟨initial_cell_border w h rand x y hbd, initial_cell_border w h rand x y hbd⟩
    · intro x y k hin hbd hk1 hk2
      unfold inBoard at hin
      rw [hs.1, hs.2.1] at hin
      rw [hs.2.1]
      exact board_board_color w h sq rand x y k ⟨hin.1, hin.2.1⟩ hin.2.2 ⟨hk1, hk2⟩
  | tick W b _ ih =>
    rcases Nat.eq_zero_or_pos W with h0 | hW
    · subst h0
      rw [iterate_zero]
      exact ih
    · obtain ⟨hL, hD, hB⟩ := ih
      have hf := iterateIn_frame W (List.range W) (List.range W) b
      have hng := iterateIn_new_grid W (List.range W) (List.range W) b hW (mem_range_iff W)
      have hg := iterateIn_grid W (List.range W) (List.range W) b hW (mem_range_iff W)
      have hcol := iterateIn_color W (List.range W) (List.range W) b hW (mem_range_iff W) hL
      refine ⟨?_, ?_, ?_⟩
      · intro x y hx1 hx2 hy1 hy2
        show (b.iterateIn W _ _).point_indicies x y = 3 * (x * ((b.iterateIn W _ _).y_size : Int) + y)
        rw [hf.1, hf.2.2.1]
        have hx2' : x < ((b.iterateIn W (List.range W) (List.range W)).x_size : Int) := hx2
        have hy2' : y < ((b.iterateIn W (List.range W) (List.range W)).y_size : Int) := hy2
        rw [hf.2.1] at hx2'
        rw [hf.2.2.1] at hy2'
        exact hL x y hx1 hx2' hy1 hy2'
      · intro x y hin hbd
        have hin' : inBoard b x y := by
          have h := hin
          unfold inBoard at h ⊢
          have e1 : (b.iterate W).x_size = b.x_size := hf.2.1
          have e2 : (b.iterate W).y_size = b.y_size := hf.2.2.1
          rw [e1, e2] at h
          exact h
        have hbd' : onBorder b x y := by
          have h := hbd
          unfold onBorder at h ⊢
          have e1 : (b.iterate W).x_size = b.x_size := hf.2.1
          have e2 : (b.iterate W).y_size = b.y_size := hf.2.2.1
          rw [e1, e2] at h
          exact h
        have hnot : ¬ (1 ≤ x ∧ x < (b.x_size : Int) - 1 ∧ 1 ≤ y ∧ y < (b.y_size : Int) - 1) := by
          unfold onBorder at hbd'
          omega
        have e : (b.iterate W).new_grid x y = false := by
          show (b.iterateIn W _ _).new_grid x y = false
          rw [hng x y, if_neg hnot]
          exact (hD x y hin' hbd').2
        refine ⟨?_, e⟩
        show (b.iterateIn W _ _).grid x y = false
        have hin2 : 0 ≤ x ∧ x < (b.x_size : Int) ∧ 0 ≤ y ∧ y < (b.y_size : Int) := hin'
        rw [hg x y, if_pos hin2]
        exact e
      · intro x y k hin hbd hk1 hk2
        have e1 : (b.iterate W).x_size = b.x_size := hf.2.1
        have e2 : (b.iterate W).y_size = b.y_size := hf.2.2.1
        have hin' : inBoard b x y := by
          have h := hin
          unfold inBoard at h ⊢
          rw [e1, e2] at h
          exact h
        have hbd' : onBorder b x y := by
          have h := hbd
          unfold onBorder at h ⊢
          rw [e1, e2] at h
          exact h
        have hnot : ¬ (1 ≤ x ∧ x < (b.x_size : Int) - 1 ∧ 1 ≤ y ∧ y < (b.y_size : Int) - 1) := by
          unfold onBorder at hbd'
          omega
        rw [e2]
        show ((b.iterateIn W _ _).vertex_array _).color = _
        have hin2 : 0 ≤ x ∧ x < (b.x_size : Int) ∧ 0 ≤ y ∧ y < (b.y_size : Int) := hin'
        rw [hcol x y k ⟨hin2.1, hin2.2.1⟩ hin2.2.2 ⟨hk1, hk2⟩, if_neg hnot]
        exact hB x y k hin' hbd' hk1 hk2

/-! ## The claims about whole ticks -/

/-- The rule of `update_new_grid` in terms of the Moore count. -/
theorem nextState_iff (b : board) (x y : Int) :
    b.nextState x y = true ↔
      (mooreCount b.grid x y = 3 ∨ (mooreCount b.grid x y = 2 ∧ b.grid x y = true)) := by
  unfold board.nextState
  rw [neighbours_eq_mooreCount]
  have hle := mooreCount_le b.grid x y
  by_cases h1 : ((mooreCount b.grid x y : Nat) : Int) < 2
  · rw [if_pos h1]
    constructor
    · intro h; cases h
    · rintro (h | ⟨h, _⟩) <;> omega
  · by_cases h2 : ((mooreCount b.grid x y : Nat) : Int) = 2
    · rw [if_neg h1, if_pos h2]
      constructor
      · intro h; exact Or.inr ⟨by omega, h⟩
      · rintro (h | ⟨_, h⟩)
        · omega
        · exact h
    · by_cases h3 : ((mooreCount b.grid x y : Nat) : Int) = 3
      · rw [if_neg h1, if_neg h2, if_pos h3]
        exact ⟨fun _ => Or.inl (by omega), fun _ => rfl⟩
      · rw [if_neg h1, if_neg h2, if_neg h3]
        constructor
        · intro h; cases h
        · rintro (h | ⟨h, _⟩) <;> omega

/-- C1: on a board reachable from construction, one `iterate()` with at least one
worker leaves in `grid` one generation of the old `grid`: an interior cell is
alive iff it had three live Moore neighbours, or two and was alive; every border
cell is dead. -/
theorem C1_iterate_generation (b : board) (hb : Reachable b) (W : Nat) (hW : 1 ≤ W)
    (x y : Int) (hin : inBoard b x y) :
    ((1 ≤ x ∧ x ≤ (b.x_size : Int) - 2 ∧ 1 ≤ y ∧ y ≤ (b.y_size : Int) - 2) →
      ((b.iterate W).grid x y = true ↔
        (mooreCount b.grid x y = 3 ∨ (mooreCount b.grid x y = 2 ∧ b.grid x y = true))))
    ∧ (onBorder b x y → (b.iterate W).grid x y = false) := by
  have hin2 : 0 ≤ x ∧ x < (b.x_size : Int) ∧ 0 ≤ y ∧ y < (b.y_size : Int) := hin
  have hg : (b.iterate W).grid x y =
      if 1 ≤ x ∧ x < (b.x_size : Int) - 1 ∧ 1 ≤ y ∧ y < (b.y_size : Int) - 1
      then b.nextState x y else b.new_grid x y := by
    show (b.iterateIn W (List.range W) (List.range W)).grid x y = _
    rw [iterateIn_grid W _ _ b hW (mem_range_iff W) x y, if_pos hin2,
      iterateIn_new_grid W _ _ b hW (mem_range_iff W) x y]
  constructor
  · intro hi
    rw [hg, if_pos ⟨hi.1, by omega, hi.2.2.1, by omega⟩]
    exact nextState_iff b x y
  · intro hbd
    have hbd2 : x = 0 ∨ x = (b.x_size : Int) - 1 ∨ y = 0 ∨ y = (b.y_size : Int) - 1 := hbd
    rw [hg, if_neg (by omega)]
    exact ((reachable_inv b hb).2.1 x y hin hbd).2

set_option maxRecDepth 100000 in
/-- C1 on the 5x5 board whose interior is alive, two workers, the centre cell. -/
theorem C1_iterate_generation_witness :
    ((1 ≤ (2 : Int) ∧ (2 : Int) ≤ ((fullBoard 5 5).x_size : Int) - 2 ∧ 1 ≤ (2 : Int) ∧
        (2 : Int) ≤ ((fullBoard 5 5).y_size : Int) - 2) →
      (((fullBoard 5 5).iterate 2).grid 2 2 = true ↔
        (mooreCount (fullBoard 5 5).grid 2 2 = 3 ∨
          (mooreCount (fullBoard 5 5).grid 2 2 = 2 ∧ (fullBoard 5 5).grid 2 2 = true))))
    ∧ (onBorder (fullBoard 5 5) 2 2 → ((fullBoard 5 5).iterate 2).grid 2 2 = false) :=
  C1_iterate_generation (fullBoard 5 5) (Reachable.init 5 5 1 _) 2 (by decide) 2 2
    (by unfold inBoard; decide)

/-- C4: on every board reachable from construction (whatever `rand()` returned,
whatever the worker counts of the ticks), every border cell is dead in `grid` and
in `new_grid`, and it is so again after one more `iterate()` with any worker
count. -/
theorem C4_border_dead (b : board) (hb : Reachable b) (W : Nat) (x y : Int)
    (hin : inBoard b x y) (hbd : onBorder b x y) :
    (b.grid x y = false ∧ b.new_grid x y = false)
    ∧ ((b.iterate W).grid x y = false ∧ (b.iterate W).new_grid x y = false) := by
  refine ⟨(reachable_inv b hb).2.1 x y hin hbd, ?_⟩
  have hf := iterateIn_frame W (List.range W) (List.range W) b
  have e1 : (b.iterate W).x_size = b.x_size := hf.2.1
  have e2 : (b.iterate W).y_size = b.y_size := hf.2.2.1
  refine (reachable_inv (b.iterate W) (Reachable.tick W b hb)).2.1 x y ?_ ?_
  · unfold inBoard at hin ⊢
    rw [e1, e2]; exact hin
  · unfold onBorder at hbd ⊢
    rw [e1, e2]; exact hbd

set_option maxRecDepth 100000 in
/-- C4 on the 5x5 board whose interior is alive, three workers, border cell
`(0, 2)`. -/
theorem C4_border_dead_witness :
    ((fullBoard 5 5).grid 0 2 = false ∧ (fullBoard 5 5).new_grid 0 2 = false)
    ∧ (((fullBoard 5 5).iterate 3).grid 0 2 = false ∧
        ((fullBoard 5 5).iterate 3).new_grid 0 2 = false) :=
  C4_border_dead (fullBoard 5 5) (Reachable.init 5 5 1 _) 3 0 2
    (by unfold inBoard; decide) (by unfold onBorder; decide)

set_option maxRecDepth 100000 in
/-- C10: `CPU_COUNT` is the reported hardware thread count itself, with no lower
bound: when the query reports 0 there is no worker, and `iterate()` leaves the
board as it was. On the 5x5 board whose interior is alive the centre cell has
eight live neighbours and still is alive after the call. -/
theorem C10_zero_workers_no_tick :
    CPU_COUNT 0 = 0
    ∧ (∀ b : board, b.iterate (CPU_COUNT 0) = b)
    ∧ mooreCount (fullBoard 5 5).grid 2 2 = 8
    ∧ ((fullBoard 5 5).iterate (CPU_COUNT 0)).grid 2 2 = true
    ∧ ((fullBoard 5 5).iterate 1).grid 2 2 = false := by
  refine ⟨rfl, fun b => rfl, by decide, by decide, by decide⟩

/-- The next state of a cell is decided by the 3x3 block of `grid` around it. -/
theorem nextState_congr_local (b1 b2 : board) (x y : Int)
    (h : ∀ x' y', x - 1 ≤ x' → x' ≤ x + 1 → y - 1 ≤ y' → y' ≤ y + 1 →
      b1.grid x' y' = b2.grid x' y') :
    b1.nextState x y = b2.nextState x y := by
  rw [Bool.eq_iff_iff, nextState_iff, nextState_iff, mooreCount_congr b1.grid b2.grid x y h,
    h x y (by omega) (by omega) (by omega) (by omega)]

/-- The colour of a cell is decided by the 3x3 block of `grid` around it. -/
theorem nextColor_congr_local (b1 b2 : board) (x y : Int)
    (h : ∀ x' y', x - 1 ≤ x' → x' ≤ x + 1 → y - 1 ≤ y' → y' ≤ y + 1 →
      b1.grid x' y' = b2.grid x' y') :
    b1.nextColor x y = b2.nextColor x y := by
  unfold board.nextColor
  rw [nextState_congr_local b1 b2 x y h, neighbours_eq_mooreCount, neighbours_eq_mooreCount,
    mooreCount_congr b1.grid b2.grid x y h]

/-- Every index of the vertex array belongs to one cell of the board. -/
theorem vertex_index_decompose (w h : Nat) (j : Int) (h0 : 0 ≤ j)
    (hj : j < 3 * (w : Int) * (h : Int)) :
    ∃ x y k : Int, 0 ≤ x ∧ x < (w : Int) ∧ 0 ≤ y ∧ y < (h : Int) ∧ 0 ≤ k ∧ k < 3 ∧
      j = 3 * (x * (h : Int) + y) + k := by
  have hhpos : 0 < (h : Int) := by
    rcases Nat.eq_zero_or_pos h with e | e
    · subst e; simp at hj; omega
    · exact_mod_cast e
  have hm0 : 0 ≤ j / 3 := Int.ediv_nonneg h0 (by omega)
  have hm : j / 3 < (w : Int) * (h : Int) := by
    have : j < 3 * ((w : Int) * (h : Int)) := by rw [← mul_assoc]; exact hj
    generalize (w : Int) * (h : Int) = wh at *
    omega
  refine ⟨j / 3 / (h : Int), j / 3 % (h : Int), j % 3, Int.ediv_nonneg hm0 (by omega),
    Int.ediv_lt_of_lt_mul hhpos hm, Int.emod_nonneg _ (by omega), Int.emod_lt_of_pos _ hhpos,
    by omega, by omega, ?_⟩
  have e1 : (h : Int) * (j / 3 / (h : Int)) + j / 3 % (h : Int) = j / 3 :=
    Int.ediv_add_emod (j / 3) (h : Int)
  have e2 : j / 3 / (h : Int) * (h : Int) = (h : Int) * (j / 3 / (h : Int)) := mul_comm _ _
  rw [e2, e1]
  omega

/-- The three buffers after a tick of a reachable board with at least one worker,
the workers of each phase taken in any order. -/
theorem reachable_tick (b : board) (hb : Reachable b) (W : Nat) (hW : 1 ≤ W)
    (l1 l2 : List Nat) (hl1 : ∀ i, i ∈ l1 ↔ i < W) (hl2 : ∀ i, i ∈ l2 ↔ i < W)
    (x y : Int) (hin : inBoard b x y) :
    (b.iterateIn W l1 l2).grid x y =
      (if 1 ≤ x ∧ x < (b.x_size : Int) - 1 ∧ 1 ≤ y ∧ y < (b.y_size : Int) - 1
        then b.nextState x y else false)
    ∧ (b.iterateIn W l1 l2).new_grid x y =
      (if 1 ≤ x ∧ x < (b.x_size : Int) - 1 ∧ 1 ≤ y ∧ y < (b.y_size : Int) - 1
        then b.nextState x y else false)
    ∧ ∀ k : Int, 0 ≤ k → k < 3 →
      ((b.iterateIn W l1 l2).vertex_array (3 * (x * (b.y_size : Int) + y) + k)).color =
        (if 1 ≤ x ∧ x < (b.x_size : Int) - 1 ∧ 1 ≤ y ∧ y < (b.y_size : Int) - 1
          then b.nextColor x y else Color.Black) := by
  obtain ⟨hL, hD, hB⟩ := reachable_inv b hb
  have hin2 : 0 ≤ x ∧ x < (b.x_size : Int) ∧ 0 ≤ y ∧ y < (b.y_size : Int) := hin
  have hng : (b.iterateIn W l1 l2).new_grid x y =
      (if 1 ≤ x ∧ x < (b.x_size : Int) - 1 ∧ 1 ≤ y ∧ y < (b.y_size : Int) - 1
        then b.nextState x y else false) := by
    rw [iterateIn_new_grid W l1 l2 b hW hl1 x y]
    by_cases c : 1 ≤ x ∧ x < (b.x_size : Int) - 1 ∧ 1 ≤ y ∧ y < (b.y_size : Int) - 1
    · rw [if_pos c, if_pos c]
    · rw [if_neg c, if_neg c]
      have hbd : onBorder b x y := by unfold onBorder; omega
      exact (hD x y hin hbd).2
  refine ⟨?_, hng, ?_⟩
  · rw [iterateIn_grid W l1 l2 b hW hl2 x y, if_pos hin2]
    exact hng
  · intro k hk1 hk2
    rw [iterateIn_color W l1 l2 b hW hl1 hL x y k ⟨hin2.1, hin2.2.1⟩ hin2.2.2 ⟨hk1, hk2⟩]
    by_cases c : 1 ≤ x ∧ x < (b.x_size : Int) - 1 ∧ 1 ≤ y ∧ y < (b.y_size : Int) - 1
    · rw [if_pos c, if_pos c]
    · rw [if_neg c, if_neg c]
      have hbd : onBorder b x y := by unfold onBorder; omega
      exact hB x y k hin hbd hk1 hk2

/-- C9: after one tick of a reachable board, `grid`, `new_grid` and the vertex
colours depend on the old `grid` only: two reachable boards of the same size with
the same `grid` end with the same three buffers, whatever their worker counts
`W1, W2 >= 1` (so also for one worker) and whatever the order in which the
workers of each phase run. -/
theorem C9_tick_deterministic (b1 b2 : board) (h1 : Reachable b1) (h2 : Reachable b2)
    (hw : b1.x_size = b2.x_size) (hh : b1.y_size = b2.y_size)
    (hg : ∀ x y : Int, inBoard b1 x y → b1.grid x y = b2.grid x y)
    (W1 W2 : Nat) (hW1 : 1 ≤ W1) (hW2 : 1 ≤ W2) (c1 m1 c2 m2 : List Nat)
    (hc1 : c1.Perm (List.range W1)) (hm1 : m1.Perm (List.range W1))
    (hc2 : c2.Perm (List.range W2)) (hm2 : m2.Perm (List.range W2)) :
    (∀ x y : Int, inBoard b1 x y →
      (b1.iterateIn W1 c1 m1).grid x y = (b2.iterateIn W2 c2 m2).grid x y ∧
      (b1.iterateIn W1 c1 m1).new_grid x y = (b2.iterateIn W2 c2 m2).new_grid x y)
    ∧ (∀ j : Int, 0 ≤ j → j < 3 * (b1.x_size : Int) * (b1.y_size : Int) →
      ((b1.iterateIn W1 c1 m1).vertex_array j).color =
        ((b2.iterateIn W2 c2 m2).vertex_array j).color) := by
  have mem1 : ∀ (l : List Nat), l.Perm (List.range W1) → ∀ i, i ∈ l ↔ i < W1 :=
    fun l hl i => (hl.mem_iff).trans List.mem_range
  have mem2 : ∀ (l : List Nat), l.Perm (List.range W2) → ∀ i, i ∈ l ↔ i < W2 :=
    fun l hl i => (hl.mem_iff).trans List.mem_range
  have key : ∀ x y : Int, inBoard b1 x y →
      1 ≤ x ∧ x < (b1.x_size : Int) - 1 ∧ 1 ≤ y ∧ y < (b1.y_size : Int) - 1 →
      ∀ x' y', x - 1 ≤ x' → x' ≤ x + 1 → y - 1 ≤ y' → y' ≤ y + 1 →
        b1.grid x' y' = b2.grid x' y' := by
    intro x y _ hi x' y' a1 a2 a3 a4
    exact hg x' y' (by unfold inBoard; omega)
  have hin2 : ∀ x y : Int, inBoard b1 x y → inBoard b2 x y := by
    intro x y h
    unfold inBoard at h ⊢
    rw [← hw, ← hh]; exact h
  constructor
  · intro x y hin
    have r1 := reachable_tick b1 h1 W1 hW1 c1 m1 (mem1 c1 hc1) (mem1 m1 hm1) x y hin
    have r2 := reachable_tick b2 h2 W2 hW2 c2 m2 (mem2 c2 hc2) (mem2 m2 hm2) x y (hin2 x y hin)
    rw [← hw, ← hh] at r2
    rw [r1.1, r1.2.1, r2.1, r2.2.1]
    by_cases c : 1 ≤ x ∧ x < (b1.x_size : Int) - 1 ∧ 1 ≤ y ∧ y < (b1.y_size : Int) - 1
    · rw [if_pos c, if_pos c, nextState_congr_local b1 b2 x y (key x y hin c)]
      exact ⟨rfl, rfl⟩
    · rw [if_neg c, if_neg c]
      exact ⟨rfl, rfl⟩
  · intro j hj0 hj
    obtain ⟨x, y, k, hx0, hx1, hy0, hy1, hk0, hk1, rfl⟩ :=
      vertex_index_decompose b1.x_size b1.y_size j hj0 hj
    have hin : inBoard b1 x y := ⟨hx0, hx1, hy0, hy1⟩
    have r1 := (reachable_tick b1 h1 W1 hW1 c1 m1 (mem1 c1 hc1) (mem1 m1 hm1) x y hin).2.2
      k hk0 hk1
    have r2 := (reachable_tick b2 h2 W2 hW2 c2 m2 (mem2 c2 hc2) (mem2 m2 hm2) x y
      (hin2 x y hin)).2.2 k hk0 hk1
    rw [← hw, ← hh] at r2
    rw [r1, r2]
    by_cases c : 1 ≤ x ∧ x < (b1.x_size : Int) - 1 ∧ 1 ≤ y ∧ y < (b1.y_size : Int) - 1
    · rw [if_pos c, if_pos c, nextColor_congr_local b1 b2 x y (key x y hin c)]
    · rw [if_neg c, if_neg c]

/-- Two constructed boards with `rand()` outcomes of the same parity have the same
cells. -/
theorem fullBoard_cells_eq (x y : Int) (hin : inBoard (fullBoard 5 5) x y) :
    (fullBoard 5 5).grid x y = (board.board 5 5 7 (fun _ => 2)).grid x y := by
  have hs := board_board_size 5 5 1 (fun _ => 0)
  have hin2 : 0 ≤ x ∧ x < (((fullBoard 5 5).x_size : Nat) : Int) ∧ 0 ≤ y ∧
      y < (((fullBoard 5 5).y_size : Nat) : Int) := hin
  unfold fullBoard at hin2 ⊢
  rw [hs.1, hs.2.1] at hin2
  rw [(board_board_cells 5 5 1 (fun _ => 0) x y ⟨hin2.1, hin2.2.1⟩ hin2.2.2).1,
    (board_board_cells 5 5 7 (fun _ => 2) x y ⟨hin2.1, hin2.2.1⟩ hin2.2.2).1]
  unfold initial_cell
  split
  · rfl
  · simp

/-- C9 on two 5x5 boards with the same cells and different square sizes: two
workers in the orders `1, 0` and `0, 1` against a single worker. -/
theorem C9_tick_deterministic_witness :
    (∀ x y : Int, inBoard (fullBoard 5 5) x y →
      ((fullBoard 5 5).iterateIn 2 [1, 0] [0, 1]).grid x y =
        ((board.board 5 5 7 (fun _ => 2)).iterateIn 1 [0] [0]).grid x y ∧
      ((fullBoard 5 5).iterateIn 2 [1, 0] [0, 1]).new_grid x y =
        ((board.board 5 5 7 (fun _ => 2)).iterateIn 1 [0] [0]).new_grid x y)
    ∧ (∀ j : Int, 0 ≤ j →
      j < 3 * ((fullBoard 5 5).x_size : Int) * ((fullBoard 5 5).y_size : Int) →
      (((fullBoard 5 5).iterateIn 2 [1, 0] [0, 1]).vertex_array j).color =
        (((board.board 5 5 7 (fun _ => 2)).iterateIn 1 [0] [0]).vertex_array j).color) :=
  C9_tick_deterministic (fullBoard 5 5) (board.board 5 5 7 (fun _ => 2))
    (Reachable.init 5 5 1 _) (Reachable.init 5 5 7 _)
    ((board_board_size 5 5 1 _).1.trans (board_board_size 5 5 7 _).1.symm)
    ((board_board_size 5 5 1 _).2.1.trans (board_board_size 5 5 7 _).2.1.symm)
    fullBoard_cells_eq 2 1 (by decide) (by decide) [1, 0] [0, 1] [0] [0]
    (List.Perm.swap 0 1 []) (List.Perm.refl _) (List.Perm.refl _) (List.Perm.refl _)

/-! ## Between two ticks -/

theorem iterate_size (W : Nat) (b : board) :
    (b.iterate W).x_size = b.x_size ∧ (b.iterate W).y_size = b.y_size :=
  ⟨(iterateIn_frame W (List.range W) (List.range W) b).2.1,
    (iterateIn_frame W (List.range W) (List.range W) b).2.2.1⟩

theorem inBoard_iterate (W : Nat) (b : board) (x y : Int) :
    inBoard (b.iterate W) x y ↔ inBoard b x y := by
  unfold inBoard
  rw [(iterate_size W b).1, (iterate_size W b).2]

theorem onBorder_iterate (W : Nat) (b : board) (x y : Int) :
    onBorder (b.iterate W) x y ↔ onBorder b x y := by
  unfold onBorder
  rw [(iterate_size W b).1, (iterate_size W b).2]

/-- On a reachable board the two buffers hold the same cells. -/
theorem reachable_buffers_agree (b : board) (hb : Reachable b) (x y : Int)
    (hin : inBoard b x y) : b.new_grid x y = b.grid x y := by
  induction hb with
  | init w h sq rand =>
    have hs := board_board_size w h sq rand
    unfold inBoard at hin
    rw [hs.1, hs.2.1] at hin
    have hc := board_board_cells w h sq rand x y ⟨hin.1, hin.2.1⟩ hin.2.2
    rw [hc.1, hc.2]
  | tick W b _ ih =>
    rcases Nat.eq_zero_or_pos W with h0 | hW
    · subst h0
      rw [iterate_zero] at hin ⊢
      exact ih hin
    · have hin' : inBoard b x y := (inBoard_iterate W b x y).mp hin
      have hin2 : 0 ≤ x ∧ x < (b.x_size : Int) ∧ 0 ≤ y ∧ y < (b.y_size : Int) := hin'
      show (b.iterateIn W _ _).new_grid x y = (b.iterateIn W _ _).grid x y
      rw [iterateIn_grid W _ _ b hW (mem_range_iff W) x y, if_pos hin2]

/-- C19: on every board reachable from construction the two buffers agree at
every cell of the board, `new_grid[x][y] = grid[x][y]`, and they agree again
after one more `iterate()` with `W >= 1` workers. -/
theorem C19_buffers_agree (b : board) (hb : Reachable b) (W : Nat) (hW : 1 ≤ W) (x y : Int)
    (hin : inBoard b x y) :
    b.new_grid x y = b.grid x y
    ∧ (b.iterate W).new_grid x y = (b.iterate W).grid x y :=
  ⟨reachable_buffers_agree b hb x y hin,
    reachable_buffers_agree (b.iterate W) (Reachable.tick W b hb) x y
      ((inBoard_iterate W b x y).mpr hin)⟩

set_option maxRecDepth 100000 in
/-- C19 on the 5x5 board whose interior is alive, two workers, cell `(1, 1)`. -/
theorem C19_buffers_agree_witness :
    (fullBoard 5 5).new_grid 1 1 = (fullBoard 5 5).grid 1 1
    ∧ ((fullBoard 5 5).iterate 2).new_grid 1 1 = ((fullBoard 5 5).iterate 2).grid 1 1 :=
  C19_buffers_agree (fullBoard 5 5) (Reachable.init 5 5 1 _) 2 (by decide) 1 1
    (by unfold inBoard; decide)

theorem nextColor_black_iff (b : board) (x y : Int) :
    b.nextColor x y = Color.Black ↔ b.nextState x y = false := by
  unfold board.nextColor
  cases b.nextState x y
  · simp
  · by_cases h : b.neighbours x y = 3 <;> simp [h]

/-- C20: after a tick of a reachable board with `W >= 1` workers the three
vertices of every cell of the board, border cells included, have one common
colour, and it is black exactly when the cell is dead in `grid`. -/
theorem C20_colour_state_consistent (b : board) (hb : Reachable b) (W : Nat) (hW : 1 ≤ W)
    (x y : Int) (hin : inBoard b x y) :
    ∃ c : Color,
      (∀ k : Int, 0 ≤ k → k < 3 →
        ((b.iterate W).vertex_array ((b.iterate W).point_indicies x y + k)).color = c)
      ∧ (c = Color.Black ↔ (b.iterate W).grid x y = false) := by
  have hin2 : 0 ≤ x ∧ x < (b.x_size : Int) ∧ 0 ≤ y ∧ y < (b.y_size : Int) := hin
  have hL := (reachable_inv b hb).1
  have hpi : (b.iterate W).point_indicies x y = 3 * (x * (b.y_size : Int) + y) := by
    show (b.iterateIn W _ _).point_indicies x y = _
    rw [(iterateIn_frame W _ _ b).1]
    exact hL x y hin2.1 hin2.2.1 hin2.2.2.1 hin2.2.2.2
  have ht := reachable_tick b hb W hW (List.range W) (List.range W) (mem_range_iff W)
    (mem_range_iff W) x y hin
  refine ⟨if 1 ≤ x ∧ x < (b.x_size : Int) - 1 ∧ 1 ≤ y ∧ y < (b.y_size : Int) - 1
    then b.nextColor x y else Color.Black, ?_, ?_⟩
  · intro k hk0 hk1
    rw [hpi]
    exact ht.2.2 k hk0 hk1
  · have hg : (b.iterate W).grid x y = _ := ht.1
    rw [hg]
    by_cases c : 1 ≤ x ∧ x < (b.x_size : Int) - 1 ∧ 1 ≤ y ∧ y < (b.y_size : Int) - 1
    · rw [if_pos c, if_pos c]
      exact nextColor_black_iff b x y
    · rw [if_neg c, if_neg c]
      exact ⟨fun _ => rfl, fun _ => rfl⟩

/-- C20 on the 5x5 board whose interior is alive, two workers, cell `(1, 1)`. -/
theorem C20_colour_state_consistent_witness :
    ∃ c : Color,
      (∀ k : Int, 0 ≤ k → k < 3 →
        (((fullBoard 5 5).iterate 2).vertex_array
          (((fullBoard 5 5).iterate 2).point_indicies 1 1 + k)).color = c)
      ∧ (c = Color.Black ↔ ((fullBoard 5 5).iterate 2).grid 1 1 = false) :=
  C20_colour_state_consistent (fullBoard 5 5) (Reachable.init 5 5 1 _) 2 (by decide) 1 1
    ⟨by decide, by rw [fullBoard, (board_board_size 5 5 1 _).1]; decide, by decide,
      by rw [fullBoard, (board_board_size 5 5 1 _).2.1]; decide⟩

/-! ## Colours and write set of a compute worker -/

/-- C14: after `update_new_grid` every vertex of an interior cell of the band has
one colour, decided by the written state and the neighbour count `n`: black iff
the new state is dead, blue iff it is alive and `n = 3`, red iff it is alive and
`n != 3`, which is the case exactly when `n = 2` and the cell was alive. -/
theorem C14_colour_policy (b : board) (hL : Layout b) (xmin xmax x y : Int)
    (hband : xmin ≤ x ∧ x < xmax)
    (hx : 1 ≤ x ∧ x ≤ (b.x_size : Int) - 2) (hy : 1 ≤ y ∧ y ≤ (b.y_size : Int) - 2) :
    ∃ c : Color,
      (∀ k : Int, 0 ≤ k → k < 3 →
        ((b.update_new_grid xmin xmax).vertex_array (b.point_indicies x y + k)).color = c)
      ∧ (c = Color.Black ↔ (b.update_new_grid xmin xmax).new_grid x y = false)
      ∧ (c = Color.Blue ↔
          ((b.update_new_grid xmin xmax).new_grid x y = true ∧ b.neighbours x y = 3))
      ∧ (c = Color.Red ↔
          ((b.update_new_grid xmin xmax).new_grid x y = true ∧ b.neighbours x y ≠ 3))
      ∧ (((b.update_new_grid xmin xmax).new_grid x y = true ∧ b.neighbours x y ≠ 3) ↔
          (b.neighbours x y = 2 ∧ b.grid x y = true)) := by
  have hc : clamp_xmin xmin ≤ x ∧ x < clamp_xmax b.x_size xmax ∧ 1 ≤ y ∧
      y < (b.y_size : Int) - 1 := by
    unfold clamp_xmin clamp_xmax
    refine ⟨?_, ?_, hy.1, by omega⟩
    · split <;> omega
    · split <;> omega
  have hpi : b.point_indicies x y = 3 * (x * (b.y_size : Int) + y) :=
    hL x y (by omega) (by omega) (by omega) (by omega)
  have hng : (b.update_new_grid xmin xmax).new_grid x y = b.nextState x y := by
    rw [update_new_grid_new_grid, if_pos hc]
  refine ⟨b.nextColor x y, ?_, ?_, ?_, ?_, ?_⟩
  · intro k hk0 hk1
    rw [hpi, update_new_grid_color b hL xmin xmax x y k ⟨by omega, by omega⟩
      ⟨by omega, by omega⟩ ⟨hk0, hk1⟩, if_pos hc]
  · rw [hng]; exact nextColor_black_iff b x y
  · rw [hng]
    unfold board.nextColor
    cases b.nextState x y
    · simp
    · by_cases h : b.neighbours x y = 3 <;> simp [h]
  · rw [hng]
    unfold board.nextColor
    cases b.nextState x y
    · simp
    · by_cases h : b.neighbours x y = 3 <;> simp [h]
  · rw [hng]
    unfold board.nextState
    by_cases h1 : b.neighbours x y < 2
    · rw [if_pos h1]
      constructor
      · rintro ⟨h, _⟩; cases h
      · rintro ⟨h, _⟩; omega
    · by_cases h2 : b.neighbours x y = 2
      · rw [if_neg h1, if_pos h2]
        exact ⟨fun h => ⟨h2, h.1⟩, fun h => ⟨h.2, by omega⟩⟩
      · by_cases h3 : b.neighbours x y = 3
        · rw [if_neg h1, if_neg h2, if_pos h3]
          exact ⟨fun h => absurd h3 h.2, fun h => absurd h.1 h2⟩
        · rw [if_neg h1, if_neg h2, if_neg h3]
          constructor
          · rintro ⟨h, _⟩; cases h
          · rintro ⟨h, _⟩; exact absurd h h2

/-- C14 on the 5x5 board whose interior is alive, band `[0, 5)`, cell `(1, 1)`. -/
theorem C14_colour_policy_witness :
    ∃ c : Color,
      (∀ k : Int, 0 ≤ k → k < 3 →
        (((fullBoard 5 5).update_new_grid 0 5).vertex_array
          ((fullBoard 5 5).point_indicies 1 1 + k)).color = c)
      ∧ (c = Color.Black ↔ ((fullBoard 5 5).update_new_grid 0 5).new_grid 1 1 = false)
      ∧ (c = Color.Blue ↔
          (((fullBoard 5 5).update_new_grid 0 5).new_grid 1 1 = true ∧
            (fullBoard 5 5).neighbours 1 1 = 3))
      ∧ (c = Color.Red ↔
          (((fullBoard 5 5).update_new_grid 0 5).new_grid 1 1 = true ∧
            (fullBoard 5 5).neighbours 1 1 ≠ 3))
      ∧ ((((fullBoard 5 5).update_new_grid 0 5).new_grid 1 1 = true ∧
            (fullBoard 5 5).neighbours 1 1 ≠ 3) ↔
          ((fullBoard 5 5).neighbours 1 1 = 2 ∧ (fullBoard 5 5).grid 1 1 = true)) :=
  C14_colour_policy (fullBoard 5 5) (board_board_layout 5 5 1 _) 0 5 1 1 (by decide)
    ⟨by decide, by rw [fullBoard, (board_board_size 5 5 1 _).1]; decide⟩
    ⟨by decide, by rw [fullBoard, (board_board_size 5 5 1 _).2.1]; decide⟩

theorem clamp_xmin_eq_max (xmin : Int) : clamp_xmin xmin = max xmin 1 := by
  unfold clamp_xmin
  split <;> omega

theorem clamp_xmax_eq_min (w : Nat) (xmax : Int) :
    clamp_xmax w xmax = min xmax ((w : Int) - 1) := by
  unfold clamp_xmax
  split <;> omega

/-- `update_new_grid` changes the colour of a vertex only if the vertex belongs
to a cell of the band. -/
theorem update_new_grid_color_frame (b : board) (xmin xmax j : Int)
    (hj : ∀ x y : Int, clamp_xmin xmin ≤ x → x < clamp_xmax b.x_size xmax → 1 ≤ y →
      y < (b.y_size : Int) - 1 →
      ¬ (b.point_indicies x y ≤ j ∧ j < b.point_indicies x y + 3)) :
    ((b.update_new_grid xmin xmax).vertex_array j).color = (b.vertex_array j).color := by
  unfold board.update_new_grid
  have key := forLoop2_inv
    (fun s => SameFrame b s ∧ (s.vertex_array j).color = (b.vertex_array j).color)
    (clamp_xmin xmin) (clamp_xmax b.x_size xmax) 1 ((b.y_size : Int) - 1)
    (fun x y s => s.update_cell x y) b ⟨SameFrame.refl b, rfl⟩
    (fun x y t hx1 hx2 hy1 hy2 ht => by
      refine ⟨ht.1.trans (update_cell_frame t x y), ?_⟩
      have hn := hj x y hx1 hx2 hy1 hy2
      have hpi : t.point_indicies x y = b.point_indicies x y := by rw [ht.1.2.1]
      show ((t.update_cell x y).vertex_array j).color = _
      rw [update_cell_eq]
      show (setColor _ _ _ _).color = _
      rw [hpi]
      rw [setColor_color_other _ _ _ _ (by omega), setColor_color_other _ _ _ _ (by omega),
        setColor_color_other _ _ _ _ (by omega)]
      exact ht.2)
  exact key.2

/-- C15: `update_new_grid(xmin, xmax)` leaves `grid`, the start indices and every
vertex position unchanged; it changes `new_grid` only at cells `(x, y)` with
`max(xmin,1) <= x < min(xmax, w-1)` and `1 <= y <= h-2`, and the colour of a vertex
only if the vertex belongs to such a cell; workers with disjoint bands therefore
write disjoint sets of cells and, on a board with the constructor's vertex
indices, disjoint sets of vertices. -/
theorem C15_compute_write_set (b : board) (xmin xmax : Int) :
    ((b.update_new_grid xmin xmax).grid = b.grid
      ∧ (b.update_new_grid xmin xmax).point_indicies = b.point_indicies
      ∧ ∀ j, ((b.update_new_grid xmin xmax).vertex_array j).px = (b.vertex_array j).px ∧
          ((b.update_new_grid xmin xmax).vertex_array j).py = (b.vertex_array j).py)
    ∧ (∀ x y : Int, (b.update_new_grid xmin xmax).new_grid x y ≠ b.new_grid x y →
        max xmin 1 ≤ x ∧ x < min xmax ((b.x_size : Int) - 1) ∧ 1 ≤ y ∧
          y ≤ (b.y_size : Int) - 2)
    ∧ (∀ j : Int,
        ((b.update_new_grid xmin xmax).vertex_array j).color ≠ (b.vertex_array j).color →
        ∃ x y : Int, (max xmin 1 ≤ x ∧ x < min xmax ((b.x_size : Int) - 1) ∧ 1 ≤ y ∧
          y ≤ (b.y_size : Int) - 2) ∧
          b.point_indicies x y ≤ j ∧ j < b.point_indicies x y + 3)
    ∧ (∀ xmin2 xmax2 : Int,
        (∀ x : Int, ¬ (xmin ≤ x ∧ x < xmax ∧ xmin2 ≤ x ∧ x < xmax2)) →
        (∀ x y : Int,
          ¬ ((max xmin 1 ≤ x ∧ x < min xmax ((b.x_size : Int) - 1)) ∧
             (max xmin2 1 ≤ x ∧ x < min xmax2 ((b.x_size : Int) - 1)) ∧
             1 ≤ y ∧ y ≤ (b.y_size : Int) - 2))
        ∧ (Layout b → ∀ x y x2 y2 j : Int,
            (max xmin 1 ≤ x ∧ x < min xmax ((b.x_size : Int) - 1) ∧ 1 ≤ y ∧
              y ≤ (b.y_size : Int) - 2) →
            (max xmin2 1 ≤ x2 ∧ x2 < min xmax2 ((b.x_size : Int) - 1) ∧ 1 ≤ y2 ∧
              y2 ≤ (b.y_size : Int) - 2) →
            ¬ ((b.point_indicies x y ≤ j ∧ j < b.point_indicies x y + 3) ∧
               (b.point_indicies x2 y2 ≤ j ∧ j < b.point_indicies x2 y2 + 3)))) := by
  have hf := update_new_grid_frame b xmin xmax
  refine ⟨⟨hf.1, hf.2.1, hf.2.2.2.2.2⟩, ?_, ?_, ?_⟩
  · intro x y hne
    rw [update_new_grid_new_grid] at hne
    by_cases c : clamp_xmin xmin ≤ x ∧ x < clamp_xmax b.x_size xmax ∧ 1 ≤ y ∧
        y < (b.y_size : Int) - 1
    · rw [clamp_xmin_eq_max, clamp_xmax_eq_min] at c
      exact ⟨c.1, c.2.1, c.2.2.1, by omega⟩
    · rw [if_neg c] at hne
      exact absurd rfl hne
  · intro j hne
    by_contra hcon
    apply hne
    apply update_new_grid_color_frame
    intro x y h1 h2 h3 h4 hown
    rw [clamp_xmin_eq_max] at h1
    rw [clamp_xmax_eq_min] at h2
    exact hcon ⟨x, y, ⟨h1, h2, h3, by omega⟩, hown.1, hown.2⟩
  · intro xmin2 xmax2 hdis
    refine ⟨?_, ?_⟩
    · rintro x y ⟨h1, h2, _⟩
      exact hdis x ⟨by omega, by omega, by omega, by omega⟩
    · intro hL x y x2 y2 j r1 r2 hown
      have p1 := hL x y (by omega) (by omega) (by omega) (by omega)
      have p2 := hL x2 y2 (by omega) (by omega) (by omega) (by omega)
      rw [p1, p2] at hown
      have hk : 0 ≤ j - 3 * (x * (b.y_size : Int) + y) ∧
          j - 3 * (x * (b.y_size : Int) + y) < 3 := ⟨by omega, by omega⟩
      have hk2 : 0 ≤ j - 3 * (x2 * (b.y_size : Int) + y2) ∧
          j - 3 * (x2 * (b.y_size : Int) + y2) < 3 := ⟨by omega, by omega⟩
      have := cell_index_inj (b.y_size : Int) x y x2 y2 _ _ ⟨by omega, by omega⟩
        ⟨by omega, by omega⟩ hk hk2 (by omega)
      exact hdis x ⟨by omega, by omega, by omega, by omega⟩

/-! ## The render buffer after construction -/

theorem setPosition_pos (va : Int → Vertex) (j px py j' : Int) :
    ((setPosition va j px py j').px, (setPosition va j px py j').py) =
      if j' = j then (px, py) else ((va j').px, (va j').py) := by
  unfold setPosition
  split <;> rfl

theorem setColor_pos (va : Int → Vertex) (j : Int) (c : Color) (j' : Int) :
    ((setColor va j c j').px, (setColor va j c j').py) = ((va j').px, (va j').py) := by
  rw [setColor_px, setColor_py]

theorem init_vertex_position (x y : Int) (s : board × Int) (j : Int) :
    (((board.init_vertex x y s).1.vertex_array j).px,
      ((board.init_vertex x y s).1.vertex_array j).py) =
      if j = s.2 + 2 then ((x + 1) * s.1.square_size, (y + 1) * s.1.square_size)
      else if j = s.2 + 1 then ((x + 1) * s.1.square_size, y * s.1.square_size)
      else if j = s.2 + 0 then (x * s.1.square_size, y * s.1.square_size)
      else ((s.1.vertex_array j).px, (s.1.vertex_array j).py) := by
  show ((setColor (setColor (setColor _ (s.2 + 0) _) (s.2 + 1) _) (s.2 + 2) _ j).px,
    (setColor (setColor (setColor _ (s.2 + 0) _) (s.2 + 1) _) (s.2 + 2) _ j).py) = _
  rw [setColor_pos, setColor_pos, setColor_pos, setPosition_pos]
  by_cases h2 : j = s.2 + 2
  · rw [if_pos h2, if_pos h2]
  · rw [if_neg h2, if_neg h2, setPosition_pos]
    by_cases h1 : j = s.2 + 1
    · rw [if_pos h1, if_pos h1]
    · rw [if_neg h1, if_neg h1, setPosition_pos]

/-- The positions the constructor gives the three vertices of a cell. -/
theorem init_vertices_position (b : board) (x y k : Int)
    (hx : 0 ≤ x ∧ x < (b.x_size : Int)) (hy : 0 ≤ y ∧ y < (b.y_size : Int))
    (hk : 0 ≤ k ∧ k < 3) :
    ((b.init_vertices.1.vertex_array (3 * (x * (b.y_size : Int) + y) + k)).px,
      (b.init_vertices.1.vertex_array (3 * (x * (b.y_size : Int) + y) + k)).py) =
      if k = 2 then ((x + 1) * b.square_size, (y + 1) * b.square_size)
      else if k = 1 then ((x + 1) * b.square_size, y * b.square_size)
      else (x * b.square_size, y * b.square_size) := by
  unfold board.init_vertices
  have key := forLoop2_get_idx
    (fun x' y' (t : board × Int) => t.2 = 3 * (x' * (b.y_size : Int) + y') ∧
      t.1.square_size = b.square_size)
    (fun t : board × Int =>
      ((t.1.vertex_array (3 * (x * (b.y_size : Int) + y) + k)).px,
        (t.1.vertex_array (3 * (x * (b.y_size : Int) + y) + k)).py))
    x y
    (if k = 2 then ((x + 1) * b.square_size, (y + 1) * b.square_size)
      else if k = 1 then ((x + 1) * b.square_size, y * b.square_size)
      else (x * b.square_size, y * b.square_size))
    0 (b.x_size : Int) 0 (b.y_size : Int) (fun x y s => board.init_vertex x y s) (b, 0)
    (Int.natCast_nonneg _) (Int.natCast_nonneg _) ⟨by simp, rfl⟩
    (fun x' t ht => by
      refine ⟨?_, ht.2⟩
      show t.2 = 3 * ((x' + 1) * (b.y_size : Int) + 0)
      have ht' : t.2 = 3 * (x' * (b.y_size : Int) + (b.y_size : Int)) := ht.1
      rw [ht', succ_mul_int]; omega)
    (fun x' y' t _ _ _ _ ht => by
      refine ⟨?_, ht.2⟩
      show t.2 + 3 = 3 * (x' * (b.y_size : Int) + (y' + 1))
      have ht' : t.2 = 3 * (x' * (b.y_size : Int) + y') := ht.1
      rw [ht']; omega)
    (fun x' y' t _ _ hy1 hy2 ht hne => by
      have ht' : t.2 = 3 * (x' * (b.y_size : Int) + y') := ht.1
      show (((board.init_vertex x' y' t).1.vertex_array _).px,
        ((board.init_vertex x' y' t).1.vertex_array _).py) = _
      have hno : ¬ (t.2 ≤ 3 * (x * (b.y_size : Int) + y) + k ∧
          3 * (x * (b.y_size : Int) + y) + k < t.2 + 3) := by
        rw [ht']
        intro hc
        have hk' : 0 ≤ 3 * (x * (b.y_size : Int) + y) + k - 3 * (x' * (b.y_size : Int) + y') ∧
            3 * (x * (b.y_size : Int) + y) + k - 3 * (x' * (b.y_size : Int) + y') < 3 :=
          ⟨by omega, by omega⟩
        have := cell_index_inj (b.y_size : Int) x' y' x y
          (3 * (x * (b.y_size : Int) + y) + k - 3 * (x' * (b.y_size : Int) + y')) k
          ⟨hy1, hy2⟩ hy hk' hk (by omega)
        exact hne ⟨this.1, this.2.1⟩
      rw [init_vertex_position, if_neg (by omega), if_neg (by omega), if_neg (by omega)])
    (fun t _ _ _ _ ht => by
      have ht' : t.2 = 3 * (x * (b.y_size : Int) + y) := ht.1
      have hsq : t.1.square_size = b.square_size := ht.2
      show (((board.init_vertex x y t).1.vertex_array _).px,
        ((board.init_vertex x y t).1.vertex_array _).py) = _
      rw [init_vertex_position, hsq, ht']
      have hk3 : k = 0 ∨ k = 1 ∨ k = 2 := by omega
      rcases hk3 with rfl | rfl | rfl
      · rw [if_neg (by omega), if_neg (by omega), if_pos (by omega), if_neg (by omega),
          if_neg (by omega)]
      · rw [if_neg (by omega), if_pos (by omega), if_neg (by omega), if_pos rfl]
      · rw [if_pos (by omega), if_pos rfl])
  rw [if_pos ⟨hx.1, hx.2, hy.1, hy.2⟩] at key
  exact key

theorem init_squares_vertex_count (rand : Nat → Nat) (b : board) :
    (b.init_squares rand).1.vertex_count = b.vertex_count := by
  unfold board.init_squares
  exact forLoop2_inv (fun s : board × Nat => s.1.vertex_count = b.vertex_count) _ _ _ _
    (fun x y s => board.init_cell rand x y s) (b, 0) rfl
    (fun x y t _ _ _ _ ht => by
      show (board.init_cell rand x y t).1.vertex_count = _
      unfold board.init_cell
      simp only []
      split <;> exact ht)

theorem init_vertices_vertex_count (b : board) :
    b.init_vertices.1.vertex_count = b.vertex_count := by
  unfold board.init_vertices
  exact forLoop2_inv (fun s : board × Int => s.1.vertex_count = b.vertex_count) _ _ _ _
    (fun x y s => board.init_vertex x y s) (b, 0) rfl (fun x y t _ _ _ _ ht => ht)

theorem board_board_vertex_count (w h : Nat) (sq : Int) (rand : Nat → Nat) :
    (board.board w h sq rand).vertex_count = 3 * w * h := by
  unfold board.board
  show (board.init_vertices _).1.vertex_count = _
  rw [init_vertices_vertex_count, init_squares_vertex_count]
  rfl

theorem board_board_position (w h : Nat) (sq : Int) (rand : Nat → Nat) (x y k : Int)
    (hx : 0 ≤ x ∧ x < (w : Int)) (hy : 0 ≤ y ∧ y < (h : Int)) (hk : 0 ≤ k ∧ k < 3) :
    (((board.board w h sq rand).vertex_array (3 * (x * (h : Int) + y) + k)).px,
      ((board.board w h sq rand).vertex_array (3 * (x * (h : Int) + y) + k)).py) =
      if k = 2 then ((x + 1) * sq, (y + 1) * sq)
      else if k = 1 then ((x + 1) * sq, y * sq)
      else (x * sq, y * sq) := by
  have h1 := init_squares_frame rand (board.alloc w h sq)
  have e1 : ((board.alloc w h sq).init_squares rand).1.x_size = w := h1.1
  have e2 : ((board.alloc w h sq).init_squares rand).1.y_size = h := h1.2.1
  have e3 : ((board.alloc w h sq).init_squares rand).1.square_size = sq := h1.2.2.1
  have := init_vertices_position ((board.alloc w h sq).init_squares rand).1 x y k
    (by rw [e1]; exact hx) (by rw [e2]; exact hy) hk
  rw [e2, e3] at this
  exact this

/-- The vertices of a cell of the board lie inside a buffer of `3*w*h` entries. -/
theorem cell_index_lt (w h : Nat) (x y k : Int) (hx : 0 ≤ x ∧ x < (w : Int))
    (hy : 0 ≤ y ∧ y < (h : Int)) (hk : 0 ≤ k ∧ k < 3) :
    0 ≤ 3 * (x * (h : Int) + y) + k ∧
      3 * (x * (h : Int) + y) + k < ((3 * w * h : Nat) : Int) := by
  have h1 : 0 ≤ x * (h : Int) := Int.mul_nonneg hx.1 (Int.natCast_nonneg _)
  have h2 : (x + 1) * (h : Int) ≤ (w : Int) * (h : Int) :=
    Int.mul_le_mul_of_nonneg_right (by omega) (Int.natCast_nonneg _)
  rw [succ_mul_int] at h2
  have h3 : ((3 * w * h : Nat) : Int) = 3 * ((w : Int) * (h : Int)) := by push_cast; ring
  rw [h3]
  generalize x * (h : Int) = xh at *
  generalize (w : Int) * (h : Int) = wh at *
  omega

/-- C16: the constructor creates `3*w*h` vertices and records for cell `(x, y)` the
start index `3*(x*h + y)`; the ranges `[start, start+3)` of the cells are pairwise
disjoint and cover the buffer; the three vertices of a cell sit at `(x*s, y*s)`,
`((x+1)*s, y*s)` and `((x+1)*s, (y+1)*s)`; every vertex is black. -/
theorem C16_render_buffer_layout (w h : Nat) (s : Int) (rand : Nat → Nat) :
    (board.board w h s rand).vertex_count = 3 * w * h
    ∧ (∀ x y : Int, 0 ≤ x → x < (w : Int) → 0 ≤ y → y < (h : Int) →
        (board.board w h s rand).point_indicies x y = 3 * (x * (h : Int) + y)
        ∧ 0 ≤ (board.board w h s rand).point_indicies x y
        ∧ (board.board w h s rand).point_indicies x y + 3
            ≤ ((board.board w h s rand).vertex_count : Int))
    ∧ (∀ x y x2 y2 j : Int, 0 ≤ x → x < (w : Int) → 0 ≤ y → y < (h : Int) →
        0 ≤ x2 → x2 < (w : Int) → 0 ≤ y2 → y2 < (h : Int) →
        (board.board w h s rand).point_indicies x y ≤ j →
        j < (board.board w h s rand).point_indicies x y + 3 →
        (board.board w h s rand).point_indicies x2 y2 ≤ j →
        j < (board.board w h s rand).point_indicies x2 y2 + 3 → x = x2 ∧ y = y2)
    ∧ (∀ j : Int, 0 ≤ j → j < ((board.board w h s rand).vertex_count : Int) →
        ∃ x y : Int, 0 ≤ x ∧ x < (w : Int) ∧ 0 ≤ y ∧ y < (h : Int) ∧
          (board.board w h s rand).point_indicies x y ≤ j ∧
          j < (board.board w h s rand).point_indicies x y + 3)
    ∧ (∀ x y : Int, 0 ≤ x → x < (w : Int) → 0 ≤ y → y < (h : Int) →
        ((board.board w h s rand).vertex_array
            ((board.board w h s rand).point_indicies x y)).px = x * s
        ∧ ((board.board w h s rand).vertex_array
            ((board.board w h s rand).point_indicies x y)).py = y * s
        ∧ ((board.board w h s rand).vertex_array
            ((board.board w h s rand).point_indicies x y + 1)).px = (x + 1) * s
        ∧ ((board.board w h s rand).vertex_array
            ((board.board w h s rand).point_indicies x y + 1)).py = y * s
        ∧ ((board.board w h s rand).vertex_array
            ((board.board w h s rand).point_indicies x y + 2)).px = (x + 1) * s
        ∧ ((board.board w h s rand).vertex_array
            ((board.board w h s rand).point_indicies x y + 2)).py = (y + 1) * s)
    ∧ (∀ j : Int, 0 ≤ j → j < ((board.board w h s rand).vertex_count : Int) →
        ((board.board w h s rand).vertex_array j).color = Color.Black) := by
  have hvc := board_board_vertex_count w h s rand
  have hs := board_board_size w h s rand
  have hpi : ∀ x y : Int, 0 ≤ x → x < (w : Int) → 0 ≤ y → y < (h : Int) →
      (board.board w h s rand).point_indicies x y = 3 * (x * (h : Int) + y) := by
    intro x y hx0 hx1 hy0 hy1
    have := board_board_layout w h s rand x y hx0 (by rw [hs.1]; exact hx1) hy0
      (by rw [hs.2.1]; exact hy1)
    rw [hs.2.1] at this
    exact this
  have hdec : ∀ j : Int, 0 ≤ j → j < (((3 * w * h : Nat)) : Int) →
      ∃ x y k : Int, 0 ≤ x ∧ x < (w : Int) ∧ 0 ≤ y ∧ y < (h : Int) ∧ 0 ≤ k ∧ k < 3 ∧
        j = 3 * (x * (h : Int) + y) + k := by
    intro j hj0 hj1
    exact vertex_index_decompose w h j hj0 (by push_cast at hj1; exact hj1)
  rw [hvc]
  refine ⟨rfl, ?_, ?_, ?_, ?_, ?_⟩
  · intro x y hx0 hx1 hy0 hy1
    rw [hpi x y hx0 hx1 hy0 hy1]
    have a := cell_index_lt w h x y 0 ⟨hx0, hx1⟩ ⟨hy0, hy1⟩ ⟨by omega, by omega⟩
    have c := cell_index_lt w h x y 2 ⟨hx0, hx1⟩ ⟨hy0, hy1⟩ ⟨by omega, by omega⟩
    exact ⟨rfl, by omega, by omega⟩
  · intro x y x2 y2 j hx0 hx1 hy0 hy1 hx20 hx21 hy20 hy21 a1 a2 a3 a4
    rw [hpi x y hx0 hx1 hy0 hy1] at a1 a2
    rw [hpi x2 y2 hx20 hx21 hy20 hy21] at a3 a4
    have := cell_index_inj (h : Int) x y x2 y2 (j - 3 * (x * (h : Int) + y))
      (j - 3 * (x2 * (h : Int) + y2)) ⟨hy0, hy1⟩ ⟨hy20, hy21⟩ ⟨by omega, by omega⟩
      ⟨by omega, by omega⟩ (by omega)
    exact ⟨this.1, this.2.1⟩
  · intro j hj0 hj1
    obtain ⟨x, y, k, hx0, hx1, hy0, hy1, hk0, hk1, rfl⟩ := hdec j hj0 hj1
    refine ⟨x, y, hx0, hx1, hy0, hy1, ?_, ?_⟩
    · rw [hpi x y hx0 hx1 hy0 hy1]; omega
    · rw [hpi x y hx0 hx1 hy0 hy1]; omega
  · intro x y hx0 hx1 hy0 hy1
    rw [hpi x y hx0 hx1 hy0 hy1]
    have p0 := board_board_position w h s rand x y 0 ⟨hx0, hx1⟩ ⟨hy0, hy1⟩
      ⟨by omega, by omega⟩
    have p1 := board_board_position w h s rand x y 1 ⟨hx0, hx1⟩ ⟨hy0, hy1⟩
      ⟨by omega, by omega⟩
    have p2 := board_board_position w h s rand x y 2 ⟨hx0, hx1⟩ ⟨hy0, hy1⟩
      ⟨by omega, by omega⟩
    rw [if_neg (by omega), if_neg (by omega), add_zero] at p0
    rw [if_neg (by omega), if_pos rfl] at p1
    rw [if_pos rfl] at p2
    exact ⟨(Prod.mk.inj p0).1, (Prod.mk.inj p0).2, (Prod.mk.inj p1).1, (Prod.mk.inj p1).2,
      (Prod.mk.inj p2).1, (Prod.mk.inj p2).2⟩
  · intro j hj0 hj1
    obtain ⟨x, y, k, hx0, hx1, hy0, hy1, hk0, hk1, rfl⟩ := hdec j hj0 hj1
    exact board_board_color w h s rand x y k ⟨hx0, hx1⟩ ⟨hy0, hy1⟩ ⟨hk0, hk1⟩

/-! ## Patterns -/

/-- The Moore count on a grid that is a product of columns and rows around
`(x, y)`. -/
theorem mooreCount_product (g : Int → Int → Bool) (A B : Int → Bool) (x y : Int)
    (h : ∀ x' y', x - 1 ≤ x' → x' ≤ x + 1 → y - 1 ≤ y' → y' ≤ y + 1 →
      g x' y' = (A x' && B y')) :
    mooreCount g x y =
      count8 (A (x + -1)) (A x) (A (x + 1)) (B (y + -1)) (B y) (B (y + 1)) := by
  unfold mooreCount count8
  simp only [List.countP_cons, List.countP_nil]
  rw [h (x + -1) (y + -1) (by omega) (by omega) (by omega) (by omega),
    h (x + -1) (y + 0) (by omega) (by omega) (by omega) (by omega),
    h (x + -1) (y + 1) (by omega) (by omega) (by omega) (by omega),
    h (x + 0) (y + -1) (by omega) (by omega) (by omega) (by omega),
    h (x + 0) (y + 1) (by omega) (by omega) (by omega) (by omega),
    h (x + 1) (y + -1) (by omega) (by omega) (by omega) (by omega),
    h (x + 1) (y + 0) (by omega) (by omega) (by omega) (by omega),
    h (x + 1) (y + 1) (by omega) (by omega) (by omega) (by omega)]
  simp only [add_zero]

/-- One tick of a reachable board whose `grid` is a product pattern. -/
theorem tick_product (b : board) (hb : Reachable b) (W : Nat) (hW : 1 ≤ W)
    (A B : Int → Bool) (hg : ∀ x y : Int, inBoard b x y → b.grid x y = (A x && B y))
    (x y : Int) (hin : inBoard b x y) :
    (b.iterate W).grid x y =
      if 1 ≤ x ∧ x < (b.x_size : Int) - 1 ∧ 1 ≤ y ∧ y < (b.y_size : Int) - 1
      then lifeStep (A (x + -1)) (A x) (A (x + 1)) (B (y + -1)) (B y) (B (y + 1))
      else false := by
  have ht := (reachable_tick b hb W hW (List.range W) (List.range W) (mem_range_iff W)
    (mem_range_iff W) x y hin).1
  have hg2 : (b.iterate W).grid x y = _ := ht
  rw [hg2]
  by_cases c : 1 ≤ x ∧ x < (b.x_size : Int) - 1 ∧ 1 ≤ y ∧ y < (b.y_size : Int) - 1
  · rw [if_pos c, if_pos c]
    have hm := mooreCount_product b.grid A B x y
      (fun x' y' a1 a2 a3 a4 => hg x' y' (by unfold inBoard; omega))
    rw [Bool.eq_iff_iff, nextState_iff, hm, hg x y hin]
    unfold lifeStep
    rw [decide_eq_true_iff]
  · rw [if_neg c, if_neg c]

/-- The 2x2 block: three consecutive columns (or rows) meet the block in one of
five ways, and the rule leaves the centre of the 3x3 window as it is. -/
theorem block_window :
    ∀ a0 a1 a2 b0 b1 b2 : Bool,
      ((a0, a1, a2) = (false, false, false) ∨ (a0, a1, a2) = (false, false, true) ∨
        (a0, a1, a2) = (false, true, true) ∨ (a0, a1, a2) = (true, true, false) ∨
        (a0, a1, a2) = (true, false, false)) →
      ((b0, b1, b2) = (false, false, false) ∨ (b0, b1, b2) = (false, false, true) ∨
        (b0, b1, b2) = (false, true, true) ∨ (b0, b1, b2) = (true, true, false) ∨
        (b0, b1, b2) = (true, false, false)) →
      lifeStep a0 a1 a2 b0 b1 b2 = (a1 && b1) := by
  decide

theorem block_triple (a x : Int) :
    (decide (x + -1 = a ∨ x + -1 = a + 1), decide (x = a ∨ x = a + 1),
        decide (x + 1 = a ∨ x + 1 = a + 1)) = (false, false, false) ∨
    (decide (x + -1 = a ∨ x + -1 = a + 1), decide (x = a ∨ x = a + 1),
        decide (x + 1 = a ∨ x + 1 = a + 1)) = (false, false, true) ∨
    (decide (x + -1 = a ∨ x + -1 = a + 1), decide (x = a ∨ x = a + 1),
        decide (x + 1 = a ∨ x + 1 = a + 1)) = (false, true, true) ∨
    (decide (x + -1 = a ∨ x + -1 = a + 1), decide (x = a ∨ x = a + 1),
        decide (x + 1 = a ∨ x + 1 = a + 1)) = (true, true, false) ∨
    (decide (x + -1 = a ∨ x + -1 = a + 1), decide (x = a ∨ x = a + 1),
        decide (x + 1 = a ∨ x + 1 = a + 1)) = (true, false, false) := by
  simp only [Prod.mk.injEq, decide_eq_true_eq, decide_eq_false_iff_not]
  omega

theorem ticks_succ (W k : Nat) (b : board) : ticks W (k + 1) b = ticks W k (b.iterate W) :=
  rfl

/-- One tick leaves a 2x2 block away from the border as it is. -/
theorem block_step (b : board) (hb : Reachable b) (W : Nat) (hW : 1 ≤ W) (a c : Int)
    (ha : 1 ≤ a ∧ a ≤ (b.x_size : Int) - 3) (hc : 1 ≤ c ∧ c ≤ (b.y_size : Int) - 3)
    (hg : ∀ x y : Int, inBoard b x y →
      (b.grid x y = true ↔ ((x = a ∨ x = a + 1) ∧ (y = c ∨ y = c + 1))))
    (x y : Int) (hin : inBoard b x y) : (b.iterate W).grid x y = b.grid x y := by
  have hgA : ∀ x y : Int, inBoard b x y →
      b.grid x y = (decide (x = a ∨ x = a + 1) && decide (y = c ∨ y = c + 1)) := by
    intro x y hxy
    rw [Bool.eq_iff_iff, hg x y hxy, Bool.and_eq_true, decide_eq_true_eq, decide_eq_true_eq]
  rw [tick_product b hb W hW (fun x => decide (x = a ∨ x = a + 1))
    (fun y => decide (y = c ∨ y = c + 1)) hgA x y hin]
  by_cases ci : 1 ≤ x ∧ x < (b.x_size : Int) - 1 ∧ 1 ≤ y ∧ y < (b.y_size : Int) - 1
  · rw [if_pos ci, hgA x y hin]
    exact block_window _ _ _ _ _ _ (block_triple a x) (block_triple c y)
  · rw [if_neg ci]
    symm
    rw [Bool.eq_false_iff]
    intro ht
    have := (hg x y hin).mp ht
    omega

/-- C11: on a reachable board of width and height at least 4 whose live cells are
exactly a 2x2 block at `(a, c)` with `1 <= a <= w-3`, `1 <= c <= h-3`, `grid` is
the same after any number `k >= 0` of calls of `iterate()` with `W >= 1`
workers. -/
theorem C11_block_still_life (b : board) (hb : Reachable b) (W : Nat) (hW : 1 ≤ W)
    (hw : 4 ≤ b.x_size) (hh : 4 ≤ b.y_size) (a c : Int)
    (ha : 1 ≤ a ∧ a ≤ (b.x_size : Int) - 3) (hc : 1 ≤ c ∧ c ≤ (b.y_size : Int) - 3)
    (hg : ∀ x y : Int, inBoard b x y →
      (b.grid x y = true ↔ ((x = a ∨ x = a + 1) ∧ (y = c ∨ y = c + 1))))
    (k : Nat) (x y : Int) (hin : inBoard b x y) :
    (ticks W k b).grid x y = b.grid x y := by
  induction k generalizing b with
  | zero => rfl
  | succ k ih =>
    rw [ticks_succ]
    have hs := iterate_size W b
    have hstep := block_step b hb W hW a c ha hc hg
    rw [ih (b.iterate W) (Reachable.tick W b hb) (by rw [hs.1]; exact hw)
      (by rw [hs.2]; exact hh) (by rw [hs.1]; exact ha) (by rw [hs.2]; exact hc)
      (fun x' y' hin' => by
        rw [hstep x' y' ((inBoard_iterate W b x' y').mp hin')]
        exact hg x' y' ((inBoard_iterate W b x' y').mp hin'))
      ((inBoard_iterate W b x y).mpr hin)]
    exact hstep x y hin

theorem fullBoard_grid (w h : Nat) (x y : Int) (hin : inBoard (fullBoard w h) x y) :
    (fullBoard w h).grid x y = true ↔
      (1 ≤ x ∧ x ≤ (w : Int) - 2 ∧ 1 ≤ y ∧ y ≤ (h : Int) - 2) := by
  have hs := board_board_size w h 1 (fun _ => 0)
  have hin2 : 0 ≤ x ∧ x < (((fullBoard w h).x_size : Nat) : Int) ∧ 0 ≤ y ∧
      y < (((fullBoard w h).y_size : Nat) : Int) := hin
  unfold fullBoard at hin2 ⊢
  rw [hs.1, hs.2.1] at hin2
  rw [(board_board_cells w h 1 (fun _ => 0) x y ⟨hin2.1, hin2.2.1⟩ hin2.2.2).1]
  unfold initial_cell
  split
  · constructor
    · intro h; cases h
    · intro h; omega
  · constructor
    · intro _; omega
    · intro _; simp

theorem fullBoard_size (w h : Nat) :
    (fullBoard w h).x_size = w ∧ (fullBoard w h).y_size = h :=
  ⟨(board_board_size w h 1 _).1, (board_board_size w h 1 _).2.1⟩

/-- C11 on the 4x4 board whose four interior cells are alive (the block at
`(1, 1)`), three workers, seven ticks, cell `(2, 1)`. -/
theorem C11_block_still_life_witness :
    (ticks 3 7 (fullBoard 4 4)).grid 2 1 = (fullBoard 4 4).grid 2 1 :=
  C11_block_still_life (fullBoard 4 4) (Reachable.init 4 4 1 _) 3 (by decide)
    (by rw [(fullBoard_size 4 4).1]) (by rw [(fullBoard_size 4 4).2]) 1 1
    (by rw [(fullBoard_size 4 4).1]; decide) (by rw [(fullBoard_size 4 4).2]; decide)
    (fun x y hin => by
      rw [fullBoard_grid 4 4 x y hin]
      have hin2 : 0 ≤ x ∧ x < (((fullBoard 4 4).x_size : Nat) : Int) ∧ 0 ≤ y ∧
          y < (((fullBoard 4 4).y_size : Nat) : Int) := hin
      rw [(fullBoard_size 4 4).1, (fullBoard_size 4 4).2] at hin2
      omega)
    7 2 1 (by unfold inBoard; rw [(fullBoard_size 4 4).1, (fullBoard_size 4 4).2]; decide)

/-- Three consecutive columns against a single column `c`, with whether the
middle one is within one of `c`. -/
theorem line_triple (c x : Int) :
    (decide (x + -1 = c), decide (x = c), decide (x + 1 = c),
        decide (c - 1 ≤ x ∧ x ≤ c + 1)) = (false, false, false, false) ∨
    (decide (x + -1 = c), decide (x = c), decide (x + 1 = c),
        decide (c - 1 ≤ x ∧ x ≤ c + 1)) = (false, false, true, true) ∨
    (decide (x + -1 = c), decide (x = c), decide (x + 1 = c),
        decide (c - 1 ≤ x ∧ x ≤ c + 1)) = (false, true, false, true) ∨
    (decide (x + -1 = c), decide (x = c), decide (x + 1 = c),
        decide (c - 1 ≤ x ∧ x ≤ c + 1)) = (true, false, false, true) := by
  simp only [Prod.mk.injEq, decide_eq_true_eq, decide_eq_false_iff_not]
  omega

/-- Three consecutive rows against the three rows around `c`, with whether the
middle one is `c`. -/
theorem span_triple (c y : Int) :
    (decide (c - 1 ≤ y + -1 ∧ y + -1 ≤ c + 1), decide (c - 1 ≤ y ∧ y ≤ c + 1),
        decide (c - 1 ≤ y + 1 ∧ y + 1 ≤ c + 1), decide (y = c))
        = (false, false, false, false) ∨
    (decide (c - 1 ≤ y + -1 ∧ y + -1 ≤ c + 1), decide (c - 1 ≤ y ∧ y ≤ c + 1),
        decide (c - 1 ≤ y + 1 ∧ y + 1 ≤ c + 1), decide (y = c))
        = (false, false, true, false) ∨
    (decide (c - 1 ≤ y + -1 ∧ y + -1 ≤ c + 1), decide (c - 1 ≤ y ∧ y ≤ c + 1),
        decide (c - 1 ≤ y + 1 ∧ y + 1 ≤ c + 1), decide (y = c))
        = (false, true, true, false) ∨
    (decide (c - 1 ≤ y + -1 ∧ y + -1 ≤ c + 1), decide (c - 1 ≤ y ∧ y ≤ c + 1),
        decide (c - 1 ≤ y + 1 ∧ y + 1 ≤ c + 1), decide (y = c))
        = (true, true, true, true) ∨
    (decide (c - 1 ≤ y + -1 ∧ y + -1 ≤ c + 1), decide (c - 1 ≤ y ∧ y ≤ c + 1),
        decide (c - 1 ≤ y + 1 ∧ y + 1 ≤ c + 1), decide (y = c))
        = (true, true, false, false) ∨
    (decide (c - 1 ≤ y + -1 ∧ y + -1 ≤ c + 1), decide (c - 1 ≤ y ∧ y ≤ c + 1),
        decide (c - 1 ≤ y + 1 ∧ y + 1 ≤ c + 1), decide (y = c))
        = (true, false, false, false) := by
  simp only [Prod.mk.injEq, decide_eq_true_eq, decide_eq_false_iff_not]
  omega

/-- The rule on a window of a vertical blinker gives the horizontal blinker. -/
theorem blinker_window_vertical :
    ∀ a0 a1 a2 p b0 b1 b2 q : Bool,
      ((a0, a1, a2, p) = (false, false, false, false) ∨
        (a0, a1, a2, p) = (false, false, true, true) ∨
        (a0, a1, a2, p) = (false, true, false, true) ∨
        (a0, a1, a2, p) = (true, false, false, true)) →
      ((b0, b1, b2, q) = (false, false, false, false) ∨
        (b0, b1, b2, q) = (false, false, true, false) ∨
        (b0, b1, b2, q) = (false, true, true, false) ∨
        (b0, b1, b2, q) = (true, true, true, true) ∨
        (b0, b1, b2, q) = (true, true, false, false) ∨
        (b0, b1, b2, q) = (true, false, false, false)) →
      lifeStep a0 a1 a2 b0 b1 b2 = (p && q) := by
  intro a0 a1 a2 p b0 b1 b2 q
  cases a0 <;> cases a1 <;> cases a2 <;> cases p <;> cases b0 <;> cases b1 <;> cases b2 <;>
    cases q <;> decide

/-- The rule on a window of a horizontal blinker gives the vertical blinker. -/
theorem blinker_window_horizontal :
    ∀ a0 a1 a2 p b0 b1 b2 q : Bool,
      ((a0, a1, a2, p) = (false, false, false, false) ∨
        (a0, a1, a2, p) = (false, false, true, false) ∨
        (a0, a1, a2, p) = (false, true, true, false) ∨
        (a0, a1, a2, p) = (true, true, true, true) ∨
        (a0, a1, a2, p) = (true, true, false, false) ∨
        (a0, a1, a2, p) = (true, false, false, false)) →
      ((b0, b1, b2, q) = (false, false, false, false) ∨
        (b0, b1, b2, q) = (false, false, true, true) ∨
        (b0, b1, b2, q) = (false, true, false, true) ∨
        (b0, b1, b2, q) = (true, false, false, true)) →
      lifeStep a0 a1 a2 b0 b1 b2 = (p && q) := by
  intro a0 a1 a2 p b0 b1 b2 q
  cases a0 <;> cases a1 <;> cases a2 <;> cases p <;> cases b0 <;> cases b1 <;> cases b2 <;>
    cases q <;> decide

/-- One tick turns a vertical blinker away from the border into the horizontal
one. -/
theorem blinker_step_vertical (b : board) (hb : Reachable b) (W : Nat) (hW : 1 ≤ W)
    (cx cy : Int) (hcx : 2 ≤ cx ∧ cx ≤ (b.x_size : Int) - 3)
    (hcy : 2 ≤ cy ∧ cy ≤ (b.y_size : Int) - 3)
    (hg : ∀ x y : Int, inBoard b x y →
      (b.grid x y = true ↔ (x = cx ∧ (cy - 1 ≤ y ∧ y ≤ cy + 1))))
    (x y : Int) (hin : inBoard b x y) :
    (b.iterate W).grid x y = true ↔ ((cx - 1 ≤ x ∧ x ≤ cx + 1) ∧ y = cy) := by
  have hgA : ∀ x y : Int, inBoard b x y →
      b.grid x y = (decide (x = cx) && decide (cy - 1 ≤ y ∧ y ≤ cy + 1)) := by
    intro x y hxy
    rw [Bool.eq_iff_iff, hg x y hxy, Bool.and_eq_true, decide_eq_true_eq, decide_eq_true_eq]
  rw [tick_product b hb W hW (fun x => decide (x = cx))
    (fun y => decide (cy - 1 ≤ y ∧ y ≤ cy + 1)) hgA x y hin]
  by_cases ci : 1 ≤ x ∧ x < (b.x_size : Int) - 1 ∧ 1 ≤ y ∧ y < (b.y_size : Int) - 1
  · rw [if_pos ci, blinker_window_vertical _ _ _ _ _ _ _ _ (line_triple cx x)
      (span_triple cy y), Bool.and_eq_true, decide_eq_true_eq, decide_eq_true_eq]
  · rw [if_neg ci]
    constructor
    · intro h; cases h
    · intro h; omega

/-- One tick turns a horizontal blinker away from the border into the vertical
one. -/
theorem blinker_step_horizontal (b : board) (hb : Reachable b) (W : Nat) (hW : 1 ≤ W)
    (cx cy : Int) (hcx : 2 ≤ cx ∧ cx ≤ (b.x_size : Int) - 3)
    (hcy : 2 ≤ cy ∧ cy ≤ (b.y_size : Int) - 3)
    (hg : ∀ x y : Int, inBoard b x y →
      (b.grid x y = true ↔ ((cx - 1 ≤ x ∧ x ≤ cx + 1) ∧ y = cy)))
    (x y : Int) (hin : inBoard b x y) :
    (b.iterate W).grid x y = true ↔ (x = cx ∧ (cy - 1 ≤ y ∧ y ≤ cy + 1)) := by
  have hgA : ∀ x y : Int, inBoard b x y →
      b.grid x y = (decide (cx - 1 ≤ x ∧ x ≤ cx + 1) && decide (y = cy)) := by
    intro x y hxy
    rw [Bool.eq_iff_iff, hg x y hxy, Bool.and_eq_true, decide_eq_true_eq, decide_eq_true_eq]
  rw [tick_product b hb W hW (fun x => decide (cx - 1 ≤ x ∧ x ≤ cx + 1))
    (fun y => decide (y = cy)) hgA x y hin]
  by_cases ci : 1 ≤ x ∧ x < (b.x_size : Int) - 1 ∧ 1 ≤ y ∧ y < (b.y_size : Int) - 1
  · rw [if_pos ci, blinker_window_horizontal _ _ _ _ _ _ _ _ (span_triple cx x)
      (line_triple cy y), Bool.and_eq_true, decide_eq_true_eq, decide_eq_true_eq]
  · rw [if_neg ci]
    constructor
    · intro h; cases h
    · intro h; omega

/-- C12: on a reachable board whose live cells are exactly the vertical blinker
`(cx,cy-1), (cx,cy), (cx,cy+1)` with `2 <= cx <= w-3` and `2 <= cy <= h-3`, one
`iterate()` with `W >= 1` workers leaves exactly the horizontal blinker
`(cx-1,cy), (cx,cy), (cx+1,cy)` alive, and two calls leave `grid` as it was. -/
theorem C12_blinker_period_two (b : board) (hb : Reachable b) (W : Nat) (hW : 1 ≤ W)
    (cx cy : Int) (hcx : 2 ≤ cx ∧ cx ≤ (b.x_size : Int) - 3)
    (hcy : 2 ≤ cy ∧ cy ≤ (b.y_size : Int) - 3)
    (hg : ∀ x y : Int, inBoard b x y →
      (b.grid x y = true ↔ (x = cx ∧ (y = cy - 1 ∨ y = cy ∨ y = cy + 1))))
    (x y : Int) (hin : inBoard b x y) :
    ((b.iterate W).grid x y = true ↔ (y = cy ∧ (x = cx - 1 ∨ x = cx ∨ x = cx + 1)))
    ∧ ((b.iterate W).iterate W).grid x y = b.grid x y := by
  have hg1 : ∀ x y : Int, inBoard b x y →
      (b.grid x y = true ↔ (x = cx ∧ (cy - 1 ≤ y ∧ y ≤ cy + 1))) := by
    intro x y hxy
    rw [hg x y hxy]
    omega
  have hs := iterate_size W b
  have h1 := blinker_step_vertical b hb W hW cx cy hcx hcy hg1
  have h2 := blinker_step_horizontal (b.iterate W) (Reachable.tick W b hb) W hW cx cy
    (by rw [hs.1]; exact hcx) (by rw [hs.2]; exact hcy)
    (fun x' y' hin' => h1 x' y' ((inBoard_iterate W b x' y').mp hin'))
    x y ((inBoard_iterate W b x y).mpr hin)
  constructor
  · rw [h1 x y hin]
    omega
  · rw [Bool.eq_iff_iff, h2, hg1 x y hin]

theorem blinkerBoard_size : blinkerBoard.x_size = 5 ∧ blinkerBoard.y_size = 5 :=
  ⟨(board_board_size 5 5 1 _).1, (board_board_size 5 5 1 _).2.1⟩

theorem blinkerBoard_grid (x y : Int) (hin : inBoard blinkerBoard x y) :
    blinkerBoard.grid x y = true ↔ (x = 2 ∧ (y = 2 - 1 ∨ y = 2 ∨ y = 2 + 1)) := by
  have hin2 : 0 ≤ x ∧ x < ((blinkerBoard.x_size : Nat) : Int) ∧ 0 ≤ y ∧
      y < ((blinkerBoard.y_size : Nat) : Int) := hin
  rw [blinkerBoard_size.1, blinkerBoard_size.2] at hin2
  unfold blinkerBoard
  rw [(board_board_cells 5 5 1 _ x y ⟨hin2.1, hin2.2.1⟩ hin2.2.2).1]
  have hx : x = 0 ∨ x = 1 ∨ x = 2 ∨ x = 3 ∨ x = 4 := by omega
  have hy : y = 0 ∨ y = 1 ∨ y = 2 ∨ y = 3 ∨ y = 4 := by omega
  rcases hx with rfl | rfl | rfl | rfl | rfl <;> rcases hy with rfl | rfl | rfl | rfl | rfl <;>
    decide

/-- C12 on the 5x5 board with a vertical blinker at its centre, two workers, cell
`(1, 2)`. -/
theorem C12_blinker_period_two_witness :
    ((blinkerBoard.iterate 2).grid 1 2 = true ↔
        ((2 : Int) = 2 ∧ ((1 : Int) = 2 - 1 ∨ (1 : Int) = 2 ∨ (1 : Int) = 2 + 1)))
    ∧ ((blinkerBoard.iterate 2).iterate 2).grid 1 2 = blinkerBoard.grid 1 2 :=
  C12_blinker_period_two blinkerBoard (Reachable.init 5 5 1 _) 2 (by decide) 2 2
    (by rw [blinkerBoard_size.1]; decide) (by rw [blinkerBoard_size.2]; decide)
    blinkerBoard_grid 1 2
    (by unfold inBoard; rw [blinkerBoard_size.1, blinkerBoard_size.2]; decide)

/-- Three consecutive columns of the 5x5 board against its interior columns
`1..3`, for an interior middle column, with whether it is column 1 or 3. -/
theorem full_triple (x : Int) (hx : 1 ≤ x ∧ x ≤ 3) :
    (decide (1 ≤ x + -1 ∧ x + -1 ≤ 3), decide (1 ≤ x ∧ x ≤ 3), decide (1 ≤ x + 1 ∧ x + 1 ≤ 3),
        decide (x = 1 ∨ x = 3)) = (false, true, true, true) ∨
    (decide (1 ≤ x + -1 ∧ x + -1 ≤ 3), decide (1 ≤ x ∧ x ≤ 3), decide (1 ≤ x + 1 ∧ x + 1 ≤ 3),
        decide (x = 1 ∨ x = 3)) = (true, true, true, false) ∨
    (decide (1 ≤ x + -1 ∧ x + -1 ≤ 3), decide (1 ≤ x ∧ x ≤ 3), decide (1 ≤ x + 1 ∧ x + 1 ≤ 3),
        decide (x = 1 ∨ x = 3)) = (true, true, false, true) := by
  simp only [Prod.mk.injEq, decide_eq_true_eq, decide_eq_false_iff_not]
  omega

/-- The rule on a window inside the 5x5 board with a live interior keeps a cell
exactly when it is a corner of the interior. -/
theorem full_window :
    ∀ a0 a1 a2 p b0 b1 b2 q : Bool,
      ((a0, a1, a2, p) = (false, true, true, true) ∨
        (a0, a1, a2, p) = (true, true, true, false) ∨
        (a0, a1, a2, p) = (true, true, false, true)) →
      ((b0, b1, b2, q) = (false, true, true, true) ∨
        (b0, b1, b2, q) = (true, true, true, false) ∨
        (b0, b1, b2, q) = (true, true, false, true)) →
      lifeStep a0 a1 a2 b0 b1 b2 = (p && q) := by
  intro a0 a1 a2 p b0 b1 b2 q
  cases a0 <;> cases a1 <;> cases a2 <;> cases p <;> cases b0 <;> cases b1 <;> cases b2 <;>
    cases q <;> decide

/-- C13: on a reachable 5x5 board whose nine interior cells are alive and whose
border is dead, the neighbour counts are 3 at the four interior corners, 5 at the
four interior edge midpoints and 8 at the centre, and one `iterate()` with
`W >= 1` workers leaves exactly `(1,1)`, `(1,3)`, `(3,1)`, `(3,3)` alive. -/
theorem C13_full_interior_5x5 (b : board) (hb : Reachable b) (hw : b.x_size = 5)
    (hh : b.y_size = 5)
    (hg : ∀ x y : Int, inBoard b x y →
      (b.grid x y = true ↔ (1 ≤ x ∧ x ≤ 3 ∧ 1 ≤ y ∧ y ≤ 3)))
    (W : Nat) (hW : 1 ≤ W) :
    (b.neighbours 1 1 = 3 ∧ b.neighbours 1 3 = 3 ∧ b.neighbours 3 1 = 3 ∧
      b.neighbours 3 3 = 3 ∧ b.neighbours 1 2 = 5 ∧ b.neighbours 2 1 = 5 ∧
      b.neighbours 2 3 = 5 ∧ b.neighbours 3 2 = 5 ∧ b.neighbours 2 2 = 8)
    ∧ (∀ x y : Int, inBoard b x y →
        ((b.iterate W).grid x y = true ↔ ((x = 1 ∨ x = 3) ∧ (y = 1 ∨ y = 3)))) := by
  have hgA : ∀ x y : Int, inBoard b x y →
      b.grid x y = (decide (1 ≤ x ∧ x ≤ 3) && decide (1 ≤ y ∧ y ≤ 3)) := by
    intro x y hxy
    rw [Bool.eq_iff_iff, hg x y hxy, Bool.and_eq_true, decide_eq_true_eq, decide_eq_true_eq]
    omega
  have hcount : ∀ x y : Int, 1 ≤ x ∧ x ≤ 3 → 1 ≤ y ∧ y ≤ 3 →
      b.neighbours x y =
        ((count8 (decide (1 ≤ x + -1 ∧ x + -1 ≤ 3)) (decide (1 ≤ x ∧ x ≤ 3))
          (decide (1 ≤ x + 1 ∧ x + 1 ≤ 3)) (decide (1 ≤ y + -1 ∧ y + -1 ≤ 3))
          (decide (1 ≤ y ∧ y ≤ 3)) (decide (1 ≤ y + 1 ∧ y + 1 ≤ 3)) : Nat) : Int) := by
    intro x y hx hy
    rw [neighbours_eq_mooreCount, mooreCount_product b.grid (fun x => decide (1 ≤ x ∧ x ≤ 3))
      (fun y => decide (1 ≤ y ∧ y ≤ 3)) x y
      (fun x' y' a1 a2 a3 a4 => hgA x' y' (by unfold inBoard; rw [hw, hh]; omega))]
  refine ⟨⟨?_, ?_, ?_, ?_, ?_, ?_, ?_, ?_, ?_⟩, ?_⟩
  · rw [hcount 1 1 (by omega) (by omega)]; decide
  · rw [hcount 1 3 (by omega) (by omega)]; decide
  · rw [hcount 3 1 (by omega) (by omega)]; decide
  · rw [hcount 3 3 (by omega) (by omega)]; decide
  · rw [hcount 1 2 (by omega) (by omega)]; decide
  · rw [hcount 2 1 (by omega) (by omega)]; decide
  · rw [hcount 2 3 (by omega) (by omega)]; decide
  · rw [hcount 3 2 (by omega) (by omega)]; decide
  · rw [hcount 2 2 (by omega) (by omega)]; decide
  · intro x y hin
    have hin2 : 0 ≤ x ∧ x < (b.x_size : Int) ∧ 0 ≤ y ∧ y < (b.y_size : Int) := hin
    rw [hw, hh] at hin2
    rw [tick_product b hb W hW (fun x => decide (1 ≤ x ∧ x ≤ 3))
      (fun y => decide (1 ≤ y ∧ y ≤ 3)) hgA x y hin, hw, hh]
    by_cases ci : 1 ≤ x ∧ x < ((5 : Nat) : Int) - 1 ∧ 1 ≤ y ∧ y < ((5 : Nat) : Int) - 1
    · rw [if_pos ci, full_window _ _ _ _ _ _ _ _ (full_triple x (by omega))
        (full_triple y (by omega)), Bool.and_eq_true, decide_eq_true_eq, decide_eq_true_eq]
    · rw [if_neg ci]
      constructor
      · intro h; cases h
      · intro h; omega

/-- C13 on the 5x5 board the constructor builds from even `rand()` values, two
workers. -/
theorem C13_full_interior_5x5_witness :
    ((fullBoard 5 5).neighbours 1 1 = 3 ∧ (fullBoard 5 5).neighbours 1 3 = 3 ∧
      (fullBoard 5 5).neighbours 3 1 = 3 ∧ (fullBoard 5 5).neighbours 3 3 = 3 ∧
      (fullBoard 5 5).neighbours 1 2 = 5 ∧ (fullBoard 5 5).neighbours 2 1 = 5 ∧
      (fullBoard 5 5).neighbours 2 3 = 5 ∧ (fullBoard 5 5).neighbours 3 2 = 5 ∧
      (fullBoard 5 5).neighbours 2 2 = 8)
    ∧ (∀ x y : Int, inBoard (fullBoard 5 5) x y →
        (((fullBoard 5 5).iterate 2).grid x y = true ↔
          ((x = 1 ∨ x = 3) ∧ (y = 1 ∨ y = 3)))) :=
  C13_full_interior_5x5 (fullBoard 5 5) (Reachable.init 5 5 1 _) (fullBoard_size 5 5).1
    (fullBoard_size 5 5).2
    (fun x y hin => by
      rw [fullBoard_grid 5 5 x y hin]
      omega)
    2 (by decide)

/-! ## Array accesses stay in range -/

theorem update_new_grid_vertex_count (b : board) (xmin xmax : Int) :
    (b.update_new_grid xmin xmax).vertex_count = b.vertex_count := by
  unfold board.update_new_grid
  exact forLoop2_inv (fun s => s.vertex_count = b.vertex_count) _ _ _ _
    (fun x y s => s.update_cell x y) b rfl
    (fun x y t _ _ _ _ ht => by
      show (t.update_cell x y).vertex_count = _
      rw [update_cell_eq]; exact ht)

theorem copy_grid_vertex_count (b : board) (xmin xmax : Int) :
    (b.copy_grid xmin xmax).vertex_count = b.vertex_count := by
  unfold board.copy_grid
  exact forLoop2_inv (fun s => s.vertex_count = b.vertex_count) _ _ _ _
    (fun x y s => { s with grid := set2 s.grid x y (s.new_grid x y) }) b rfl
    (fun x y t _ _ _ _ ht => ht)

theorem iterate_vertex_count (W : Nat) (b : board) :
    (b.iterate W).vertex_count = b.vertex_count := by
  have h1 : ∀ (l : List Nat) (s : board),
      (s.compute_phase W l).vertex_count = s.vertex_count := by
    intro l
    induction l with
    | nil => intro s; rfl
    | cons i l ih =>
      intro s
      rw [compute_phase_cons, ih, update_new_grid_vertex_count]
  have h2 : ∀ (l : List Nat) (s : board),
      (s.commit_phase W l).vertex_count = s.vertex_count := by
    intro l
    induction l with
    | nil => intro s; rfl
    | cons i l ih =>
      intro s
      rw [commit_phase_cons, ih, copy_grid_vertex_count]
  show ((b.compute_phase W _).commit_phase W _).vertex_count = _
  rw [h2, h1]

/-- On a reachable board the vertex array has three entries per cell. -/
theorem reachable_vertex_count (b : board) (hb : Reachable b) :
    b.vertex_count = 3 * b.x_size * b.y_size := by
  induction hb with
  | init w h sq rand =>
    rw [board_board_vertex_count, (board_board_size w h sq rand).1,
      (board_board_size w h sq rand).2.1]
  | tick W b _ ih =>
    rw [iterate_vertex_count, (iterate_size W b).1, (iterate_size W b).2]
    exact ih

/-- The board component of a loop that also keeps a log. -/
theorem forLoop_fst {σ τ : Type} (f : Int → σ → σ) (body : Int → σ × τ → σ × τ)
    (h : ∀ k u, (body k u).1 = f k u.1) (lo hi : Int) (s : σ × τ) :
    (forLoop lo hi body s).1 = forLoop lo hi f s.1 := by
  unfold forLoop
  generalize List.range (hi - lo).toNat = l
  induction l generalizing s with
  | nil => rfl
  | cons k l ih =>
    rw [List.foldl_cons, List.foldl_cons, ih, h]

theorem update_new_grid_log_fst (xmin xmax : Int) (s : board × List Event) :
    (update_new_grid_log xmin xmax s).1 = s.1.update_new_grid xmin xmax := by
  unfold update_new_grid_log board.update_new_grid
  exact forLoop_fst _ _ (fun x t => forLoop_fst (fun y u => u.update_cell x y) _
    (fun y u => rfl) _ _ t) _ _ s

theorem copy_grid_log_fst (xmin xmax : Int) (s : board × List Event) :
    (copy_grid_log xmin xmax s).1 = s.1.copy_grid xmin xmax := by
  unfold copy_grid_log board.copy_grid
  exact forLoop_fst _ _ (fun x t => forLoop_fst
    (fun y u => { u with grid := set2 u.grid x y (u.new_grid x y) }) _
    (fun y u => rfl) _ _ t) _ _ s

/-- The logged tick computes the board that `iterate` computes. -/
theorem iterate_log_fst (W : Nat) (b : board) : (iterate_log W b).1 = b.iterate W := by
  have h1 : ∀ (l : List Nat) (s : board × List Event),
      (l.foldl (fun s i => update_new_grid_log (band_xmin s.1.x_size W i)
        (band_xmax s.1.x_size W i) s) s).1 = s.1.compute_phase W l := by
    intro l
    induction l with
    | nil => intro s; rfl
    | cons i l ih =>
      intro s
      rw [List.foldl_cons, ih, update_new_grid_log_fst, compute_phase_cons]
  have h2 : ∀ (l : List Nat) (s : board × List Event),
      (l.foldl (fun s i => copy_grid_log (band_xmin s.1.x_size W i)
        (band_xmax s.1.x_size W i) s) s).1 = s.1.commit_phase W l := by
    intro l
    induction l with
    | nil => intro s; rfl
    | cons i l ih =>
      intro s
      rw [List.foldl_cons, ih, copy_grid_log_fst, commit_phase_cons]
  unfold iterate_log
  rw [h2, h1]
  rfl

theorem neighbours_events_ok (b : board) (x y : Int)
    (hx : 1 ≤ x ∧ x < (b.x_size : Int) - 1) (hy : 1 ≤ y ∧ y < (b.y_size : Int) - 1) :
    ∀ e ∈ neighbours_events x y, Event.ok b e := by
  unfold neighbours_events
  simp only [forLoop_neg3, List.forall_mem_append, List.forall_mem_cons,
    List.not_mem_nil, IsEmpty.forall_iff, implies_true, and_true, Event.ok]
  omega

/-- The events of one cell of `update_new_grid` stay in range when the cell is
interior and owns the vertex indices the constructor gave it. -/
theorem update_cell_events_ok (b0 b : board) (hf : SameFrame b0 b) (hL : Layout b0)
    (hvc : b0.vertex_count = 3 * b0.x_size * b0.y_size) (x y : Int)
    (hx : 1 ≤ x ∧ x < (b0.x_size : Int) - 1) (hy : 1 ≤ y ∧ y < (b0.y_size : Int) - 1) :
    ∀ e ∈ update_cell_events b x y, Event.ok b0 e := by
  have hpi : b.point_indicies x y = 3 * (x * (b0.y_size : Int) + y) := by
    rw [hf.2.1]
    exact hL x y (by omega) (by omega) (by omega) (by omega)
  have hlt := cell_index_lt b0.x_size b0.y_size x y 2 ⟨by omega, by omega⟩
    ⟨by omega, by omega⟩ ⟨by omega, by omega⟩
  have hge := cell_index_lt b0.x_size b0.y_size x y 0 ⟨by omega, by omega⟩
    ⟨by omega, by omega⟩ ⟨by omega, by omega⟩
  rw [← hvc] at hlt hge
  have hcell : 0 ≤ x ∧ x < (b0.x_size : Int) ∧ 0 ≤ y ∧ y < (b0.y_size : Int) :=
    ⟨by omega, by omega, by omega, by omega⟩
  unfold update_cell_events
  simp only [List.forall_mem_append, forLoop_three, List.nil_append, List.forall_mem_cons,
    List.not_mem_nil, IsEmpty.forall_iff, implies_true, and_true, hpi]
  refine ⟨⟨⟨neighbours_events_ok b0 x y hx hy, ?_⟩, hcell⟩, ?_⟩
  · split
    · simp only [List.forall_mem_cons, List.not_mem_nil, IsEmpty.forall_iff, implies_true,
        and_true]
      exact hcell
    · split
      · simp only [List.forall_mem_cons, List.not_mem_nil, IsEmpty.forall_iff, implies_true,
          and_true]
        exact ⟨hcell, hcell⟩
      · split
        · simp only [List.forall_mem_cons, List.not_mem_nil, IsEmpty.forall_iff,
            implies_true, and_true]
          exact hcell
        · simp only [List.forall_mem_cons, List.not_mem_nil, IsEmpty.forall_iff,
            implies_true, and_true]
          exact hcell
  · simp only [Event.ok]
    omega

theorem update_new_grid_log_ok (b0 : board) (hL : Layout b0)
    (hvc : b0.vertex_count = 3 * b0.x_size * b0.y_size) (xmin xmax : Int)
    (s : board × List Event) (hf : SameFrame b0 s.1) (hs : ∀ e ∈ s.2, Event.ok b0 e) :
    SameFrame b0 (update_new_grid_log xmin xmax s).1 ∧
      ∀ e ∈ (update_new_grid_log xmin xmax s).2, Event.ok b0 e := by
  unfold update_new_grid_log
  have hcl : ∀ x' : Int, clamp_xmin xmin ≤ x' → x' < clamp_xmax s.1.x_size xmax →
      1 ≤ x' ∧ x' < (b0.x_size : Int) - 1 := by
    intro x' h1 h2
    rw [hf.2.2.1] at h2
    unfold clamp_xmin at h1
    unfold clamp_xmax at h2
    split at h1 <;> split at h2 <;> omega
  exact forLoop2_inv
    (fun u : board × List Event => SameFrame b0 u.1 ∧ ∀ e ∈ u.2, Event.ok b0 e) _ _ _ _
    (fun x y (u : board × List Event) =>
      (u.1.update_cell x y, u.2 ++ update_cell_events u.1 x y)) s ⟨hf, hs⟩
    (fun x y u hx1 hx2 hy1 hy2 hu => by
      refine ⟨hu.1.trans (update_cell_frame u.1 x y), ?_⟩
      intro e he
      rcases List.mem_append.mp he with h | h
      · exact hu.2 e h
      · have hy2' : y < (b0.y_size : Int) - 1 := by rw [← hf.2.2.2.1]; exact hy2
        exact update_cell_events_ok b0 u.1 hu.1 hL hvc x y (hcl x hx1 hx2) ⟨hy1, hy2'⟩ e h)

theorem copy_grid_log_ok (b0 : board) (xmin xmax : Int) (hmin : 0 ≤ xmin)
    (hmax : xmax ≤ (b0.x_size : Int)) (s : board × List Event)
    (hd : s.1.x_size = b0.x_size ∧ s.1.y_size = b0.y_size)
    (hs : ∀ e ∈ s.2, Event.ok b0 e) :
    ((copy_grid_log xmin xmax s).1.x_size = b0.x_size ∧
      (copy_grid_log xmin xmax s).1.y_size = b0.y_size) ∧
      ∀ e ∈ (copy_grid_log xmin xmax s).2, Event.ok b0 e := by
  unfold copy_grid_log
  exact forLoop2_inv
    (fun u : board × List Event => (u.1.x_size = b0.x_size ∧ u.1.y_size = b0.y_size) ∧
      ∀ e ∈ u.2, Event.ok b0 e) _ _ _ _
    (fun x y (u : board × List Event) =>
      (({ u.1 with grid := set2 u.1.grid x y (u.1.new_grid x y) } : board),
        u.2 ++ [Event.read_new_grid x y, Event.write_grid x y])) s ⟨hd, hs⟩
    (fun x y u hx1 hx2 hy1 hy2 hu => by
      refine ⟨hu.1, ?_⟩
      intro e he
      rcases List.mem_append.mp he with h | h
      · exact hu.2 e h
      · have hy2' : y < (b0.y_size : Int) := by rw [← hd.2]; exact hy2
        simp only [List.mem_cons, List.mem_singleton, List.not_mem_nil, or_false] at h
        rcases h with rfl | rfl
        · exact ⟨by omega, by omega, hy1, hy2'⟩
        · exact ⟨by omega, by omega, hy1, hy2'⟩)

/-- Every event of a tick of a reachable board stays in range. -/
theorem iterate_log_ok (W : Nat) (b : board) (hb : Reachable b) :
    ∀ e ∈ (iterate_log W b).2, Event.ok b e := by
  have hL := (reachable_inv b hb).1
  have hvc := reachable_vertex_count b hb
  have h1 : ∀ (l : List Nat) (s : board × List Event), SameFrame b s.1 →
      (∀ e ∈ s.2, Event.ok b e) →
      SameFrame b (l.foldl (fun s i => update_new_grid_log (band_xmin s.1.x_size W i)
        (band_xmax s.1.x_size W i) s) s).1 ∧
      ∀ e ∈ (l.foldl (fun s i => update_new_grid_log (band_xmin s.1.x_size W i)
        (band_xmax s.1.x_size W i) s) s).2, Event.ok b e := by
    intro l
    induction l with
    | nil => intro s hf hs; exact ⟨hf, hs⟩
    | cons i l ih =>
      intro s hf hs
      rw [List.foldl_cons]
      have := update_new_grid_log_ok b hL hvc (band_xmin s.1.x_size W i)
        (band_xmax s.1.x_size W i) s hf hs
      exact ih _ this.1 this.2
  have h2 : ∀ (l : List Nat), (∀ i ∈ l, i < W) → ∀ (s : board × List Event),
      (s.1.x_size = b.x_size ∧ s.1.y_size = b.y_size) → (∀ e ∈ s.2, Event.ok b e) →
      ∀ e ∈ (l.foldl (fun s i => copy_grid_log (band_xmin s.1.x_size W i)
        (band_xmax s.1.x_size W i) s) s).2, Event.ok b e := by
    intro l
    induction l with
    | nil => intro _ s _ hs; exact hs
    | cons i l ih =>
      intro hl s hd hs
      rw [List.foldl_cons]
      have hi : i < W := hl i (List.mem_cons_self _ _)
      have := copy_grid_log_ok b (band_xmin s.1.x_size W i) (band_xmax s.1.x_size W i)
        (band_xmin_nonneg _ _ _) (by rw [hd.1]; exact band_xmax_le _ _ _ hi) s hd hs
      exact ih (fun j hj => hl j (List.mem_cons_of_mem _ hj)) _ this.1 this.2
  unfold iterate_log
  have hc := h1 (List.range W) (b, []) (SameFrame.refl b) (fun e he => by cases he)
  exact h2 (List.range W) (fun i hi => List.mem_range.mp hi) _
    ⟨hc.1.2.2.1, hc.1.2.2.2.1⟩ hc.2

/-- C18: every array access of `iterate()` on a reachable board of width and
height at least 1, with `W >= 1` workers, is in range: `neighbours` is called at
interior cells only, every cell read or written in `grid`, `new_grid` and
`point_indicies` has `0 <= x < w` and `0 <= y < h`, and every vertex index
written is in `[0, 3*w*h)`. The logged tick computes the same board as
`iterate`. -/
theorem C18_accesses_in_range (b : board) (hb : Reachable b) (hw : 1 ≤ b.x_size)
    (hh : 1 ≤ b.y_size) (W : Nat) (hW : 1 ≤ W) :
    (iterate_log W b).1 = b.iterate W
    ∧ b.vertex_count = 3 * b.x_size * b.y_size
    ∧ ∀ e ∈ (iterate_log W b).2, Event.ok b e :=
  ⟨iterate_log_fst W b, reachable_vertex_count b hb, iterate_log_ok W b hb⟩

/-- C18 on the 5x5 board whose interior is alive, two workers. -/
theorem C18_accesses_in_range_witness :
    (iterate_log 2 (fullBoard 5 5)).1 = (fullBoard 5 5).iterate 2
    ∧ (fullBoard 5 5).vertex_count = 3 * (fullBoard 5 5).x_size * (fullBoard 5 5).y_size
    ∧ ∀ e ∈ (iterate_log 2 (fullBoard 5 5)).2, Event.ok (fullBoard 5 5) e :=
  C18_accesses_in_range (fullBoard 5 5) (Reachable.init 5 5 1 _)
    (by rw [(fullBoard_size 5 5).1]; decide) (by rw [(fullBoard_size 5 5).2]; decide) 2
    (by decide)

/-! ## The square size -/

/-- One tick of two reachable boards of the same size with the same `grid`
gives the same buffers and vertex colours. -/
theorem iterate_congr (b1 b2 : board) (h1 : Reachable b1) (h2 : Reachable b2)
    (hw : b1.x_size = b2.x_size) (hh : b1.y_size = b2.y_size)
    (hg : ∀ x y : Int, inBoard b1 x y → b1.grid x y = b2.grid x y)
    (W : Nat) (hW : 1 ≤ W) :
    (∀ x y : Int, inBoard b1 x y →
      (b1.iterate W).grid x y = (b2.iterate W).grid x y ∧
      (b1.iterate W).new_grid x y = (b2.iterate W).new_grid x y)
    ∧ (∀ j : Int, 0 ≤ j → j < 3 * (b1.x_size : Int) * (b1.y_size : Int) →
      ((b1.iterate W).vertex_array j).color = ((b2.iterate W).vertex_array j).color) := by
  have key : ∀ x y : Int, inBoard b1 x y →
      1 ≤ x ∧ x < (b1.x_size : Int) - 1 ∧ 1 ≤ y ∧ y < (b1.y_size : Int) - 1 →
      ∀ x' y', x - 1 ≤ x' → x' ≤ x + 1 → y - 1 ≤ y' → y' ≤ y + 1 →
        b1.grid x' y' = b2.grid x' y' := by
    intro x y _ hi x' y' a1 a2 a3 a4
    exact hg x' y' (by unfold inBoard; omega)
  have hin2 : ∀ x y : Int, inBoard b1 x y → inBoard b2 x y := by
    intro x y h
    unfold inBoard at h ⊢
    rw [← hw, ← hh]; exact h
  constructor
  · intro x y hin
    have r1 := reachable_tick b1 h1 W hW _ _ (mem_range_iff W) (mem_range_iff W) x y hin
    have r2 := reachable_tick b2 h2 W hW _ _ (mem_range_iff W) (mem_range_iff W) x y
      (hin2 x y hin)
    rw [← hw, ← hh] at r2
    show (b1.iterateIn W _ _).grid x y = (b2.iterateIn W _ _).grid x y ∧
      (b1.iterateIn W _ _).new_grid x y = (b2.iterateIn W _ _).new_grid x y
    rw [r1.1, r1.2.1, r2.1, r2.2.1]
    by_cases c : 1 ≤ x ∧ x < (b1.x_size : Int) - 1 ∧ 1 ≤ y ∧ y < (b1.y_size : Int) - 1
    · rw [if_pos c, if_pos c, nextState_congr_local b1 b2 x y (key x y hin c)]
      exact ⟨rfl, rfl⟩
    · rw [if_neg c, if_neg c]
      exact ⟨rfl, rfl⟩
  · intro j hj0 hj
    obtain ⟨x, y, k, hx0, hx1, hy0, hy1, hk0, hk1, rfl⟩ :=
      vertex_index_decompose b1.x_size b1.y_size j hj0 hj
    have hin : inBoard b1 x y := ⟨hx0, hx1, hy0, hy1⟩
    have r1 := (reachable_tick b1 h1 W hW _ _ (mem_range_iff W) (mem_range_iff W) x y
      hin).2.2 k hk0 hk1
    have r2 := (reachable_tick b2 h2 W hW _ _ (mem_range_iff W) (mem_range_iff W) x y
      (hin2 x y hin)).2.2 k hk0 hk1
    rw [← hw, ← hh] at r2
    show ((b1.iterateIn W _ _).vertex_array _).color = ((b2.iterateIn W _ _).vertex_array _).color
    rw [r1, r2]
    by_cases c : 1 ≤ x ∧ x < (b1.x_size : Int) - 1 ∧ 1 ≤ y ∧ y < (b1.y_size : Int) - 1
    · rw [if_pos c, if_pos c, nextColor_congr_local b1 b2 x y (key x y hin c)]
    · rw [if_neg c, if_neg c]

/-- C17: two reachable boards of the same width and height whose two buffers
agree have, after the same number `k` of `iterate()` calls with `W >= 1` workers,
the same `grid` and the same `new_grid`, whatever their square sizes; once a call
has been made (`k >= 1`) they also have the same vertex colours, and with no call
made the colours are the same if they were the same. -/
theorem C17_square_size_no_influence (b1 b2 : board) (h1 : Reachable b1)
    (h2 : Reachable b2) (hw : b1.x_size = b2.x_size) (hh : b1.y_size = b2.y_size)
    (hg : ∀ x y : Int, inBoard b1 x y →
      b1.grid x y = b2.grid x y ∧ b1.new_grid x y = b2.new_grid x y)
    (W : Nat) (hW : 1 ≤ W) (k : Nat) :
    (∀ x y : Int, inBoard b1 x y →
      (ticks W k b1).grid x y = (ticks W k b2).grid x y ∧
      (ticks W k b1).new_grid x y = (ticks W k b2).new_grid x y)
    ∧ ((1 ≤ k ∨ ∀ j : Int, 0 ≤ j → j < 3 * (b1.x_size : Int) * (b1.y_size : Int) →
          (b1.vertex_array j).color = (b2.vertex_array j).color) →
        ∀ j : Int, 0 ≤ j → j < 3 * (b1.x_size : Int) * (b1.y_size : Int) →
          ((ticks W k b1).vertex_array j).color = ((ticks W k b2).vertex_array j).color) := by
  induction k generalizing b1 b2 with
  | zero =>
    refine ⟨hg, ?_⟩
    rintro (h | h)
    · omega
    · exact h
  | succ k ih =>
    have hs1 := iterate_size W b1
    have hs2 := iterate_size W b2
    have hc := iterate_congr b1 b2 h1 h2 hw hh (fun x y hin => (hg x y hin).1) W hW
    have ih' := ih (b1.iterate W) (b2.iterate W) (Reachable.tick W b1 h1)
      (Reachable.tick W b2 h2) (by rw [hs1.1, hs2.1]; exact hw)
      (by rw [hs1.2, hs2.2]; exact hh)
      (fun x y hin => hc.1 x y ((inBoard_iterate W b1 x y).mp hin))
    rw [hs1.1, hs1.2] at ih'
    rw [ticks_succ, ticks_succ]
    refine ⟨fun x y hin => ih'.1 x y ((inBoard_iterate W b1 x y).mpr hin), fun _ => ?_⟩
    exact ih'.2 (Or.inr hc.2)

/-- C17 on two 5x5 boards built from `rand()` values of the same parity with
square sizes 1 and 7, three ticks with two workers. -/
theorem C17_square_size_no_influence_witness :
    (∀ x y : Int, inBoard (fullBoard 5 5) x y →
      (ticks 2 3 (fullBoard 5 5)).grid x y
        = (ticks 2 3 (board.board 5 5 7 (fun _ => 2))).grid x y ∧
      (ticks 2 3 (fullBoard 5 5)).new_grid x y
        = (ticks 2 3 (board.board 5 5 7 (fun _ => 2))).new_grid x y)
    ∧ ((1 ≤ 3 ∨ ∀ j : Int, 0 ≤ j →
          j < 3 * ((fullBoard 5 5).x_size : Int) * ((fullBoard 5 5).y_size : Int) →
          ((fullBoard 5 5).vertex_array j).color
            = ((board.board 5 5 7 (fun _ => 2)).vertex_array j).color) →
        ∀ j : Int, 0 ≤ j →
          j < 3 * ((fullBoard 5 5).x_size : Int) * ((fullBoard 5 5).y_size : Int) →
          ((ticks 2 3 (fullBoard 5 5)).vertex_array j).color
            = ((ticks 2 3 (board.board 5 5 7 (fun _ => 2))).vertex_array j).color) :=
  C17_square_size_no_influence (fullBoard 5 5) (board.board 5 5 7 (fun _ => 2))
    (Reachable.init 5 5 1 _) (Reachable.init 5 5 7 _)
    ((board_board_size 5 5 1 _).1.trans (board_board_size 5 5 7 _).1.symm)
    ((board_board_size 5 5 1 _).2.1.trans (board_board_size 5 5 7 _).2.1.symm)
    (fun x y hin => ⟨fullBoard_cells_eq x y hin, by
      have hb1 := reachable_buffers_agree (fullBoard 5 5) (Reachable.init 5 5 1 _) x y hin
      have hin2 : inBoard (board.board 5 5 7 (fun _ => 2)) x y := by
        unfold inBoard at hin ⊢
        rw [(fullBoard_size 5 5).1, (fullBoard_size 5 5).2] at hin
        rw [(board_board_size 5 5 7 _).1, (board_board_size 5 5 7 _).2.1]
        exact hin
      have hb2 := reachable_buffers_agree (board.board 5 5 7 (fun _ => 2))
        (Reachable.init 5 5 7 _) x y hin2
      rw [hb1, hb2]
      exact fullBoard_cells_eq x y hin⟩)
    2 (by decide) 3
end GameOfLife
